import Mathlib

/-!
# myts terminal emulator: a shallow embedding of `terminal.c`

The session record `my_sess`, the grid primitives (`erase`, `page_scroll`,
`page_scrolldown`, the clamping block `B`), the CSI interpreter `do_csi`, the
UTF-8 decoder `utf8_to_ucs2`, the scanner `page_append`, the read cycle
`term_screen`, the constructor `term_new`, the keyboard entry `term_keyin` and
the snapshot `term_state` are transcribed from `terminal.c`; the timeout of
`mainloop` from `myts.c`; the key table (`build_seq`, `ecmp`, the passes of
`launchpad_init`) and the base-character block of `process_term` from
`launchpad.c`.

Modelling conventions.

* The target is a 64-bit little-endian one with the GNU C library: `int` has
  32 bits, `long` and pointers have 64.
* C `int` values are mathematical integers (`Int`).  Where a value can leave
  the range of `int`, that is in the conversion of the CSI parameters and in
  the arithmetic of the CSI cases on them, the result is reduced to 32 bits
  in two's complement by `wrap`, as the compiled program does.  The other
  sums add two offsets on the page; they fit an `int` when the geometry is
  well formed (`Geo`) and the cursor is on the page.  Bytes, character cells
  and bit sets are natural numbers.
* A `char *` into a NUL-terminated buffer is the list of the bytes from the
  pointer to the end of the buffer (the terminator and whatever follows it
  included); a byte read past the end of the list yields NUL.
* `page`/`page16`, `attributes`, `sb_page` and `sb_attributes` are lists of
  cells, so the factor `BYTES` of the pointer arithmetic disappears; the
  global `bytesperchar` is the explicit parameter `BYTES`.
* Two fields of `my_sess` are instrumentation and have no counterpart in the
  source: `oob` records that a store or copy touched a cell outside its
  array, `nscroll` counts the calls of `page_scroll`.  The arrays are separate
  lists: what an access outside an array reads or overwrites depends on the
  layout of the memory and is not modelled (the access is dropped and `oob`
  is raised), so that the arrays of a session with `oob` raised say nothing
  about the program.
* Loops whose termination depends on the state take fuel and return `none`
  when it runs out.
-/

namespace Myts

/-! ## Constants -/

/-- Size of the keyboard queue. -/
def KMAX : Nat := 256
/-- Size of the screen queue. -/
def SMAX : Nat := 256

/-- Cursor keys mode. -/
def kf_priv : Nat := 1
/-- Hide the cursor. -/
def kf_nocursor : Nat := 2
/-- Special graphics selected for G0. -/
def kf_graphics : Nat := 4
/-- Graphic mode active. -/
def kf_dographic : Nat := 8
/-- Insert mode. -/
def kf_insert : Nat := 0x10
/-- Autowrap mode. -/
def kf_autowrap : Nat := 0x20
/-- The last column has just been written. -/
def kf_wrapped : Nat := 0x40

/-- Foreground mask shift. -/
def ka_fg_shift : Nat := 0
/-- Background mask shift. -/
def ka_bg_shift : Nat := 3
/-- Foreground mask. -/
def ka_fg : Nat := 0x07
/-- Background mask. -/
def ka_bg : Nat := 0x38

/-- The C expression `~m` on a 32-bit `int`, as an unsigned bit pattern. -/
def cnot (m : Nat) : Nat := 4294967295 - m

/-- The C expression `x & ~m`. -/
def bic (x m : Nat) : Nat := x &&& cnot m

/-- Truncation to `uint8_t`. -/
def u8 (x : Nat) : Nat := x % 256

/-- The `int` that the compiled program holds for a result whose mathematical
value is `x`: the value reduced to 32 bits in two's complement. -/
def wrap (x : Int) : Int := (x + 2147483648) % 4294967296 - 2147483648

/-! ## The session record -/

/-- The fields of `struct my_sess` used by the terminal routines. -/
structure my_sess where
  /-- descriptor of the pty (`sess.fd`) -/
  fd : Int
  klen : Int
  keys : List Nat
  kflags : Nat
  sbuf : List Nat
  rows : Int
  cols : Int
  pagelen : Int
  top : Int
  cur : Int
  modified : Int
  nowrap : Int
  originmode : Int
  scroll_top : Int
  scroll_bottom : Int
  cur_attr : Nat
  sb_lines : Int
  sb_page : List Nat
  sb_attributes : List Nat
  attributes : List Nat
  page : List Nat
  /-- instrumentation: an access fell outside its array -/
  oob : Bool
  /-- instrumentation: number of calls of `page_scroll` -/
  nscroll : Nat
  deriving DecidableEq

/-! ## Memory primitives -/

/-- The byte at offset `i` from a pointer (`s[i]`). -/
def rd (s : List Nat) (i : Nat) : Nat := s.getD i 0

/-- The libc function `index(str, c)` as a truth value; like the original it
matches the terminating NUL. -/
def index (str : List Nat) (c : Nat) : Bool := c == 0 || str.contains c

/-- The cell range `[start, start+len)` lies inside an array of `n` cells (an
empty range always does, a negative length never). -/
def inb (n : Nat) (start len : Int) : Bool :=
  len == 0 || (decide (0 < len) && decide (0 ≤ start) && decide (start + len ≤ (n : Int)))

/-- The effect of `memset` on the cells `[start, start+len)` of an array, as
far as they lie inside it; what the call does to the memory outside the array
is not modelled (`erase` raises `oob` for it). -/
def fill (m : List Nat) (start len : Int) (v : Nat) : List Nat :=
  m.mapIdx fun i x => if start ≤ (i : Int) ∧ (i : Int) < start + len then v else x

/-- The effect of `memmove`/`memcpy` of `len` cells from offset `src` of
`srcm` to offset `dst` of `dstm` (the source is read before the store). -/
def move (dstm srcm : List Nat) (dst src len : Int) : List Nat :=
  dstm.mapIdx fun i x =>
    if dst ≤ (i : Int) ∧ (i : Int) < dst + len then srcm.getD ((i : Int) - dst + src).toNat 0 else x

/-- Store of one cell at offset `i`. -/
def store (m : List Nat) (i : Int) (v : Nat) : List Nat := fill m i 1 v

/-! ## Grid primitives -/

/-- Erase part of the screen from `start` for `len` chars, attributes
included. -/
def erase (sh : my_sess) (start len : Int) : my_sess :=
  { sh with
    page := fill sh.page start len 0x20
    attributes := fill sh.attributes start len sh.cur_attr
    oob := sh.oob || !(inb sh.page.length start len) || !(inb sh.attributes.length start len) }

/-- The scrollback part of `page_scroll`: taken when `scroll_top` is 0 and
scrollback is enabled. -/
def sb_push (sh : my_sess) : my_sess :=
  let sh1 := if sh.top < sh.sb_lines - 1 then { sh with top := sh.top + 1 } else sh
  let sh2 :=
    if sh1.top > 1 then
      let t := (sh1.sb_lines - sh1.top) * sh1.cols
      { sh1 with
        sb_page := move sh1.sb_page sh1.sb_page (t - sh1.cols) t (sh1.top * sh1.cols)
        sb_attributes := move sh1.sb_attributes sh1.sb_attributes (t - sh1.cols) t (sh1.top * sh1.cols)
        oob := sh1.oob
          || !(inb sh1.sb_page.length (t - sh1.cols) (sh1.top * sh1.cols))
          || !(inb sh1.sb_page.length t (sh1.top * sh1.cols))
          || !(inb sh1.sb_attributes.length (t - sh1.cols) (sh1.top * sh1.cols))
          || !(inb sh1.sb_attributes.length t (sh1.top * sh1.cols)) }
    else sh1
  { sh2 with
    sb_page := move sh2.sb_page sh2.page ((sh2.sb_lines - 1) * sh2.cols) 0 sh2.cols
    sb_attributes := move sh2.sb_attributes sh2.attributes ((sh2.sb_lines - 1) * sh2.cols) 0 sh2.cols
    oob := sh2.oob
      || !(inb sh2.sb_page.length ((sh2.sb_lines - 1) * sh2.cols) sh2.cols)
      || !(inb sh2.page.length 0 sh2.cols)
      || !(inb sh2.sb_attributes.length ((sh2.sb_lines - 1) * sh2.cols) sh2.cols)
      || !(inb sh2.attributes.length 0 sh2.cols) }

/-- Scroll up one line, erase last line. -/
def page_scroll (sh : my_sess) : my_sess :=
  let p := sh.scroll_top * sh.cols
  let l := (sh.scroll_bottom - sh.scroll_top - 1) * sh.cols
  let sh1 := if sh.scroll_top = 0 ∧ sh.sb_lines ≠ 0 then sb_push sh else sh
  let sh2 :=
    { sh1 with
      page := move sh1.page sh1.page p (p + sh1.cols) l
      attributes := move sh1.attributes sh1.attributes p (p + sh1.cols) l
      oob := sh1.oob
        || !(inb sh1.page.length p l) || !(inb sh1.page.length (p + sh1.cols) l)
        || !(inb sh1.attributes.length p l) || !(inb sh1.attributes.length (p + sh1.cols) l)
      nscroll := sh1.nscroll + 1 }
  erase sh2 ((sh2.scroll_bottom - 1) * sh2.cols) sh2.cols

/-- Scroll down one line, erase first line. -/
def page_scrolldown (sh : my_sess) : my_sess :=
  let p := sh.scroll_top * sh.cols
  let l := (sh.scroll_bottom - sh.scroll_top - 1) * sh.cols
  let sh2 :=
    { sh with
      page := move sh.page sh.page (p + sh.cols) p l
      attributes := move sh.attributes sh.attributes (p + sh.cols) p l
      oob := sh.oob
        || !(inb sh.page.length p l) || !(inb sh.page.length (p + sh.cols) l)
        || !(inb sh.attributes.length p l) || !(inb sh.attributes.length (p + sh.cols) l) }
  erase sh2 (sh2.scroll_top * sh2.cols) sh2.cols

/-- The macro `B()`: clamp the cursor to the scroll region in origin mode, to
the page otherwise. -/
def B (sh : my_sess) : my_sess :=
  if sh.originmode ≠ 0 then
    if sh.cur < sh.scroll_top * sh.cols then { sh with cur := sh.scroll_top * sh.cols }
    else if sh.cur > sh.scroll_bottom * sh.cols then { sh with cur := sh.scroll_bottom * sh.cols }
    else sh
  else
    if sh.cur < 0 then { sh with cur := 0 }
    else if sh.cur > sh.pagelen then { sh with cur := sh.pagelen }
    else sh

/-! ## CSI sequences -/

/-- Decimal digit test. -/
def isdigit (c : Nat) : Bool := decide (48 ≤ c) && decide (c ≤ 57)

/-- One `%d` conversion on an unsigned digit string: the value and the rest of
the input, or `none` on a matching failure.  The value is the one that the C
library of a 64-bit target stores: the digits are converted as by `strtol`
(a `long`, saturating at `LONG_MAX`) and the result is stored in the `int`,
which keeps its low 32 bits.  Sign and leading white space are not modelled:
in `do_csi` such a byte ends the parameter list, so it is the command byte,
and no case of the command switch handles it. -/
def scan_int (s : List Nat) : Option (Int × List Nat) :=
  let ds := s.takeWhile isdigit
  if ds.isEmpty then none
  else
    some (wrap (min ((ds.foldl (fun a d => a * 10 + (d - 48)) 0 : Nat) : Int) 9223372036854775807),
      s.dropWhile isdigit)

/-- The call `sscanf(base, "%d;%d;%d", &a1, &a2, &a3)` with all three
variables preset to 1: the number of conversions and the three values. -/
def sscanf3 (base : List Nat) : Int × Int × Int × Int :=
  match scan_int base with
  | none => (0, 1, 1, 1)
  | some (v1, r1) =>
    if rd r1 0 ≠ 59 then (1, v1, 1, 1)
    else match scan_int (r1.drop 1) with
      | none => (1, v1, 1, 1)
      | some (v2, r2) =>
        if rd r2 0 ≠ 59 then (2, v1, v2, 1)
        else match scan_int (r2.drop 1) with
          | none => (2, v1, v2, 1)
          | some (v3, _) => (3, v1, v2, v3)

/-- The loop `for (parm = base; *parm && index("0123456789;", *parm); parm++)`. -/
def skip_parms (base : List Nat) : List Nat :=
  base.dropWhile fun c => c != 0 && index [48, 49, 50, 51, 52, 53, 54, 55, 56, 57, 59] c

/-- Case `A`: up, hang at curcol. -/
def csi_A (sh : my_sess) (a1 curcol : Int) : my_sess :=
  let a1 := if a1 = 0 then 1 else a1
  let sh := { sh with cur := wrap (sh.cur - wrap (sh.cols * a1)) }
  if sh.cur < 0 then { sh with cur := curcol } else sh

/-- Case `B`: down, hang at curcol. -/
def csi_B (sh : my_sess) (a1 curcol : Int) : my_sess :=
  let a1 := if a1 = 0 then 1 else a1
  let sh := { sh with cur := wrap (sh.cur + wrap (sh.cols * a1)) }
  if sh.cur ≥ sh.pagelen then { sh with cur := sh.pagelen - sh.cols + curcol } else sh

/-- Case `C`: right. -/
def csi_C (sh : my_sess) (a1 curcol : Int) : my_sess :=
  let a1 := if a1 = 0 then 1 else a1
  let a1 := if a1 ≥ sh.cols - curcol then sh.cols - curcol - 1 else a1
  B { sh with cur := wrap (sh.cur + a1) }

/-- Case `D`: left. -/
def csi_D (sh : my_sess) (a1 curcol : Int) : my_sess :=
  let a1 := if a1 = 0 then 1 else a1
  let a1 := if a1 > curcol then curcol else a1
  B { sh with cur := wrap (sh.cur - a1) }

/-- Case `d`: vertical position absolute. -/
def csi_d (sh : my_sess) (a1 curcol : Int) : my_sess :=
  let a1 := if a1 ≥ sh.rows then sh.rows else a1
  let sh :=
    if a1 < sh.scroll_top ∨ a1 ≥ sh.scroll_bottom then
      { sh with scroll_top := 0, scroll_bottom := sh.rows }
    else sh
  B { sh with cur := wrap (wrap (wrap (a1 - 1) * sh.cols) + curcol) }

/-- Cases `G` and backquote: horizontal position absolute. -/
def csi_G (sh : my_sess) (a1 curcol : Int) : my_sess :=
  let a1 := if a1 > sh.cols then sh.cols else a1
  B { sh with cur := wrap (sh.cur + wrap (wrap (a1 - 1) - curcol)) }

/-- Cases `H` and `f`: cursor position. -/
def csi_H (sh : my_sess) (a1 a2 : Int) : my_sess :=
  let a1 := if a1 > sh.rows then sh.rows else if a1 < 1 then 1 else a1
  let a1 := if sh.originmode ≠ 0 then a1 + sh.scroll_top else a1
  let a2 := if a2 > sh.cols then sh.cols else if a2 < 1 then 1 else a2
  let sh := B { sh with cur := (a1 - 1) * sh.cols + a2 - 1 }
  { sh with kflags := bic sh.kflags kf_wrapped }

/-- Case `h`: set mode / set dec mode. -/
def csi_h (sh : my_sess) (mark : Nat) (a1 : Int) : my_sess :=
  if mark = 63 then
    if a1 = 1 then { sh with kflags := sh.kflags ||| kf_priv }
    else if a1 = 3 then erase { sh with cur := 0 } 0 sh.pagelen
    else if a1 = 25 then { sh with kflags := bic sh.kflags kf_nocursor }
    else if a1 = 6 then
      { sh with originmode := 1, cur := sh.scroll_top * sh.cols, kflags := bic sh.kflags kf_wrapped }
    else if a1 = 7 then { sh with nowrap := 0 }
    else sh
  else sh

/-- Case `J`: erase display. -/
def csi_J (sh : my_sess) (n a1 : Int) : my_sess :=
  let a1 := if n = 0 then 0 else a1
  if a1 = 1 then erase sh 0 (sh.cur + 1)
  else if a1 = 2 then erase sh 0 sh.pagelen
  else erase sh sh.cur (sh.pagelen - sh.cur)

/-- Case `K`: erase line. -/
def csi_K (sh : my_sess) (n a1 curcol : Int) : my_sess :=
  let a1 := if n = 0 then 0 else a1
  if a1 = 1 then erase sh (sh.cur - curcol) (curcol + 1)
  else if a1 = 2 then erase sh (sh.cur - curcol) sh.cols
  else erase sh sh.cur (sh.cols - curcol)

/-- Case `l`: reset mode / reset dec mode. -/
def csi_l (sh : my_sess) (mark : Nat) (a1 : Int) : my_sess :=
  if mark = 63 then
    if a1 = 1 then { sh with kflags := bic sh.kflags kf_priv }
    else if a1 = 3 then erase { sh with cur := 0 } 0 sh.pagelen
    else if a1 = 25 then { sh with kflags := sh.kflags ||| kf_nocursor }
    else if a1 = 6 then
      { sh with originmode := 0, cur := 0, kflags := bic sh.kflags kf_wrapped }
    else sh
  else sh

/-- The loop of case `L`: `while ((a1 > 0) & (scroll_top + 1 < scroll_bottom))`,
with `a1` as the iteration bound. -/
def il_loop : Nat → my_sess → my_sess
  | 0, sh => sh
  | a1 + 1, sh =>
    if sh.scroll_top + 1 < sh.scroll_bottom then
      let sh := page_scrolldown sh
      il_loop a1 { sh with scroll_top := sh.scroll_top + 1 }
    else sh

/-- Case `L`: insert lines. -/
def csi_L (sh : my_sess) (a1 : Int) : my_sess :=
  if sh.cur ≥ sh.scroll_top * sh.cols ∧ sh.cur < sh.scroll_bottom * sh.cols then
    let save_top := sh.scroll_top
    let sh := il_loop a1.toNat { sh with scroll_top := Int.tdiv sh.cur sh.cols }
    { sh with scroll_top := save_top }
  else sh

/-- One argument of case `m`; `none` is the jump to `notfound`. -/
def sgr_arg (sh : my_sess) (arg : Int) : Option my_sess :=
  if arg = 0 then some { sh with cur_attr := 0 }
  else if arg = 1 ∨ arg = 4 ∨ arg = 5 ∨ arg = 7 ∨ arg = 22 ∨ arg = 24 ∨ arg = 25 ∨ arg = 27
      ∨ (30 ≤ arg ∧ arg ≤ 37) then
    some { sh with cur_attr := u8 (u8 (bic sh.cur_attr ka_fg) ||| (37 - arg).toNat) }
  else if arg = 39 then some { sh with cur_attr := u8 (bic sh.cur_attr ka_fg) }
  else if 40 ≤ arg ∧ arg ≤ 47 then
    some { sh with cur_attr := u8 (u8 (bic sh.cur_attr ka_bg) ||| ((47 - arg).toNat <<< ka_bg_shift)) }
  else if arg = 49 then some { sh with cur_attr := u8 (bic sh.cur_attr ka_bg) }
  else none

/-- The argument loop of case `m`, left at the first unknown argument. -/
def sgr_loop : my_sess → List Int → my_sess
  | sh, [] => sh
  | sh, arg :: rest =>
    match sgr_arg sh arg with
    | none => sh
    | some sh1 => sgr_loop sh1 rest

/-- Case `m`: set graphic rendition. -/
def csi_m (sh : my_sess) (n a1 a2 a3 : Int) : my_sess :=
  let a1 := if n = 0 then 0 else a1
  let n := if n = 0 then 1 else n
  sgr_loop sh ([a1, a2, a3].take n.toNat)

/-- Case `M`: delete lines. -/
def csi_M (sh : my_sess) (a1 : Int) : my_sess :=
  if sh.cur ≥ sh.scroll_top * sh.cols ∧ sh.cur < sh.scroll_bottom * sh.cols then
    let save_top := sh.scroll_top
    let sh := { sh with scroll_top := Int.tdiv sh.cur sh.cols }
    let sh := if sh.scroll_top + 1 < sh.scroll_bottom then page_scroll^[a1.toNat] sh else sh
    { sh with scroll_top := save_top }
  else sh

/-- Case `P`: delete n characters.  A negative length makes `memcpy` and
`memset` run over the whole address space: it is an access outside the arrays. -/
def csi_P (sh : my_sess) (a1 curcol : Int) : my_sess :=
  if wrap (curcol + a1) < sh.cols then
    let l := wrap (sh.cols - curcol - a1)
    let sh1 :=
      { sh with
        page := move sh.page sh.page sh.cur (sh.cur + a1) l
        attributes := move sh.attributes sh.attributes sh.cur (sh.cur + a1) l
        oob := sh.oob
          || !(inb sh.page.length sh.cur l) || !(inb sh.page.length (sh.cur + a1) l)
          || !(inb sh.attributes.length sh.cur l) || !(inb sh.attributes.length (sh.cur + a1) l) }
    erase sh1 (wrap (sh1.cur + l)) a1
  else erase sh sh.cur (sh.cols - curcol)

/-- Case `r`: change scroll region. -/
def csi_r (sh : my_sess) (n a1 a2 : Int) : my_sess :=
  let a1 := if n = 0 then 1 else a1
  let a2 := if n = 0 then sh.rows else a2
  if a1 ≥ 1 ∧ a1 < a2 ∧ a2 ≤ sh.rows then
    B { sh with scroll_top := a1 - 1, scroll_bottom := a2, cur := (a1 - 1) * sh.cols }
  else sh

/-- Case `X`: erase char, the next n characters. -/
def csi_X (sh : my_sess) (a1 curcol : Int) : my_sess :=
  let a1 := if wrap (a1 + curcol) > sh.cols then sh.cols - curcol else a1
  erase sh sh.cur a1

/-- The command switch of `do_csi`. -/
def csi_cmd (sh : my_sess) (cmd mark : Nat) (n a1 a2 a3 curcol : Int) : my_sess :=
  if cmd = 65 then csi_A sh a1 curcol
  else if cmd = 66 then csi_B sh a1 curcol
  else if cmd = 67 then csi_C sh a1 curcol
  else if cmd = 68 then csi_D sh a1 curcol
  else if cmd = 100 then csi_d sh a1 curcol
  else if cmd = 71 ∨ cmd = 96 then csi_G sh a1 curcol
  else if cmd = 103 then sh
  else if cmd = 72 ∨ cmd = 102 then csi_H sh a1 a2
  else if cmd = 104 then csi_h sh mark a1
  else if cmd = 74 then csi_J sh n a1
  else if cmd = 75 then csi_K sh n a1 curcol
  else if cmd = 108 then csi_l sh mark a1
  else if cmd = 76 then csi_L sh a1
  else if cmd = 109 then csi_m sh n a1 a2 a3
  else if cmd = 77 then csi_M sh a1
  else if cmd = 80 then csi_P sh a1 curcol
  else if cmd = 114 then csi_r sh n a1 a2
  else if cmd = 116 then sh
  else if cmd = 88 then csi_X sh a1 curcol
  else sh

/-- Interpret a CSI sequence; `s` points to the ESC.  Returns 0 if all ok, 1
if the sequence is incomplete; the returned pointer is the first unused
character (the command byte), or `s` itself when incomplete. -/
def do_csi (sh : my_sess) (s : List Nat) (curcol : Int) : Int × my_sess × List Nat :=
  let base := s.drop 2
  if rd base 0 = 0 then (1, sh, s)
  else
    let mark := if index [60, 61, 62, 63] (rd base 0) then rd base 0 else 32
    let base := if index [60, 61, 62, 63] (rd base 0) then base.drop 1 else base
    if rd base 0 = 0 then (1, sh, s)
    else
      let parm := skip_parms base
      let cmd := rd parm 0
      if cmd = 0 then (1, sh, s)
      else
        let r := sscanf3 base
        (0, csi_cmd sh cmd mark r.1 r.2.1 r.2.2.1 r.2.2.2 curcol, parm)

/-! ## UTF-8 decoder -/

/-- Decode one character at `input`: the return value (-1 on failure) and the
offset of `*end_ptr` from `input`. -/
def utf8_to_ucs2 (input : List Nat) : Int × Nat :=
  if rd input 0 = 0 then (-1, 0)
  else if rd input 0 < 0x80 then ((rd input 0 : Int), 1)
  else if rd input 0 &&& 0xE0 = 0xE0 then
    if rd input 1 = 0 ∨ rd input 2 = 0 then (-1, 0)
    else
      ((((rd input 0 &&& 0x0F) <<< 12 ||| (rd input 1 &&& 0x3F) <<< 6 ||| (rd input 2 &&& 0x3F) : Nat) : Int), 3)
  else if rd input 0 &&& 0xC0 = 0xC0 then
    if rd input 1 = 0 then (-1, 0)
    else ((((rd input 0 &&& 0x1F) <<< 6 ||| (rd input 1 &&& 0x3F) : Nat) : Int), 2)
  else (-1, 0)

/-! ## The scanner -/

/-- Box drawing chars, CP-437. -/
def special : List Nat :=
  [63, 0xb1, 63, 63, 63, 63, 0xf8, 0xf1,
   63, 63, 0xd9, 0xbf, 0xda, 0xc0, 0xc5, 63,
   63, 0xc4, 63, 63, 0xc3, 0xb4, 0xc1, 0xc2,
   0xb3, 0xf3, 0xf2, 0xe3, 63, 0x9c, 0xfa, 63]

/-- Box drawing chars, UCS-2. -/
def special16 : List Nat :=
  [0x25c6, 0x2592, 0x2409, 0x240c, 0x240d, 0x240a, 0x00b0, 0x00b1,
   0x2424, 0x240b, 0x2518, 0x2510, 0x250c, 0x2514, 0x253c, 0x23ba,
   0x23bb, 0x2500, 0x23bc, 0x23bd, 0x251c, 0x2524, 0x2534, 0x252c,
   0x2502, 0x2264, 0x2265, 0x03c0, 0x2260, 0x00a3, 0x00b7, 0x0020]

/-- The test `UTF8`, that is `BYTES == 2`. -/
def UTF8 (BYTES : Nat) : Bool := BYTES == 2

/-- The loop `while (sh->cur >= sh->scroll_bottom * sh->cols)` of the line
feed, next line and printable cases; `none` when the fuel runs out. -/
def scroll_loop : Nat → my_sess → Option my_sess
  | 0, _ => none
  | fuel + 1, sh =>
    if sh.cur ≥ sh.scroll_bottom * sh.cols then
      scroll_loop fuel (page_scroll (B { sh with cur := sh.cur - sh.cols }))
    else some sh

/-- Fuel that suffices for `scroll_loop` whenever the loop terminates with a
positive `cols`: the cursor loses `cols` in every round but the last. -/
def scroll_fuel (sh : my_sess) : Nat := (sh.cur - sh.scroll_bottom * sh.cols).toNat + 2

/-- Outcome of one round of the loop of `page_append`: go on at the given
pointer, leave the function with the given pointer, or no outcome (a loop
inside the round ran out of fuel). -/
inductive Step where
  | next (sh : my_sess) (s : List Nat)
  | stop (sh : my_sess) (s : List Nat)
  | diverge
  deriving DecidableEq

/-- The pointer update at the end of a round: `s = ns` in UTF-8 mode, `s++`
otherwise; `soff` and `nsoff` are the offsets of `s` and `ns` from the pointer
at the start of the round. -/
def advance (BYTES : Nat) (s : List Nat) (soff nsoff : Nat) : List Nat :=
  if UTF8 BYTES then s.drop nsoff else s.drop (soff + 1)

/-- Case CR. -/
def ctl_cr (sh : my_sess) (curcol : Int) : my_sess :=
  let sh := { sh with cur := sh.cur - curcol }
  let sh := if sh.kflags &&& kf_wrapped ≠ 0 then { sh with cur := sh.cur - sh.cols } else sh
  let sh := B sh
  { sh with kflags := bic sh.kflags kf_wrapped }

/-- Case TAB: simplified version, 8-pos tabs. -/
def ctl_tab (sh : my_sess) (curcol : Int) : my_sess :=
  if curcol ≥ sh.cols - 8 then B { sh with cur := sh.cur + (sh.cols - 1 - curcol) }
  else B { sh with cur := sh.cur + (8 - Int.tmod curcol 8) }

/-- Case backspace. -/
def ctl_bs (sh : my_sess) (curcol : Int) : my_sess :=
  if curcol > 0 then B { sh with cur := sh.cur - 1 } else B sh

/-- ESC `(` or `)` followed by the byte `sel`; `intro` is the byte after ESC. -/
def esc_charset (sh : my_sess) (intro sel : Nat) : my_sess :=
  if sel = 48 then
    { sh with kflags := sh.kflags ||| (if intro = 40 then kf_graphics ||| kf_dographic else kf_dographic) }
  else if sel = 66 then { sh with kflags := bic sh.kflags (kf_graphics ||| kf_dographic) }
  else sh

/-- The line-feed part shared by LF and ESC E: consume a pending wrap or go
down one row. -/
def newline (sh : my_sess) : my_sess :=
  if sh.kflags &&& kf_wrapped ≠ 0 then { sh with kflags := bic sh.kflags kf_wrapped }
  else { sh with cur := sh.cur + sh.cols }

/-- ESC E: next line. -/
def esc_E (sh : my_sess) (curcol : Int) : Option my_sess :=
  let sh := newline { sh with cur := sh.cur - curcol }
  scroll_loop (scroll_fuel sh) sh

/-- ESC M: reverse index. -/
def esc_M (sh : my_sess) : my_sess :=
  let sh := { sh with cur := sh.cur - sh.cols }
  let sh :=
    if sh.cur < sh.scroll_top * sh.cols then page_scrolldown { sh with cur := sh.cur + sh.cols }
    else sh
  B { sh with kflags := bic sh.kflags kf_wrapped }

/-- ESC `#` followed by the byte `sel`. -/
def esc_hash (sh : my_sess) (sel : Nat) : my_sess :=
  if sel = 56 then
    { sh with
      page := fill sh.page 0 sh.pagelen 69
      attributes := fill sh.attributes 0 sh.pagelen sh.cur_attr
      oob := sh.oob || !(inb sh.page.length 0 sh.pagelen) || !(inb sh.attributes.length 0 sh.pagelen) }
  else sh

/-- The store of a character other than LF: the cell, its attribute, the
wrap marker and the cursor. -/
def put (BYTES : Nat) (sh : my_sess) (c : Nat) (curcol : Int) : my_sess :=
  let sh :=
    if c ≥ 0x60 ∧ c < 0x7f ∧ sh.kflags &&& kf_dographic ≠ 0 ∧ sh.kflags &&& kf_graphics ≠ 0 then
      { sh with
        page := store sh.page sh.cur ((if UTF8 BYTES then special16 else special).getD (c - 0x60) 0)
        oob := sh.oob || !(inb sh.page.length sh.cur 1) }
    else
      { sh with
        page := store sh.page sh.cur c
        attributes := store sh.attributes sh.cur sh.cur_attr
        kflags := bic sh.kflags kf_wrapped
        oob := sh.oob || !(inb sh.page.length sh.cur 1) || !(inb sh.attributes.length sh.cur 1) }
  let sh := if curcol = sh.cols - 1 then { sh with kflags := sh.kflags ||| kf_wrapped } else sh
  let sh := { sh with cur := sh.cur + 1 }
  if sh.cur > sh.pagelen then { sh with cur := 0 } else sh

/-- The default case: all other chars. -/
def ctl_default (BYTES : Nat) (sh : my_sess) (c : Nat) (curcol : Int) : Option my_sess :=
  let sh := if c = 10 then newline sh else sh
  match scroll_loop (scroll_fuel sh) sh with
  | none => none
  | some sh => if c ≠ 10 then some (put BYTES sh c curcol) else some sh

/-- The escape case; `s` points to the ESC, `ns` is the offset left by the
decoder. -/
def ctl_esc (BYTES : Nat) (sh : my_sess) (s : List Nat) (curcol : Int) (ns : Nat) : Step :=
  if rd s 1 = 0 then .stop sh s
  else if rd s 1 = 91 then
    let r := do_csi sh s curcol
    if r.1 ≠ 0 then .stop r.2.1 r.2.2
    else .next r.2.1 (r.2.2.drop 1)
  else if index [40, 41] (rd s 1) then
    if rd s 2 = 0 then .stop sh s
    else .next (esc_charset sh (rd s 1) (rd s 2)) (advance BYTES s 2 (ns + 2))
  else if index [72, 61, 62] (rd s 1) then .next sh (advance BYTES s 1 (ns + 1))
  else if rd s 1 = 99 then .next { sh with cur := 0, top := 0 } (advance BYTES s 1 (ns + 1))
  else if rd s 1 = 68 then .next (B { sh with cur := sh.cur + sh.cols }) (advance BYTES s 1 (ns + 1))
  else if rd s 1 = 69 then
    match esc_E sh curcol with
    | none => .diverge
    | some sh => .next sh (advance BYTES s 1 (ns + 1))
  else if rd s 1 = 77 then .next (esc_M sh) (advance BYTES s 1 (ns + 1))
  else if rd s 1 = 35 then .next (esc_hash sh (rd s 2)) (advance BYTES s 2 (ns + 2))
  else .next sh (advance BYTES s 1 (ns + 1))

/-- The statement `switch (c)` of the loop of `page_append` and the pointer
update after it; `ns` is the offset left by the decoder. -/
def ctl_switch (BYTES : Nat) (sh : my_sess) (s : List Nat) (c ns : Nat) (curcol : Int) : Step :=
  if c = 13 then .next (ctl_cr sh curcol) (advance BYTES s 0 ns)
  else if c = 0x0e then .next { sh with kflags := sh.kflags ||| kf_dographic } (advance BYTES s 0 ns)
  else if c = 0x0f then .next { sh with kflags := bic sh.kflags kf_dographic } (advance BYTES s 0 ns)
  else if c = 7 then .next sh (advance BYTES s 0 ns)
  else if c = 9 then .next (ctl_tab sh curcol) (advance BYTES s 0 ns)
  else if c = 8 then .next (ctl_bs sh curcol) (advance BYTES s 0 ns)
  else if c = 27 then ctl_esc BYTES sh s curcol ns
  else
    match ctl_default BYTES sh c curcol with
    | none => .diverge
    | some sh => .next sh (advance BYTES s 0 ns)

/-- The character decoded at the start of a round: the code point in UTF-8
mode (U+FFFD for an invalid sequence), the byte `*s` otherwise. -/
def decode_c (BYTES : Nat) (s : List Nat) : Nat :=
  if UTF8 BYTES then (if (utf8_to_ucs2 s).1 < 0 then 0xfffd else (utf8_to_ucs2 s).1.toNat)
  else rd s 0

/-- The offset of `ns` after the decoding: one past `s` for an invalid
sequence. -/
def decode_ns (s : List Nat) : Nat :=
  if (utf8_to_ucs2 s).1 < 0 then (utf8_to_ucs2 s).2 + 1 else (utf8_to_ucs2 s).2

/-- One round of the loop of `page_append`, entered with `*s` not NUL. -/
def page_append_step (BYTES : Nat) (sh : my_sess) (s : List Nat) : Step :=
  ctl_switch BYTES sh s (decode_c BYTES s) (decode_ns s) (Int.tmod sh.cur sh.cols)

/-- The loop `for (; *s; )` of `page_append`; every round moves the pointer
forward, so the rounds are bounded by the length of the buffer. -/
def page_append_loop (BYTES : Nat) : Nat → my_sess → List Nat → Option (my_sess × List Nat)
  | 0, _, _ => none
  | fuel + 1, sh, s =>
    if rd s 0 = 0 then some (sh, s)
    else
      match page_append_step BYTES sh s with
      | .next sh1 s1 => page_append_loop BYTES fuel sh1 s1
      | .stop sh1 s1 => some (sh1, s1)
      | .diverge => none

/-- Append a string to a page, interpreting ANSI sequences.  Returns the
session and a pointer to leftover chars. -/
def page_append (BYTES : Nat) (sh : my_sess) (s : List Nat) : Option (my_sess × List Nat) :=
  page_append_loop BYTES (s.length + 1) sh s

/-! ## Reading from the shell, creating a session -/

/-- The libc function `strlen`. -/
def strlen (s : List Nat) : Nat := (s.takeWhile fun c => c != 0).length

/-- The effect of `strcpy(dst, src)` on the buffer `dst`, for a source that is
read before it is overwritten. -/
def strcpy (dst src : List Nat) : List Nat :=
  (src.takeWhile fun c => c != 0) ++ 0 :: dst.drop (strlen src + 1)

/-- Process screen output from the shell.  `data` is what the pty holds: `read`
delivers its first `sizeof(sbuf) - 1 - spos` bytes at most, and returns 0 when
there is nothing to deliver.  The result is the return value and the session;
`none` when `page_append` has no outcome. -/
def term_screen (BYTES : Nat) (sh : my_sess) (data : List Nat) : Option (Int × my_sess) :=
  let spos := strlen sh.sbuf
  let got := data.take (SMAX - 1 - spos)
  if got.length = 0 then some (1, { sh with fd := -1 })
  else
    let buf := sh.sbuf.take spos ++ got ++ 0 :: sh.sbuf.drop (spos + got.length + 1)
    let sh := { sh with sbuf := buf, modified := 1 }
    match page_append BYTES sh sh.sbuf with
    | none => none
    | some (sh1, s) => some (0, { sh1 with sbuf := strcpy sh1.sbuf s })

/-- Create a terminal session: the record before any output of the shell is
read.  `fd` is the descriptor that `forkpty` returns. -/
def term_new (rows cols sb_lines fd : Int) : my_sess :=
  let rows := if rows < 4 ∨ rows > 80 then 25 else rows
  let cols := if cols < 10 ∨ cols > 160 then 80 else cols
  let l := rows * cols
  erase
    { fd := fd, klen := 0, keys := List.replicate KMAX 0, kflags := 0
      sbuf := List.replicate SMAX 0
      rows := rows, cols := cols, pagelen := rows * cols
      top := 0, cur := 0, modified := 1, nowrap := 0, originmode := 0
      scroll_top := 0, scroll_bottom := rows, cur_attr := 0
      sb_lines := sb_lines
      sb_page := List.replicate (sb_lines * cols).toNat 0
      sb_attributes := List.replicate (sb_lines * cols).toNat 0
      attributes := List.replicate l.toNat 0
      page := List.replicate l.toNat 0
      oob := false, nscroll := 0 }
    0 (rows * cols)

/-! ## Layout of the session record -/

/-- The value of `sizeof(struct my_sess)` on a 64-bit target (pointers of 8
bytes, `int` of 4 bytes, natural alignment); `term_new` puts the session name
right behind the record: `s->name = (char *)(s + 1)`. -/
def sizeof_my_sess : Int := 688

/-- The value of `offsetof(struct my_sess, scroll_top)` on the same target. -/
def offsetof_scroll_top : Int := 632

/-- The value of `offsetof(struct my_sess, cur_attr)` on the same target. -/
def offsetof_cur_attr : Int := 640

/-- The offset of the byte `page[i]` from the start of the session record in
8-bit mode: `s->page = s->name + ln`, with `ln = strlen(name) + 1`. -/
def page_byte (ln i : Int) : Int := sizeof_my_sess + ln + i

/-! ## Predicates used by the statements -/

/-- Well-formed geometry and scroll region.  The last conjunct keeps the page
so small that the sum of two offsets on it fits an `int` (`term_new` creates
at most 80 rows of 160 columns). -/
def Geo (sh : my_sess) : Prop :=
  0 < sh.cols ∧ 0 < sh.rows ∧ sh.pagelen = sh.rows * sh.cols ∧
  0 ≤ sh.scroll_top ∧ sh.scroll_top < sh.scroll_bottom ∧ sh.scroll_bottom ≤ sh.rows ∧
  sh.pagelen < 1073741824

/-- Well-formed geometry with the cursor on the page or just past it. -/
def WF (sh : my_sess) : Prop := Geo sh ∧ 0 ≤ sh.cur ∧ sh.cur ≤ sh.pagelen

/-- Same control state: `b` differs from `a` at most in the cell arrays, in
the scrollback fill `top` and in the instrumentation. -/
def SameCtl (a b : my_sess) : Prop :=
  b.cols = a.cols ∧ b.rows = a.rows ∧ b.pagelen = a.pagelen ∧
  b.scroll_top = a.scroll_top ∧ b.scroll_bottom = a.scroll_bottom ∧ b.cur = a.cur ∧
  b.originmode = a.originmode ∧ b.kflags = a.kflags ∧ b.cur_attr = a.cur_attr ∧
  b.sb_lines = a.sb_lines

/-- Feed chunks one at a time through the `term_screen` cycle. -/
def feed (BYTES : Nat) : my_sess → List (List Nat) → Option my_sess
  | sh, [] => some sh
  | sh, chunk :: rest =>
    match term_screen BYTES sh chunk with
    | none => none
    | some r => feed BYTES r.2 rest

/-- A round that goes on does so at a pointer with fewer than `n` bytes left. -/
def Step.Shorter (n : Nat) : Step → Prop
  | .next _ s => s.length < n
  | _ => True

/-- The session of the outcome of a round, if there is one, satisfies `P`. -/
def Step.All (P : my_sess → Prop) : Step → Prop
  | .next sh _ => P sh
  | .stop sh _ => P sh
  | .diverge => True

/-- The geometry and the sizes of the arrays of `b` are those of `a`. -/
def Frame (a b : my_sess) : Prop :=
  b.rows = a.rows ∧ b.cols = a.cols ∧ b.pagelen = a.pagelen ∧
  b.page.length = a.page.length ∧ b.attributes.length = a.attributes.length ∧
  b.sb_lines = a.sb_lines ∧ b.sb_page.length = a.sb_page.length ∧
  b.sb_attributes.length = a.sb_attributes.length

/-- The page and the attribute array have `pagelen` cells. -/
def Shape (sh : my_sess) : Prop :=
  (sh.page.length : Int) = sh.pagelen ∧ (sh.attributes.length : Int) = sh.pagelen

/-- The code that `put` stores for the character `c` under the flags
`kflags`: the box-drawing glyph when the graphics translation applies, `c`
itself otherwise. -/
def glyph (BYTES : Nat) (kflags : Nat) (c : Nat) : Nat :=
  if c ≥ 0x60 ∧ c < 0x7f ∧ kflags &&& kf_dographic ≠ 0 ∧ kflags &&& kf_graphics ≠ 0 then
    (if UTF8 BYTES then special16 else special).getD (c - 0x60) 0
  else c

/-- The stores of a run of characters other than LF, none of which scrolls. -/
def puts (BYTES : Nat) : my_sess → List Nat → my_sess
  | sh, [] => sh
  | sh, c :: w => puts BYTES (put BYTES sh c (Int.tmod sh.cur sh.cols)) w

/-- Printable ASCII bytes. -/
def printable (w : List Nat) : Prop := ∀ c ∈ w, 32 ≤ c ∧ c ≤ 126

/-- The cursor value that `B` leaves for the cursor value `x`. -/
def B_cur (sh : my_sess) (x : Int) : Int :=
  if sh.originmode ≠ 0 then
    (if x < sh.scroll_top * sh.cols then sh.scroll_top * sh.cols
     else if x > sh.scroll_bottom * sh.cols then sh.scroll_bottom * sh.cols else x)
  else (if x < 0 then 0 else if x > sh.pagelen then sh.pagelen else x)

/-- The decimal digits of `n` as bytes, most significant first (empty for 0). -/
def dec (n : Nat) : List Nat := ((Nat.digits 10 n).map fun d => d + 48).reverse

/-- The bytes that the parameter loop of `do_csi` skips: digits and `;`. -/
def isparm (c : Nat) : Bool := c != 0 && index [48, 49, 50, 51, 52, 53, 54, 55, 56, 57, 59] c

/-! ## Cells by row and column -/

/-- The character cell in row `r`, column `c` of the page. -/
def cell (sh : my_sess) (r c : Int) : Nat := sh.page.getD (r * sh.cols + c).toNat 0

/-- The attribute cell in row `r`, column `c` of the page. -/
def acell (sh : my_sess) (r c : Int) : Nat := sh.attributes.getD (r * sh.cols + c).toNat 0

/-- The session that `ESC [ 1 ; 3 r` leaves on a fresh 4x10 session: scroll
region rows 0 to 2. -/
def region_sess : my_sess := csi_r (term_new 4 10 0 3) 2 1 3

/-- The character cell in row `r`, column `c` of the scrollback. -/
def sb_cell (sh : my_sess) (r c : Int) : Nat := sh.sb_page.getD (r * sh.cols + c).toNat 0

/-- The attribute cell in row `r`, column `c` of the scrollback. -/
def sb_acell (sh : my_sess) (r c : Int) : Nat := sh.sb_attributes.getD (r * sh.cols + c).toNat 0

/-- The value of `top` after the test `if (sh->top < sh->sb_lines - 1) sh->top++`. -/
def top_next (sh : my_sess) : Int := if sh.top < sh.sb_lines - 1 then sh.top + 1 else sh.top

/-! ## UTF-8 encoding -/

/-- The standard UTF-8 encoding of a code point below 0x10000: one byte below
0x80, two bytes below 0x800, three bytes from there on. -/
def utf8_encode (c : Nat) : List Nat :=
  if c < 0x80 then [c]
  else if c < 0x800 then [0xC0 ||| (c >>> 6), 0x80 ||| (c &&& 0x3F)]
  else [0xE0 ||| (c >>> 12), 0x80 ||| ((c >>> 6) &&& 0x3F), 0x80 ||| (c &&& 0x3F)]

/-! ## The keyboard queue -/

/-- The effect of `strncat(dst + off, src, n)` on the buffer `dst`: at most `n`
bytes of the string `src` are appended to the string that starts at offset
`off`, followed by a NUL. -/
def strncat (dst : List Nat) (off : Nat) (src : List Nat) (n : Nat) : List Nat :=
  let e := off + strlen (dst.drop off)
  let app := (src.takeWhile fun c => c != 0).take n
  dst.take e ++ app ++ 0 :: dst.drop (e + app.length + 1)

/-- The caller's string `k` after the first statement of `term_keyin`: map
arrow keys to DEC in private mode. -/
def keyin_map (kflags : Nat) (k : List Nat) : List Nat :=
  if kflags &&& kf_priv ≠ 0 ∧ strlen k > 2 ∧ rd k 0 = 27 ∧ rd k 1 = 91 ∧
      index [65, 66, 67, 68] (rd k 2) = true then
    k.set 1 79
  else k

/-- Send a NUL-terminated string to the terminal: the session after the call
(the return value is always 0).  The count `sizeof(sh->keys) - 1 - sh->klen`
is computed in `size_t`, taken as 64 bits wide. -/
def term_keyin (sh : my_sess) (k : List Nat) : my_sess :=
  let k := keyin_map sh.kflags k
  let n := (((KMAX : Int) - 1 - sh.klen) % 2 ^ 64).toNat
  let e := sh.klen.toNat + strlen (sh.keys.drop sh.klen.toNat)
  let app := (k.takeWhile fun c => c != 0).take n
  let keys := strncat sh.keys sh.klen.toNat k n
  { sh with
    keys := keys
    klen := (strlen keys : Int)
    oob := sh.oob || decide (sh.klen < 0) || !(inb sh.keys.length (e : Int) ((app.length : Int) + 1)) }

/-- The pending bytes of the keyboard queue: the string in `keys`. -/
def queue (sh : my_sess) : List Nat := sh.keys.takeWhile fun c => c != 0

/-- The keyboard queue is well formed: `keys` has `KMAX` bytes and `klen` is
the length of the string in it, at most `KMAX - 1`. -/
def KeysOk (sh : my_sess) : Prop :=
  sh.keys.length = KMAX ∧ sh.klen = (strlen sh.keys : Int) ∧ sh.klen ≤ 255

/-! ## The snapshot of a session -/

/-- Flag of `term_state`: update `modified`. -/
def TS_MOD : Nat := 1
/-- Flag of `term_state`: update the callback. -/
def TS_CB : Nat := 2
/-- Flag of `term_state`: update the name. -/
def TS_NAME : Nat := 4

/-- The record `struct term_state`.  The pointers `data`, `attr`, `sb_data` and
`sb_attr` are the arrays they point to; the callback and the name are plain
values. -/
structure term_state_t where
  flags : Nat
  modified : Int
  rows : Int
  cols : Int
  cur : Int
  pid : Int
  top : Int
  cb : Nat
  name : Nat
  data : List Nat
  attr : List Nat
  sb_data : List Nat
  sb_attr : List Nat
  deriving DecidableEq

/-- Return the `modified` flag; if `ptr` is set, update the flag, the callback
and the name as `ptr->flags` asks and return the info to access the screen
area.  `cb` and `name` are the fields of the session of these names, which
the record `my_sess` does not carry; a null session is `none`.  The result is
the return value, the session, its callback and name, and the record behind
`ptr`. -/
def term_state (sess : Option my_sess) (cb name : Nat) (ptr : Option term_state_t) :
    Int × Option my_sess × Nat × Nat × Option term_state_t :=
  match sess with
  | none => (0, none, cb, name, ptr)
  | some sh =>
    match ptr with
    | none => (sh.modified, some sh, cb, name, none)
    | some p =>
      let sh1 := if p.flags &&& TS_MOD ≠ 0 then { sh with modified := p.modified } else sh
      let p := if p.flags &&& TS_MOD ≠ 0 then p else { p with modified := sh.modified }
      let cb1 := if p.flags &&& TS_CB ≠ 0 then p.cb else cb
      let p := if p.flags &&& TS_CB ≠ 0 then p else { p with cb := cb }
      let name1 := if p.flags &&& TS_NAME ≠ 0 then p.name else name
      let p := if p.flags &&& TS_NAME ≠ 0 then p else { p with name := name }
      (sh.modified, some sh1, cb1, name1,
        some { p with
          rows := sh1.rows, cols := sh1.cols
          cur := if sh1.kflags &&& kf_nocursor ≠ 0 then -1 else sh1.cur
          data := sh1.page, attr := sh1.attributes
          sb_data := sh1.sb_page, sb_attr := sh1.sb_attributes
          top := sh1.top })

/-! ## The event loop and the input devices -/

/-- The record `struct timeval`. -/
structure timeval where
  tv_sec : Int
  tv_usec : Int
  deriving DecidableEq

/-- The timeout that `mainloop` passes to `select`: `a.due` as the callbacks of
the sessions left it, less `a.now` as the second `gettimeofday` set it, with
the borrow, the cap and the floor of the loop body. -/
def mainloop_timeout (due now : timeval) : timeval :=
  let d : timeval := { tv_sec := due.tv_sec - now.tv_sec, tv_usec := due.tv_usec - now.tv_usec }
  let d : timeval :=
    if d.tv_usec < 0 then { tv_sec := d.tv_sec - 1, tv_usec := d.tv_usec + 1000000 } else d
  let d : timeval := if d.tv_sec > 100 then { d with tv_sec := 100 } else d
  if d.tv_sec < 0 then { tv_sec := 0, tv_usec := 0 } else d

/-- A time in microseconds. -/
def usecs (t : timeval) : Int := t.tv_sec * 1000000 + t.tv_usec

/-- The test of `launchpad_init` on the descriptors of the keypad, five-way
and volume devices, just after they are opened: `true` when it logs
"no input available" and returns -1. -/
def no_input (kpad_fdin fw_fdin vol_fdin : Int) : Bool :=
  kpad_fdin == -1 && fw_fdin == -1 && vol_fdin != 0

/-- Key type: send. -/
def KT_SEND : Nat := 0
/-- Key type: five-way. -/
def KT_FW : Nat := 1
/-- Key type: volume. -/
def KT_VOL : Nat := 2
/-- Key type: shift. -/
def KT_SHIFT : Nat := 3
/-- Key type: alt. -/
def KT_ALT : Nat := 4
/-- Key type: symbol. -/
def KT_SYM : Nat := 5

/-- The record `struct key_entry`.  `name` is the pointer of that field (the
bytes from it to the end of the string it points into); the name proper is
its first `namelen` bytes. -/
structure key_entry where
  name : List Nat
  namelen : Nat
  type : Nat
  code : Nat
  ysteps : Nat
  deriving DecidableEq

/-- A slot of `lps->e` after the `memset` of `launchpad_init`. -/
def zero_entry : key_entry := { name := [], namelen := 0, type := 0, code := 0, ysteps := 0 }

/-- The name proper of a key entry. -/
def key_name (e : key_entry) : List Nat := e.name.take e.namelen

/-- One `key = value` entry of a section of the configuration. -/
structure entry where
  key : List Nat
  value : List Nat
  deriving DecidableEq

/-- The part of `struct lp_state` that `build_seq` works on: the entries
`e[0 .. nentries)`, the slot `e[nentries]` that the loop prepares for the next
entry, and (instrumentation) whether a slot outside the 256 of `e` was
written. -/
structure lp_keys where
  e : List key_entry
  next : key_entry
  oob : Bool
  deriving DecidableEq

/-- The libc function `isspace` in the C locale. -/
def isspace (c : Nat) : Bool := c == 32 || (decide (9 ≤ c) && decide (c ≤ 13))

/-- The libc function `atoi`, for values that fit an `int`: white space, an
optional sign, decimal digits. -/
def atoi (s : List Nat) : Int :=
  let s := s.dropWhile isspace
  let v : Nat :=
    ((if rd s 0 = 45 ∨ rd s 0 = 43 then s.drop 1 else s).takeWhile isdigit).foldl
      (fun a d => a * 10 + (d - 48)) 0
  if rd s 0 = 45 then -(v : Int) else (v : Int)

/-- Conversion of an `int` to `uint8_t`. -/
def to_u8 (x : Int) : Nat := (x % 256).toNat

/-- The libc function `tolower` in the C locale. -/
def tolower (c : Nat) : Nat := if 65 ≤ c ∧ c ≤ 90 then c + 32 else c

/-- The libc function `strncasecmp`. -/
def strncasecmp : List Nat → List Nat → Nat → Int
  | _, _, 0 => 0
  | s1, s2, n + 1 =>
    if tolower (rd s1 0) ≠ tolower (rd s2 0) then
      (tolower (rd s1 0) : Int) - (tolower (rd s2 0) : Int)
    else if rd s1 0 = 0 then 0
    else strncasecmp (s1.drop 1) (s2.drop 1) n

/-- The libc function `strcspn`. -/
def strcspn (s reject : List Nat) : Nat :=
  (s.takeWhile fun c => c != 0 && !reject.contains c).length

/-- The loop `while ((l = strcspn(s, " \t")) || *s)` of `build_seq`: one entry
for each token of the value; every round moves `s` forward, so the rounds are
bounded by the length of the string. -/
def seq_tokens : Nat → lp_keys → List Nat → Option lp_keys
  | 0, _, _ => none
  | fuel + 1, st, s =>
    if strcspn s [32, 9] = 0 ∧ rd s 0 = 0 then some st
    else if strcspn s [32, 9] = 0 then seq_tokens fuel st (s.drop 1)
    else
      let s1 := if rd s 0 = 92 then s.drop 1 else s
      let l1 := if rd s 0 = 92 then strcspn s [32, 9] - 1 else strcspn s [32, 9]
      let ent : key_entry := { st.next with name := s1, namelen := l1 % 256 }
      seq_tokens fuel
        { e := st.e ++ [ent]
          next := { ent with code := (ent.code + 1) % 256 }
          oob := st.oob || decide (255 ≤ st.e.length) }
        (s1.drop l1)

/-- The body of the loop over the entries of the section in `build_seq`. -/
def build_entry (st : lp_keys) (k : entry) : Option lp_keys :=
  let cur : key_entry := { st.next with type := KT_SEND, code := to_u8 (atoi k.key) }
  let cur : key_entry :=
    if index [115, 102, 118] (rd k.key 0) = true then
      { cur with
        type := if rd k.key 0 = 115 then KT_SHIFT else if rd k.key 0 = 102 then KT_FW else KT_VOL
        code := to_u8 (atoi (k.key.drop 1)) }
    else if strncasecmp k.key [114, 111, 119] 3 = 0 then
      { cur with type := KT_SYM, ysteps := to_u8 (atoi (k.key.drop 3)), code := 0 }
    else cur
  seq_tokens (k.value.length + 1)
    { st with next := cur, oob := st.oob || decide (256 ≤ st.e.length) } k.value

/-- The loop `for (k = cfg_find_entry(sec, NULL); k; k = k->next)`. -/
def build_entries : lp_keys → List entry → Option lp_keys
  | st, [] => some st
  | st, k :: ks =>
    match build_entry st k with
    | none => none
    | some st1 => build_entries st1 ks

/-- Helper function that, given `N = a b c d ...`, appends to `lps->e` the
key entries for the keydefs on the right side; `none` for `sec` is the null
section.  The result is the return value and the table. -/
def build_seq (st : lp_keys) (sec : Option (List entry)) : Option (Int × lp_keys) :=
  match sec with
  | none => some (1, st)
  | some ks =>
    match build_entries st ks with
    | none => none
    | some st1 => some (0, st1)

/-- The value of a byte read through a `char`, which is signed on the target. -/
def schar (c : Nat) : Int := if c < 128 then (c : Int) else (c : Int) - 256

/-- Compare two key entries: by length and then by string; one-byte entries
are case-sensitive, others case-insensitive. -/
def ecmp (l r : key_entry) : Int :=
  if (l.namelen : Int) - (r.namelen : Int) ≠ 0 then (l.namelen : Int) - (r.namelen : Int)
  else if l.namelen = 1 then schar (rd l.name 0) - schar (rd r.name 0)
  else strncasecmp l.name r.name l.namelen

/-- The comparison of the initial sorting: breaks ties looking at the type. -/
def ecmp1 (l r : key_entry) : Int :=
  if ecmp l r ≠ 0 then ecmp l r else (l.type : Int) - (r.type : Int)

/-- The libc function `qsort` on an array given as a list.  Elements that
compare equal, whose order the C standard leaves open, keep the order of an
insertion sort. -/
def qsort (cmp : key_entry → key_entry → Int) (l : List key_entry) : List key_entry :=
  l.insertionSort fun a b => cmp a b ≤ 0

/-- The first pass of `launchpad_init` over the sorted table, from the entry
after `prev` on: an entry that compares equal to its predecessor gets the type
255. -/
def mark_dups (prev : key_entry) : List key_entry → List key_entry
  | [] => []
  | b :: t =>
    (if ecmp prev b = 0 then { b with type := 255 } else b) ::
      mark_dups (if ecmp prev b = 0 then { b with type := 255 } else b) t

/-- The second pass of `launchpad_init`: the loop
`for (i = 0; i < nentries; i++)` that overwrites an entry of type 255 with the
last one; the result is the array and `nentries`. -/
def bubble_dups : Nat → List key_entry → Nat → Nat → Option (List key_entry × Nat)
  | 0, _, _, _ => none
  | fuel + 1, tab, n, i =>
    if i < n then
      if (tab.getD i zero_entry).type = 255 then
        bubble_dups fuel (tab.set i (tab.getD (n - 1) zero_entry)) (n - 1) (i + 1)
      else bubble_dups fuel tab n (i + 1)
    else some (tab, n)

/-- The sort, collapse and re-sort passes of `launchpad_init` on the loaded
entries `e[0 .. nentries)`: the entries of the final table. -/
def sort_keys (loaded : List key_entry) : Option (List key_entry) :=
  let t1 := qsort ecmp1 loaded
  let t2 := match t1 with
    | [] => []
    | a :: t => a :: mark_dups a t
  match bubble_dups (t2.length + 1) t2 t2.length 0 with
  | none => none
  | some (t3, n) => some (qsort ecmp (t3.take n))

/-- The empty table that `launchpad_init` starts from. -/
def lp_empty : lp_keys := { e := [], next := zero_entry, oob := false }

/-- The two calls of `build_seq` in `launchpad_init`, on the section `inkeys`
and on the section of the platform, from the empty table. -/
def load_keys (inkeys platform : Option (List entry)) : Option lp_keys :=
  match build_seq lp_empty inkeys with
  | none => none
  | some r =>
    match build_seq r.2 platform with
    | none => none
    | some r1 => some r1.2

/-! ## The base character of a key -/

/-- The libc function `isalpha` in the C locale. -/
def isalpha (c : Nat) : Bool :=
  (decide (65 ≤ c) && decide (c ≤ 90)) || (decide (97 ≤ c) && decide (c ≤ 122))

/-- The shifted digits of `process_term`: the characters `)!@#$%^&*(`. -/
def shifted_digits : List Nat := [41, 33, 64, 35, 36, 37, 94, 38, 42, 40]

/-- The macro `E_IS(e, s)` of `process_term`. -/
def E_IS (e : key_entry) (s : List Nat) : Bool :=
  e.namelen == strlen s && strncasecmp e.name s e.namelen == 0

/-- The block `if (!k[0])` that ends the press branch of `process_term`: the
bytes of the string `k` after it.  `k` is the string as the chain of tests on
the modifier keys and on `fn`, `sym`, `lang` and `langlock` before the block
left it (empty when none of them applied); `shift` and `ctrl` are the static
flags of these names; `is_esc` is the test `ev->code == lps->term_esc`.  A
`char` is taken as a byte, so `k[0] += x` is an addition modulo 256. -/
def process_term_base (e : key_entry) (shift ctrl : Int) (is_esc : Bool) (k : List Nat) :
    List Nat :=
  if rd k 0 ≠ 0 then k
  else if e.namelen = 1 then
    if isalpha (rd e.name 0) then
      if shift ≠ 0 then [to_u8 ((rd e.name 0 : Int) + (65 - 97))]
      else if ctrl ≠ 0 then [to_u8 ((rd e.name 0 : Int) + (1 - 97))]
      else [rd e.name 0]
    else if isdigit (rd e.name 0) then
      if shift ≠ 0 then [shifted_digits.getD (rd e.name 0 - 48) 0]
      else if ctrl ≠ 0 then [to_u8 ((rd e.name 0 : Int) + (1 - 97))]
      else [rd e.name 0]
    else [rd e.name 0]
  else if E_IS e [69, 110, 116, 101, 114] then [13]
  else if is_esc then [0x1b]
  else if E_IS e [83, 112, 97, 99, 101] then [32]
  else if E_IS e [68, 101, 108] then [0x7f]
  else if E_IS e [85, 112] then (if shift ≠ 0 then [27, 91, 53, 126] else [27, 91, 65])
  else if E_IS e [68, 111, 119, 110] then (if shift ≠ 0 then [27, 91, 54, 126] else [27, 91, 66])
  else if E_IS e [82, 105, 103, 104, 116] then [27, 91, 67]
  else if E_IS e [76, 101, 102, 116] then [27, 91, 68]
  else k

/-! ## Frame and invariant lemmas -/

theorem geo_facts {sh : my_sess} (h : Geo sh) :
    0 < sh.cols ∧ 0 ≤ sh.scroll_top * sh.cols ∧
    sh.scroll_top * sh.cols + sh.cols ≤ sh.scroll_bottom * sh.cols ∧
    sh.scroll_bottom * sh.cols ≤ sh.pagelen ∧ sh.cols ≤ sh.pagelen := by
  obtain ⟨h1, h2, h3, h4, h5, h6, -⟩ := h
  have e1 : (sh.scroll_top + 1) * sh.cols ≤ sh.scroll_bottom * sh.cols :=
    Int.mul_le_mul_of_nonneg_right (by omega) (by omega)
  have e2 : (sh.scroll_top + 1) * sh.cols = sh.scroll_top * sh.cols + sh.cols := by ring
  have e3 : sh.scroll_bottom * sh.cols ≤ sh.rows * sh.cols :=
    Int.mul_le_mul_of_nonneg_right h6 (by omega)
  have e4 : 1 * sh.cols ≤ sh.rows * sh.cols := Int.mul_le_mul_of_nonneg_right (by omega) (by omega)
  have e5 : 0 ≤ sh.scroll_top * sh.cols := Int.mul_nonneg h4 (by omega)
  refine ⟨h1, e5, by omega, by omega, by omega⟩

theorem geo_int {sh : my_sess} (h : Geo sh) :
    sh.rows ≤ sh.pagelen ∧ sh.cols ≤ sh.pagelen ∧ sh.pagelen < 1073741824 := by
  obtain ⟨h1, h2, h3, h4, h5, h6, h7⟩ := h
  have e4 : 1 * sh.cols ≤ sh.rows * sh.cols := Int.mul_le_mul_of_nonneg_right (by omega) (by omega)
  have e5 : sh.rows * 1 ≤ sh.rows * sh.cols := Int.mul_le_mul_of_nonneg_left (by omega) (by omega)
  omega

theorem wrap_id {x : Int} (h0 : -2147483648 ≤ x) (h1 : x < 2147483648) : wrap x = x := by
  unfold wrap
  omega

theorem sameCtl_refl (a : my_sess) : SameCtl a a :=
  ⟨rfl, rfl, rfl, rfl, rfl, rfl, rfl, rfl, rfl, rfl⟩

theorem sameCtl_trans {a b c : my_sess} (h1 : SameCtl a b) (h2 : SameCtl b c) : SameCtl a c := by
  unfold SameCtl at *
  refine ⟨?_, ?_, ?_, ?_, ?_, ?_, ?_, ?_, ?_, ?_⟩ <;> simp only [h1, h2]

theorem erase_ctl (sh : my_sess) (start len : Int) : SameCtl sh (erase sh start len) :=
  ⟨rfl, rfl, rfl, rfl, rfl, rfl, rfl, rfl, rfl, rfl⟩

theorem sb_push_ctl (sh : my_sess) : SameCtl sh (sb_push sh) := by
  unfold sb_push
  dsimp only
  split_ifs <;> exact ⟨rfl, rfl, rfl, rfl, rfl, rfl, rfl, rfl, rfl, rfl⟩

theorem page_scroll_ctl (sh : my_sess) : SameCtl sh (page_scroll sh) := by
  have h := sb_push_ctl sh
  unfold page_scroll
  dsimp only
  split_ifs
  · exact sameCtl_trans h ⟨rfl, rfl, rfl, rfl, rfl, rfl, rfl, rfl, rfl, rfl⟩
  · exact ⟨rfl, rfl, rfl, rfl, rfl, rfl, rfl, rfl, rfl, rfl⟩

theorem page_scroll_iter_ctl (n : Nat) (sh : my_sess) : SameCtl sh (page_scroll^[n] sh) := by
  induction n generalizing sh with
  | zero => exact sameCtl_refl sh
  | succ n ih =>
    rw [Function.iterate_succ_apply]
    exact sameCtl_trans (page_scroll_ctl sh) (ih _)

theorem sameCtl_wf {a b : my_sess} (h : SameCtl a b) (hw : WF a) : WF b := by
  obtain ⟨h1, h2, h3, h4, h5, h6, -⟩ := h
  unfold WF Geo at *
  rw [h1, h2, h3, h4, h5, h6]
  exact hw

theorem B_wf (sh : my_sess) (h : Geo sh) : WF (B sh) := by
  have hf := (geo_facts h)
  unfold B
  split_ifs <;> refine ⟨h, ?_, ?_⟩ <;> dsimp only <;> omega

theorem il_loop_ctl (n : Nat) (sh : my_sess) :
    (il_loop n sh).cols = sh.cols ∧ (il_loop n sh).rows = sh.rows ∧
    (il_loop n sh).pagelen = sh.pagelen ∧ (il_loop n sh).scroll_bottom = sh.scroll_bottom ∧
    (il_loop n sh).cur = sh.cur ∧ (il_loop n sh).originmode = sh.originmode ∧
    (il_loop n sh).kflags = sh.kflags ∧ (il_loop n sh).cur_attr = sh.cur_attr ∧
    (il_loop n sh).sb_lines = sh.sb_lines := by
  induction n generalizing sh with
  | zero => exact ⟨rfl, rfl, rfl, rfl, rfl, rfl, rfl, rfl, rfl⟩
  | succ n ih =>
    unfold il_loop
    split_ifs
    · have := ih { page_scrolldown sh with scroll_top := (page_scrolldown sh).scroll_top + 1 }
      exact this
    · exact ⟨rfl, rfl, rfl, rfl, rfl, rfl, rfl, rfl, rfl⟩

theorem csi_L_ctl (sh : my_sess) (a1 : Int) : SameCtl sh (csi_L sh a1) := by
  unfold csi_L
  dsimp only
  split_ifs
  · obtain ⟨h1, h2, h3, h4, h5, h6, h7, h8, h9⟩ :=
      il_loop_ctl a1.toNat { sh with scroll_top := Int.tdiv sh.cur sh.cols }
    exact ⟨h1, h2, h3, rfl, h4, h5, h6, h7, h8, h9⟩
  · exact sameCtl_refl sh

theorem csi_M_ctl (sh : my_sess) (a1 : Int) : SameCtl sh (csi_M sh a1) := by
  unfold csi_M
  dsimp only
  split_ifs
  · obtain ⟨h1, h2, h3, -, h4, h5, h6, h7, h8, h9⟩ :=
      page_scroll_iter_ctl a1.toNat { sh with scroll_top := Int.tdiv sh.cur sh.cols }
    exact ⟨h1, h2, h3, rfl, h4, h5, h6, h7, h8, h9⟩
  · exact ⟨rfl, rfl, rfl, rfl, rfl, rfl, rfl, rfl, rfl, rfl⟩
  · exact sameCtl_refl sh

theorem csi_J_ctl (sh : my_sess) (n a1 : Int) : SameCtl sh (csi_J sh n a1) := by
  unfold csi_J
  dsimp only
  split_ifs <;> exact erase_ctl _ _ _

theorem csi_K_ctl (sh : my_sess) (n a1 curcol : Int) : SameCtl sh (csi_K sh n a1 curcol) := by
  unfold csi_K
  dsimp only
  split_ifs <;> exact erase_ctl _ _ _

theorem csi_X_ctl (sh : my_sess) (a1 curcol : Int) : SameCtl sh (csi_X sh a1 curcol) := by
  unfold csi_X
  exact erase_ctl _ _ _

theorem csi_P_ctl (sh : my_sess) (a1 curcol : Int) : SameCtl sh (csi_P sh a1 curcol) := by
  unfold csi_P
  dsimp only
  split_ifs
  · exact ⟨rfl, rfl, rfl, rfl, rfl, rfl, rfl, rfl, rfl, rfl⟩
  · exact erase_ctl _ _ _

/-- The clamped cursor value computed by `B`. -/
theorem B_eq (sh : my_sess) :
    B sh = { sh with cur :=
      if sh.originmode ≠ 0 then
        (if sh.cur < sh.scroll_top * sh.cols then sh.scroll_top * sh.cols
         else if sh.cur > sh.scroll_bottom * sh.cols then sh.scroll_bottom * sh.cols else sh.cur)
      else (if sh.cur < 0 then 0 else if sh.cur > sh.pagelen then sh.pagelen else sh.cur) } := by
  unfold B
  split_ifs <;> rfl

theorem scroll_loop_wf (fuel : Nat) {sh : my_sess} (hg : Geo sh) (h0 : 0 ≤ sh.cur)
    (hfuel : (sh.cur - sh.scroll_bottom * sh.cols + 1).toNat < fuel) :
    ∃ sh1, scroll_loop fuel sh = some sh1 ∧ WF sh1 ∧ sh1.cur < sh1.scroll_bottom * sh1.cols := by
  induction fuel generalizing sh with
  | zero => omega
  | succ fuel ih =>
    have hf := (geo_facts hg)
    unfold scroll_loop
    split_ifs with e
    · have hb : WF (B { sh with cur := sh.cur - sh.cols }) := B_wf _ hg
      have hs := page_scroll_ctl (B { sh with cur := sh.cur - sh.cols })
      have hw := sameCtl_wf hs hb
      obtain ⟨s1, s2, s3, s4, s5, s6, -⟩ := hs
      apply ih hw.1 hw.2.1
      rw [s5, s6, s1, B_eq]
      dsimp only
      split_ifs <;> omega
    · exact ⟨sh, rfl, ⟨hg, h0, by omega⟩, by omega⟩

theorem scroll_fuel_wf {sh : my_sess} (hg : Geo sh) (h0 : 0 ≤ sh.cur) :
    ∃ sh1, scroll_loop (scroll_fuel sh) sh = some sh1 ∧ WF sh1 ∧
      sh1.cur < sh1.scroll_bottom * sh1.cols :=
  scroll_loop_wf _ hg h0 (by unfold scroll_fuel; omega)

theorem newline_geo {sh : my_sess} (h : Geo sh) (h0 : 0 ≤ sh.cur) :
    Geo (newline sh) ∧ 0 ≤ (newline sh).cur := by
  unfold newline
  split_ifs
  · exact ⟨h, h0⟩
  · exact ⟨h, by dsimp only; linarith [h.1]⟩

theorem ctl_esc_cases (BYTES : Nat) (sh : my_sess) (s : List Nat) (curcol : Int) (ns : Nat)
    (P : Step → Prop) (hstop : P (.stop sh s))
    (hcsi1 : P (.stop (do_csi sh s curcol).2.1 (do_csi sh s curcol).2.2))
    (hcsi0 : P (.next (do_csi sh s curcol).2.1 ((do_csi sh s curcol).2.2.drop 1)))
    (hcs : P (.next (esc_charset sh (rd s 1) (rd s 2)) (advance BYTES s 2 (ns + 2))))
    (hign : P (.next sh (advance BYTES s 1 (ns + 1))))
    (hc : P (.next { sh with cur := 0, top := 0 } (advance BYTES s 1 (ns + 1))))
    (hD : P (.next (B { sh with cur := sh.cur + sh.cols }) (advance BYTES s 1 (ns + 1))))
    (hE : P (match esc_E sh curcol with
      | none => .diverge
      | some sh1 => .next sh1 (advance BYTES s 1 (ns + 1))))
    (hM : P (.next (esc_M sh) (advance BYTES s 1 (ns + 1))))
    (hhash : P (.next (esc_hash sh (rd s 2)) (advance BYTES s 2 (ns + 2)))) :
    P (ctl_esc BYTES sh s curcol ns) := by
  unfold ctl_esc
  by_cases h1 : rd s 1 = 0
  · rw [if_pos h1]
    exact hstop
  rw [if_neg h1]
  by_cases h2 : rd s 1 = 91
  · rw [if_pos h2]
    by_cases h3 : (do_csi sh s curcol).1 ≠ 0
    · exact (if_pos h3).symm ▸ hcsi1
    · exact (if_neg h3).symm ▸ hcsi0
  rw [if_neg h2]
  by_cases h4 : index [40, 41] (rd s 1) = true
  · rw [if_pos h4]
    by_cases h5 : rd s 2 = 0
    · rw [if_pos h5]
      exact hstop
    · rw [if_neg h5]
      exact hcs
  rw [if_neg h4]
  by_cases h6 : index [72, 61, 62] (rd s 1) = true
  · rw [if_pos h6]
    exact hign
  rw [if_neg h6]
  by_cases h7 : rd s 1 = 99
  · rw [if_pos h7]
    exact hc
  rw [if_neg h7]
  by_cases h8 : rd s 1 = 68
  · rw [if_pos h8]
    exact hD
  rw [if_neg h8]
  by_cases h9 : rd s 1 = 69
  · rw [if_pos h9]
    exact hE
  rw [if_neg h9]
  by_cases h10 : rd s 1 = 77
  · rw [if_pos h10]
    exact hM
  rw [if_neg h10]
  by_cases h11 : rd s 1 = 35
  · rw [if_pos h11]
    exact hhash
  rw [if_neg h11]
  exact hign

theorem advance_lt (BYTES : Nat) {s : List Nat} (hs : 0 < s.length) (soff : Nat) {nsoff : Nat}
    (hn : 1 ≤ nsoff) : (advance BYTES s soff nsoff).length < s.length := by
  unfold advance
  split_ifs <;> rw [List.length_drop] <;> omega

theorem decode_ns_pos (s : List Nat) : 1 ≤ decode_ns s := by
  unfold decode_ns
  by_cases h : (utf8_to_ucs2 s).1 < 0
  · rw [if_pos h]
    exact Nat.le_add_left 1 _
  · rw [if_neg h]
    revert h
    unfold utf8_to_ucs2
    split_ifs <;> intro h <;>
      first | exact le_refl 1 | exact absurd (by decide) h | exact Nat.le_add_left 1 2 |
        exact Nat.le_add_left 1 1

theorem skip_parms_len (base : List Nat) : (skip_parms base).length ≤ base.length :=
  (List.dropWhile_suffix _).length_le

theorem do_csi_len (sh : my_sess) {s : List Nat} (hs : 0 < s.length) (curcol : Int) :
    ((do_csi sh s curcol).2.2.drop 1).length < s.length := by
  unfold do_csi
  dsimp only
  split_ifs
  all_goals first
    | (rw [List.length_drop]; omega)
    | (have h1 := skip_parms_len (List.drop 1 (List.drop 2 s))
       simp only [List.length_drop] at h1 ⊢
       omega)
    | (have h1 := skip_parms_len (List.drop 2 s)
       simp only [List.length_drop] at h1 ⊢
       omega)

theorem ctl_esc_shorter (BYTES : Nat) (sh : my_sess) {s : List Nat} (hs : 0 < s.length)
    (curcol : Int) {ns : Nat} (hn : 1 ≤ ns) :
    (ctl_esc BYTES sh s curcol ns).Shorter s.length := by
  apply ctl_esc_cases BYTES sh s curcol ns (fun st => st.Shorter s.length)
  · exact trivial
  · exact trivial
  · exact do_csi_len sh hs curcol
  · exact advance_lt BYTES hs _ (by omega)
  · exact advance_lt BYTES hs _ (by omega)
  · exact advance_lt BYTES hs _ (by omega)
  · exact advance_lt BYTES hs _ (by omega)
  · cases esc_E sh curcol with
    | none => exact trivial
    | some sh1 => exact advance_lt BYTES hs _ (by omega)
  · exact advance_lt BYTES hs _ (by omega)
  · exact advance_lt BYTES hs _ (by omega)

theorem page_append_step_shorter (BYTES : Nat) (sh : my_sess) {s : List Nat} (hs : 0 < s.length) :
    (page_append_step BYTES sh s).Shorter s.length := by
  unfold page_append_step ctl_switch
  have hn := decode_ns_pos s
  split_ifs
  any_goals exact advance_lt BYTES hs _ hn
  · exact ctl_esc_shorter BYTES sh hs _ hn
  · cases ctl_default BYTES sh (decode_c BYTES s) (Int.tmod sh.cur sh.cols) with
    | none => exact trivial
    | some sh1 => exact advance_lt BYTES hs _ hn

theorem rd_pos_length {s : List Nat} (h : rd s 0 ≠ 0) : 0 < s.length := by
  cases s with
  | nil => exact absurd rfl h
  | cons a t => exact Nat.succ_pos _

theorem term_new_wf (rows cols sb_lines fd : Int) : WF (term_new rows cols sb_lines fd) := by
  unfold term_new
  dsimp only
  apply sameCtl_wf (erase_ctl _ _ _)
  refine ⟨⟨?_, ?_, rfl, le_refl _, ?_, le_refl _, ?_⟩, le_refl _, ?_⟩
  · dsimp only; split_ifs <;> omega
  · dsimp only; split_ifs <;> omega
  · dsimp only; split_ifs <;> omega
  · dsimp only
    have h : (if rows < 4 ∨ rows > 80 then 25 else rows) * (if cols < 10 ∨ cols > 160 then 80 else cols)
        ≤ 80 * 160 :=
      Int.mul_le_mul (by split_ifs <;> omega) (by split_ifs <;> omega) (by split_ifs <;> omega)
        (by decide)
    omega
  · dsimp only
    apply Int.mul_nonneg <;> split_ifs <;> omega

/-! ## C2: the cursor and the page -/

set_option maxRecDepth 100000 in
/-- C2 (the code at the failing input): on a fresh 4x10 session (`pagelen` 40,
cursor 0) the bytes `ESC [ 3 0 0 0 0 0 0 0 0 A` are one CSI sequence with the
parameter 300000000.  Case `A` subtracts `cols * a1`; the product
3000000000 does not fit an `int` and is -1294967296 in 32 bits, so the cursor
becomes 1294967296.  The case only tests `cur < 0`, and `page_append` returns
with the cursor far past the page; no access outside the arrays has occurred
up to here. -/
theorem cursor_leaves_page :
    (page_append 1 (term_new 4 10 0 3) [27, 91, 51, 48, 48, 48, 48, 48, 48, 48, 48, 65]).map
      (fun r => (r.1.cur, r.1.pagelen, r.1.oob, r.2)) = some (1294967296, 40, false, []) := by
  decide

/-! ## Pointwise description of the memory primitives -/

theorem fill_getD (m : List Nat) (start len : Int) (v : Nat) (i : Nat) :
    (fill m start len v).getD i 0 =
      if i < m.length ∧ start ≤ (i : Int) ∧ (i : Int) < start + len then v else m.getD i 0 := by
  unfold fill
  simp only [List.getD_eq_getElem?_getD, List.getElem?_mapIdx]
  by_cases h : i < m.length
  · simp [h]
  · simp [h, List.getElem?_eq_none (not_lt.mp h)]

theorem fill_length (m : List Nat) (start len : Int) (v : Nat) :
    (fill m start len v).length = m.length := by
  unfold fill
  exact List.length_mapIdx

theorem move_getD (dstm srcm : List Nat) (dst src len : Int) (i : Nat) :
    (move dstm srcm dst src len).getD i 0 =
      if i < dstm.length ∧ dst ≤ (i : Int) ∧ (i : Int) < dst + len then
        srcm.getD ((i : Int) - dst + src).toNat 0
      else dstm.getD i 0 := by
  unfold move
  simp only [List.getD_eq_getElem?_getD, List.getElem?_mapIdx]
  by_cases h : i < dstm.length
  · simp [h]
  · simp [h, List.getElem?_eq_none (not_lt.mp h)]

theorem move_length (dstm srcm : List Nat) (dst src len : Int) :
    (move dstm srcm dst src len).length = dstm.length := by
  unfold move
  exact List.length_mapIdx

/-! ## The sizes of the arrays never change -/

theorem frame_refl (a : my_sess) : Frame a a := ⟨rfl, rfl, rfl, rfl, rfl, rfl, rfl, rfl⟩

theorem frame_trans {a b c : my_sess} (h1 : Frame a b) (h2 : Frame b c) : Frame a c := by
  unfold Frame at *
  refine ⟨?_, ?_, ?_, ?_, ?_, ?_, ?_, ?_⟩ <;> simp only [h1, h2]

theorem frame_shape {a b : my_sess} (h : Frame a b) (hs : Shape a) : Shape b := by
  obtain ⟨-, -, h3, h4, h5, -⟩ := h
  unfold Shape at *
  rw [h3, h4, h5]
  exact hs

theorem frame_ite {c : Prop} [Decidable c] {sh a b : my_sess} (ha : Frame sh a) (hb : Frame sh b) :
    Frame sh (if c then a else b) := by
  split_ifs <;> assumption

theorem erase_frame (sh : my_sess) (start len : Int) : Frame sh (erase sh start len) :=
  ⟨rfl, rfl, rfl, fill_length _ _ _ _, fill_length _ _ _ _, rfl, rfl, rfl⟩

theorem sb_push_frame (sh : my_sess) : Frame sh (sb_push sh) := by
  unfold sb_push
  dsimp only
  split_ifs <;> refine ⟨rfl, rfl, rfl, rfl, rfl, rfl, ?_, ?_⟩ <;> simp only [move_length]

theorem page_scroll_frame (sh : my_sess) : Frame sh (page_scroll sh) := by
  unfold page_scroll
  refine frame_trans ?_ (erase_frame _ _ _)
  refine frame_trans (b := if sh.scroll_top = 0 ∧ sh.sb_lines ≠ 0 then sb_push sh else sh)
    (frame_ite (sb_push_frame sh) (frame_refl sh)) ?_
  exact ⟨rfl, rfl, rfl, move_length _ _ _ _ _, move_length _ _ _ _ _, rfl, rfl, rfl⟩

theorem page_scrolldown_frame (sh : my_sess) : Frame sh (page_scrolldown sh) := by
  unfold page_scrolldown
  refine frame_trans ?_ (erase_frame _ _ _)
  exact ⟨rfl, rfl, rfl, move_length _ _ _ _ _, move_length _ _ _ _ _, rfl, rfl, rfl⟩

theorem page_scroll_iter_frame (n : Nat) (sh : my_sess) : Frame sh (page_scroll^[n] sh) := by
  induction n generalizing sh with
  | zero => exact frame_refl sh
  | succ n ih =>
    rw [Function.iterate_succ_apply]
    exact frame_trans (page_scroll_frame sh) (ih _)

theorem B_frame (sh : my_sess) : Frame sh (B sh) := by
  rw [B_eq]
  exact frame_refl sh

theorem il_loop_frame (n : Nat) (sh : my_sess) : Frame sh (il_loop n sh) := by
  induction n generalizing sh with
  | zero => exact frame_refl sh
  | succ n ih =>
    unfold il_loop
    split_ifs
    · exact frame_trans (page_scrolldown_frame sh)
        (ih { page_scrolldown sh with scroll_top := (page_scrolldown sh).scroll_top + 1 })
    · exact frame_refl sh

theorem sgr_loop_frame (args : List Int) (sh : my_sess) : Frame sh (sgr_loop sh args) := by
  induction args generalizing sh with
  | nil => exact frame_refl sh
  | cons a rest ih =>
    unfold sgr_loop
    cases e : sgr_arg sh a with
    | none => exact frame_refl sh
    | some sh1 =>
      refine frame_trans ?_ (ih sh1)
      unfold sgr_arg at e
      split_ifs at e <;> cases e <;> exact frame_refl sh

theorem csi_cmd_frame (sh : my_sess) (cmd mark : Nat) (n a1 a2 a3 curcol : Int) :
    Frame sh (csi_cmd sh cmd mark n a1 a2 a3 curcol) := by
  unfold csi_cmd
  refine frame_ite ?_ <| frame_ite ?_ <| frame_ite ?_ <| frame_ite ?_ <| frame_ite ?_ <|
    frame_ite ?_ <| frame_ite (frame_refl sh) <| frame_ite ?_ <| frame_ite ?_ <|
    frame_ite ?_ <| frame_ite ?_ <| frame_ite ?_ <| frame_ite ?_ <| frame_ite ?_ <|
    frame_ite ?_ <| frame_ite ?_ <| frame_ite ?_ <| frame_ite (frame_refl sh) <|
    frame_ite ?_ (frame_refl sh)
  · unfold csi_A; dsimp only; split_ifs <;> exact frame_refl sh
  · unfold csi_B; dsimp only; split_ifs <;> exact frame_refl sh
  · exact B_frame _
  · exact B_frame _
  · unfold csi_d; dsimp only; split_ifs <;> exact B_frame _
  · exact B_frame _
  · unfold csi_H; dsimp only; rw [B_eq]; exact frame_refl sh
  · unfold csi_h; split_ifs <;> first | exact frame_refl sh | exact erase_frame _ _ _
  · unfold csi_J; dsimp only; split_ifs <;> exact erase_frame _ _ _
  · unfold csi_K; dsimp only; split_ifs <;> exact erase_frame _ _ _
  · unfold csi_l; split_ifs <;> first | exact frame_refl sh | exact erase_frame _ _ _
  · unfold csi_L; dsimp only
    split_ifs
    · exact il_loop_frame _ { sh with scroll_top := Int.tdiv sh.cur sh.cols }
    · exact frame_refl sh
  · exact sgr_loop_frame _ sh
  · unfold csi_M; dsimp only
    split_ifs
    · exact page_scroll_iter_frame _ { sh with scroll_top := Int.tdiv sh.cur sh.cols }
    · exact frame_refl sh
    · exact frame_refl sh
  · unfold csi_P; dsimp only
    split_ifs
    · refine frame_trans ?_ (erase_frame _ _ _)
      exact ⟨rfl, rfl, rfl, move_length _ _ _ _ _, move_length _ _ _ _ _, rfl, rfl, rfl⟩
    · exact erase_frame _ _ _
  · unfold csi_r; dsimp only; split_ifs <;> first | exact frame_refl sh | exact B_frame _
  · exact erase_frame _ _ _

theorem do_csi_frame (sh : my_sess) (s : List Nat) (curcol : Int) :
    Frame sh (do_csi sh s curcol).2.1 := by
  unfold do_csi
  dsimp only
  split_ifs <;> first | exact frame_refl sh | exact csi_cmd_frame _ _ _ _ _ _ _ _

theorem scroll_loop_frame (fuel : Nat) (sh : my_sess) :
    ∀ sh1, scroll_loop fuel sh = some sh1 → Frame sh sh1 := by
  induction fuel generalizing sh with
  | zero => intro sh1 e; cases e
  | succ fuel ih =>
    intro sh1 e
    unfold scroll_loop at e
    split_ifs at e
    · exact frame_trans (frame_trans (B_frame { sh with cur := sh.cur - sh.cols }) (page_scroll_frame _)) (ih _ _ e)
    · cases e
      exact frame_refl sh

theorem put_frame (BYTES : Nat) (sh : my_sess) (c : Nat) (curcol : Int) :
    Frame sh (put BYTES sh c curcol) := by
  unfold put
  dsimp only
  split_ifs <;> refine ⟨rfl, rfl, rfl, ?_, ?_, rfl, rfl, rfl⟩ <;> simp only [store, fill_length]

theorem newline_frame (sh : my_sess) : Frame sh (newline sh) := by
  unfold newline
  split_ifs <;> exact frame_refl sh

theorem ctl_default_frame (BYTES : Nat) (sh : my_sess) (c : Nat) (curcol : Int) :
    ∀ sh1, ctl_default BYTES sh c curcol = some sh1 → Frame sh sh1 := by
  intro sh1 e
  unfold ctl_default at e
  dsimp only at e
  have hn : Frame sh (if c = 10 then newline sh else sh) := frame_ite (newline_frame sh) (frame_refl sh)
  cases e2 : scroll_loop (scroll_fuel (if c = 10 then newline sh else sh))
      (if c = 10 then newline sh else sh) with
  | none => rw [e2] at e; cases e
  | some sh2 =>
    rw [e2] at e
    have h2 := frame_trans hn (scroll_loop_frame _ _ _ e2)
    dsimp only at e
    split_ifs at e <;> cases e
    · exact frame_trans h2 (put_frame _ _ _ _)
    · exact h2

theorem ctl_esc_frame (BYTES : Nat) (sh : my_sess) (s : List Nat) (curcol : Int) (ns : Nat) :
    (ctl_esc BYTES sh s curcol ns).All (Frame sh) := by
  apply ctl_esc_cases BYTES sh s curcol ns (fun st => st.All (Frame sh))
  · exact frame_refl sh
  · exact do_csi_frame sh s curcol
  · exact do_csi_frame sh s curcol
  · show Frame sh (esc_charset sh _ _)
    unfold esc_charset
    split_ifs <;> exact frame_refl sh
  · exact frame_refl sh
  · exact frame_refl sh
  · exact B_frame _
  · cases e : esc_E sh curcol with
    | none => exact trivial
    | some sh1 =>
      unfold esc_E at e
      exact frame_trans (newline_frame { sh with cur := sh.cur - curcol }) (scroll_loop_frame _ _ _ e)
  · show Frame sh (esc_M sh)
    unfold esc_M
    dsimp only
    split_ifs
    · rw [B_eq]
      exact page_scrolldown_frame { sh with cur := sh.cur - sh.cols + sh.cols }
    · rw [B_eq]
      exact frame_refl sh
  · show Frame sh (esc_hash sh _)
    unfold esc_hash
    split_ifs
    · refine ⟨rfl, rfl, rfl, ?_, ?_, rfl, rfl, rfl⟩ <;> simp only [fill_length]
    · exact frame_refl sh

theorem page_append_step_frame (BYTES : Nat) (sh : my_sess) (s : List Nat) :
    (page_append_step BYTES sh s).All (Frame sh) := by
  unfold page_append_step ctl_switch
  split_ifs
  any_goals exact frame_refl sh
  · show Frame sh (ctl_cr sh _)
    unfold ctl_cr
    dsimp only
    split_ifs <;> rw [B_eq] <;> exact frame_refl sh
  · show Frame sh (ctl_tab sh _)
    unfold ctl_tab
    split_ifs <;> exact B_frame _
  · show Frame sh (ctl_bs sh _)
    unfold ctl_bs
    split_ifs <;> exact B_frame _
  · exact ctl_esc_frame BYTES sh s _ _
  · cases e : ctl_default BYTES sh (decode_c BYTES s) (Int.tmod sh.cur sh.cols) with
    | none => exact trivial
    | some sh1 => exact ctl_default_frame BYTES sh _ _ sh1 e

theorem term_new_shape (rows cols sb_lines fd : Int) : Shape (term_new rows cols sb_lines fd) := by
  have key : ∀ r c : Int, (0:Int) ≤ (if r < 4 ∨ r > 80 then 25 else r) *
      (if c < 10 ∨ c > 160 then 80 else c) := by
    intro r c
    apply Int.mul_nonneg <;> split_ifs <;> omega
  unfold Shape term_new erase
  simp only [fill_length, List.length_replicate]
  exact ⟨Int.toNat_of_nonneg (key _ _), Int.toNat_of_nonneg (key _ _)⟩

/-! ## Unrolling the loop of `page_append` -/

theorem page_append_loop_fuel (BYTES : Nat) (fuel1 fuel2 : Nat) (sh : my_sess) (s : List Nat)
    (h1 : s.length < fuel1) (h2 : s.length < fuel2) :
    page_append_loop BYTES fuel1 sh s = page_append_loop BYTES fuel2 sh s := by
  induction fuel1 generalizing fuel2 sh s with
  | zero => omega
  | succ fuel1 ih =>
    cases fuel2 with
    | zero => omega
    | succ fuel2 =>
      unfold page_append_loop
      split_ifs with e
      · rfl
      · have hl := page_append_step_shorter BYTES sh (rd_pos_length e)
        cases hst : page_append_step BYTES sh s with
        | next sh1 s1 =>
          rw [hst] at hl
          unfold Step.Shorter at hl
          exact ih fuel2 sh1 s1 (by omega) (by omega)
        | stop sh1 s1 => rfl
        | diverge => rfl

theorem page_append_nil (BYTES : Nat) (sh : my_sess) {s : List Nat} (h : rd s 0 = 0) :
    page_append BYTES sh s = some (sh, s) := by
  unfold page_append page_append_loop
  rw [if_pos h]

theorem page_append_next (BYTES : Nat) {sh sh1 : my_sess} {s s1 : List Nat} (h : rd s 0 ≠ 0)
    (hst : page_append_step BYTES sh s = .next sh1 s1) :
    page_append BYTES sh s = page_append BYTES sh1 s1 := by
  have hl := page_append_step_shorter BYTES sh (rd_pos_length h)
  rw [hst] at hl
  unfold Step.Shorter at hl
  unfold page_append
  conv_lhs => unfold page_append_loop
  rw [if_neg h, hst]
  exact page_append_loop_fuel BYTES _ _ sh1 s1 hl (Nat.lt_succ_self _)

theorem page_append_stop (BYTES : Nat) {sh sh1 : my_sess} {s s1 : List Nat} (h : rd s 0 ≠ 0)
    (hst : page_append_step BYTES sh s = .stop sh1 s1) :
    page_append BYTES sh s = some (sh1, s1) := by
  unfold page_append page_append_loop
  rw [if_neg h, hst]

/-! ## Flag bits -/

theorem bic_and (k m b : Nat) (h : cnot m &&& b = b) : bic k m &&& b = k &&& b := by
  unfold bic
  rw [Nat.and_assoc, h]

theorem bic_self (k m : Nat) (h : cnot m &&& m = 0) : bic k m &&& m = 0 := by
  unfold bic
  rw [Nat.and_assoc, h, Nat.and_zero]

theorem or_and (k m b : Nat) (h : m &&& b = 0) : (k ||| m) &&& b = k &&& b := by
  rw [Nat.and_distrib_right, h, Nat.or_zero]

theorem or_self_and (k m : Nat) : (k ||| m) &&& m = m := by
  apply Nat.eq_of_testBit_eq
  intro i
  rw [Nat.testBit_and, Nat.testBit_or]
  cases k.testBit i <;> cases m.testBit i <;> rfl

/-! ## Printable characters -/

theorem store_getD (m : List Nat) (j : Int) (v : Nat) (i : Nat) :
    (store m j v).getD i 0 = if i < m.length ∧ (i : Int) = j then v else m.getD i 0 := by
  unfold store
  rw [fill_getD]
  by_cases h : (i : Int) = j
  · simp [h]
  · have : ¬ (j ≤ (i : Int) ∧ (i : Int) < j + 1) := by omega
    simp [h, this]

theorem scroll_loop_skip {sh : my_sess} (h : sh.cur < sh.scroll_bottom * sh.cols) :
    scroll_loop (scroll_fuel sh) sh = some sh := by
  unfold scroll_fuel
  unfold scroll_loop
  rw [if_neg (not_le.mpr h)]

theorem decode_ascii (BYTES : Nat) {c : Nat} (rest : List Nat) (h1 : 1 ≤ c) (h2 : c ≤ 127) :
    decode_c BYTES (c :: rest) = c ∧ decode_ns (c :: rest) = 1 := by
  have e : utf8_to_ucs2 (c :: rest) = ((c : Int), 1) := by
    unfold utf8_to_ucs2
    have : rd (c :: rest) 0 = c := rfl
    rw [this, if_neg (by omega), if_pos (by omega)]
  unfold decode_c decode_ns
  rw [e]
  have : ¬ ((c : Int) < 0) := by omega
  simp only [this, if_false, Int.toNat_ofNat]
  refine ⟨?_, trivial⟩
  split_ifs
  · rfl
  · rfl

theorem advance_one (BYTES : Nat) (c : Nat) (rest : List Nat) :
    advance BYTES (c :: rest) 0 1 = rest := by
  unfold advance
  split_ifs <;> rfl

theorem step_printable (BYTES : Nat) (sh : my_sess) {c : Nat} (rest : List Nat)
    (hc : 32 ≤ c ∧ c ≤ 126) (hlt : sh.cur < sh.scroll_bottom * sh.cols) :
    page_append_step BYTES sh (c :: rest) =
      .next (put BYTES sh c (Int.tmod sh.cur sh.cols)) rest := by
  obtain ⟨e1, e2⟩ := decode_ascii BYTES rest (c := c) (by omega) (by omega)
  unfold page_append_step ctl_switch
  rw [e1, e2, advance_one]
  rw [if_neg (by omega), if_neg (by omega), if_neg (by omega), if_neg (by omega),
    if_neg (by omega), if_neg (by omega), if_neg (by omega)]
  unfold ctl_default
  have h10 : c ≠ 10 := by omega
  simp only [h10, if_false, scroll_loop_skip hlt, ne_eq, not_false_eq_true, if_true]

/-- The stores of `put`, field by field. -/
theorem put_eq (BYTES : Nat) (sh : my_sess) (c : Nat) (curcol : Int) :
    put BYTES sh c curcol =
      { sh with
        page := store sh.page sh.cur (glyph BYTES sh.kflags c)
        attributes :=
          if c ≥ 0x60 ∧ c < 0x7f ∧ sh.kflags &&& kf_dographic ≠ 0 ∧ sh.kflags &&& kf_graphics ≠ 0
          then sh.attributes else store sh.attributes sh.cur sh.cur_attr
        kflags :=
          if curcol = sh.cols - 1 then
            (if c ≥ 0x60 ∧ c < 0x7f ∧ sh.kflags &&& kf_dographic ≠ 0 ∧ sh.kflags &&& kf_graphics ≠ 0
              then sh.kflags else bic sh.kflags kf_wrapped) ||| kf_wrapped
          else
            (if c ≥ 0x60 ∧ c < 0x7f ∧ sh.kflags &&& kf_dographic ≠ 0 ∧ sh.kflags &&& kf_graphics ≠ 0
              then sh.kflags else bic sh.kflags kf_wrapped)
        oob :=
          if c ≥ 0x60 ∧ c < 0x7f ∧ sh.kflags &&& kf_dographic ≠ 0 ∧ sh.kflags &&& kf_graphics ≠ 0
          then (sh.oob || !(inb sh.page.length sh.cur 1))
          else (sh.oob || !(inb sh.page.length sh.cur 1) || !(inb sh.attributes.length sh.cur 1))
        cur := if sh.cur + 1 > sh.pagelen then 0 else sh.cur + 1 } := by
  unfold put glyph
  dsimp only
  split_ifs <;> rfl

theorem put_cur (BYTES : Nat) (sh : my_sess) (c : Nat) (curcol : Int) (h : sh.cur < sh.pagelen) :
    (put BYTES sh c curcol).cur = sh.cur + 1 := by
  rw [put_eq]
  dsimp only
  rw [if_neg (by omega)]

theorem put_page (BYTES : Nat) (sh : my_sess) (c : Nat) (curcol : Int) :
    (put BYTES sh c curcol).page = store sh.page sh.cur (glyph BYTES sh.kflags c) := by
  rw [put_eq]

theorem put_ctl (BYTES : Nat) (sh : my_sess) (c : Nat) (curcol : Int) :
    (put BYTES sh c curcol).cols = sh.cols ∧ (put BYTES sh c curcol).rows = sh.rows ∧
    (put BYTES sh c curcol).pagelen = sh.pagelen ∧
    (put BYTES sh c curcol).scroll_top = sh.scroll_top ∧
    (put BYTES sh c curcol).scroll_bottom = sh.scroll_bottom ∧
    (put BYTES sh c curcol).originmode = sh.originmode ∧
    (put BYTES sh c curcol).cur_attr = sh.cur_attr ∧
    (put BYTES sh c curcol).kflags &&& kf_dographic = sh.kflags &&& kf_dographic ∧
    (put BYTES sh c curcol).kflags &&& kf_graphics = sh.kflags &&& kf_graphics := by
  have b1 := fun k => bic_and k kf_wrapped kf_dographic (by decide)
  have b2 := fun k => bic_and k kf_wrapped kf_graphics (by decide)
  have o1 := fun k => or_and k kf_wrapped kf_dographic (by decide)
  have o2 := fun k => or_and k kf_wrapped kf_graphics (by decide)
  rw [put_eq]
  refine ⟨rfl, rfl, rfl, rfl, rfl, rfl, rfl, ?_, ?_⟩ <;> dsimp only <;> split_ifs <;>
    simp only [b1, b2, o1, o2]

theorem glyph_congr (BYTES : Nat) {k1 k2 : Nat} (c : Nat)
    (h1 : k1 &&& kf_dographic = k2 &&& kf_dographic) (h2 : k1 &&& kf_graphics = k2 &&& kf_graphics) :
    glyph BYTES k1 c = glyph BYTES k2 c := by
  unfold glyph
  rw [h1, h2]

theorem puts_cons (BYTES : Nat) (sh : my_sess) (c : Nat) (w : List Nat) :
    puts BYTES sh (c :: w) = puts BYTES (put BYTES sh c (Int.tmod sh.cur sh.cols)) w := rfl

theorem puts_spec (BYTES : Nat) (w : List Nat) (sh : my_sess) (n : Nat) (hn : sh.cur = n)
    (hlen : sh.cur + w.length ≤ sh.pagelen) :
    (puts BYTES sh w).cur = sh.cur + w.length ∧
    ((puts BYTES sh w).cols = sh.cols ∧ (puts BYTES sh w).rows = sh.rows ∧
      (puts BYTES sh w).pagelen = sh.pagelen ∧ (puts BYTES sh w).scroll_top = sh.scroll_top ∧
      (puts BYTES sh w).scroll_bottom = sh.scroll_bottom ∧
      (puts BYTES sh w).originmode = sh.originmode ∧ (puts BYTES sh w).cur_attr = sh.cur_attr ∧
      (puts BYTES sh w).kflags &&& kf_dographic = sh.kflags &&& kf_dographic ∧
      (puts BYTES sh w).kflags &&& kf_graphics = sh.kflags &&& kf_graphics) ∧
    (puts BYTES sh w).page.length = sh.page.length ∧
    ∀ i : Nat, (puts BYTES sh w).page.getD i 0 =
      if i < sh.page.length ∧ n ≤ i ∧ i < n + w.length then glyph BYTES sh.kflags (w.getD (i - n) 0)
      else sh.page.getD i 0 := by
  induction w generalizing sh n with
  | nil =>
    refine ⟨by simp [puts], ⟨rfl, rfl, rfl, rfl, rfl, rfl, rfl, rfl, rfl⟩, rfl, fun i => ?_⟩
    have : ¬ (i < sh.page.length ∧ n ≤ i ∧ i < n + ([] : List Nat).length) := by simp
    rw [if_neg this]
    rfl
  | cons c w ih =>
    have hl : ((c :: w).length : Int) = (w.length : Int) + 1 := by simp
    rw [hl] at hlen
    have hc := put_cur BYTES sh c (Int.tmod sh.cur sh.cols) (by omega)
    obtain ⟨p1, p2, p3, p4, p5, p6, p7, p8, p9⟩ := put_ctl BYTES sh c (Int.tmod sh.cur sh.cols)
    obtain ⟨i1, ⟨q1, q2, q3, q4, q5, q6, q7, q8, q9⟩, i3, i4⟩ :=
      ih (put BYTES sh c (Int.tmod sh.cur sh.cols)) (n + 1) (by rw [hc, hn]; push_cast; rfl)
        (by rw [hc, p3]; omega)
    have hpl : (put BYTES sh c (Int.tmod sh.cur sh.cols)).page.length = sh.page.length := by
      rw [put_page, store, fill_length]
    simp only [puts_cons]
    refine ⟨by rw [i1, hc, hl]; ring, ⟨by rw [q1, p1], by rw [q2, p2], by rw [q3, p3], by rw [q4, p4],
      by rw [q5, p5], by rw [q6, p6], by rw [q7, p7], by rw [q8, p8], by rw [q9, p9]⟩,
      by rw [i3, hpl], fun i => ?_⟩
    rw [i4, hpl, put_page, store_getD, glyph_congr BYTES _ p8 p9, hn]
    by_cases hi : i < sh.page.length
    · by_cases e : i = n
      · subst e
        simp [hi]
      · by_cases h2 : n + 1 ≤ i ∧ i < n + 1 + w.length
        · have h3 : n ≤ i ∧ i < n + (c :: w).length := by simp; omega
          have h4 : i - n = (i - (n + 1)) + 1 := by omega
          simp only [hi, h2, h3, true_and, and_self, if_true, h4, List.getD_cons_succ]
        · have h3 : ¬ (n ≤ i ∧ i < n + (c :: w).length) := by simp; omega
          have h5 : ¬ ((i : Int) = (n : Int)) := by omega
          simp only [hi, h2, h3, h5, true_and, and_false, if_false]
    · simp [hi]

theorem run_printable (BYTES : Nat) (w : List Nat) (sh : my_sess) (rest : List Nat) (hg : Geo sh)
    (hw : printable w) (hlen : sh.cur + w.length ≤ sh.scroll_bottom * sh.cols) :
    page_append BYTES sh (w ++ rest) = page_append BYTES (puts BYTES sh w) rest := by
  induction w generalizing sh with
  | nil => rfl
  | cons c w ih =>
    have hf := geo_facts hg
    have hl : ((c :: w).length : Int) = (w.length : Int) + 1 := by simp
    rw [hl] at hlen
    have hc : 32 ≤ c ∧ c ≤ 126 := hw c (List.mem_cons_self _ _)
    have hst := step_printable BYTES sh (w ++ rest) hc (by omega)
    have hne : rd (c :: (w ++ rest)) 0 ≠ 0 := by
      show c ≠ 0
      omega
    have hcur := put_cur BYTES sh c (Int.tmod sh.cur sh.cols) (by omega)
    obtain ⟨p1, p2, p3, p4, p5, -⟩ := put_ctl BYTES sh c (Int.tmod sh.cur sh.cols)
    show page_append BYTES sh (c :: (w ++ rest)) = _
    rw [page_append_next BYTES hne hst]
    apply ih
    · unfold Geo
      rw [p1, p2, p3, p4, p5]
      exact hg
    · exact fun x hx => hw x (List.mem_cons_of_mem _ hx)
    · rw [hcur, p1, p5]
      omega

/-! ## The fresh session -/

theorem term_new_fields (rows cols sb_lines fd : Int) :
    (term_new rows cols sb_lines fd).kflags = 0 ∧ (term_new rows cols sb_lines fd).cur = 0 ∧
    (term_new rows cols sb_lines fd).originmode = 0 ∧
    (term_new rows cols sb_lines fd).scroll_top = 0 ∧
    (term_new rows cols sb_lines fd).scroll_bottom = (term_new rows cols sb_lines fd).rows ∧
    (term_new rows cols sb_lines fd).cur_attr = 0 ∧ (term_new rows cols sb_lines fd).top = 0 ∧
    (term_new rows cols sb_lines fd).sb_lines = sb_lines ∧
    (term_new rows cols sb_lines fd).nscroll = 0 ∧
    4 ≤ (term_new rows cols sb_lines fd).rows ∧ (term_new rows cols sb_lines fd).rows ≤ 80 ∧
    10 ≤ (term_new rows cols sb_lines fd).cols ∧ (term_new rows cols sb_lines fd).cols ≤ 160 := by
  unfold term_new erase
  dsimp only
  refine ⟨rfl, rfl, rfl, rfl, rfl, rfl, rfl, rfl, rfl, ?_, ?_, ?_, ?_⟩ <;> split_ifs <;> omega

theorem term_new_page (rows cols sb_lines fd : Int) (i : Nat)
    (h : (i : Int) < (term_new rows cols sb_lines fd).pagelen) :
    (term_new rows cols sb_lines fd).page.getD i 0 = 32 ∧
    (term_new rows cols sb_lines fd).attributes.getD i 0 = 0 := by
  have hs := term_new_shape rows cols sb_lines fd
  unfold Shape at hs
  have h1 : i < (term_new rows cols sb_lines fd).page.length := by omega
  have h2 : i < (term_new rows cols sb_lines fd).attributes.length := by omega
  unfold term_new erase at h h1 h2 ⊢
  dsimp only at h h1 h2 ⊢
  rw [fill_length] at h1 h2
  rw [fill_getD, fill_getD]
  constructor
  · rw [if_pos ⟨h1, by omega, by omega⟩]
  · rw [if_pos ⟨h2, by omega, by omega⟩]

theorem step_ascii (BYTES : Nat) (sh : my_sess) {c : Nat} (rest : List Nat) (h1 : 1 ≤ c)
    (h2 : c ≤ 127) :
    page_append_step BYTES sh (c :: rest) =
      ctl_switch BYTES sh (c :: rest) c 1 (Int.tmod sh.cur sh.cols) := by
  obtain ⟨e1, e2⟩ := decode_ascii BYTES rest h1 h2
  unfold page_append_step
  rw [e1, e2]

theorem step_cr (BYTES : Nat) (sh : my_sess) (rest : List Nat) :
    page_append_step BYTES sh (13 :: rest) = .next (ctl_cr sh (Int.tmod sh.cur sh.cols)) rest := by
  rw [step_ascii BYTES sh rest (by decide) (by decide)]
  unfold ctl_switch
  rw [if_pos rfl, advance_one]

theorem step_lf (BYTES : Nat) (sh : my_sess) (rest : List Nat) :
    page_append_step BYTES sh (10 :: rest) =
      match scroll_loop (scroll_fuel (newline sh)) (newline sh) with
      | none => .diverge
      | some sh1 => .next sh1 rest := by
  rw [step_ascii BYTES sh rest (by decide) (by decide)]
  unfold ctl_switch ctl_default
  simp only [Nat.reduceEqDiff, if_false, if_true, advance_one, ne_eq, not_true_eq_false]
  cases scroll_loop (scroll_fuel (newline sh)) (newline sh) <;> rfl

theorem puts_kflags_zero (BYTES : Nat) (w : List Nat) (sh : my_sess) (hk : sh.kflags = 0)
    (h0 : 0 ≤ sh.cur) (hlen : sh.cur + w.length < sh.cols) (hp : sh.cols ≤ sh.pagelen) :
    (puts BYTES sh w).kflags = 0 := by
  induction w generalizing sh with
  | nil => exact hk
  | cons c w ih =>
    have hl : ((c :: w).length : Int) = (w.length : Int) + 1 := by simp
    rw [hl] at hlen
    rw [puts_cons]
    have hc := put_cur BYTES sh c (Int.tmod sh.cur sh.cols) (by omega)
    obtain ⟨p1, p2, p3, -⟩ := put_ctl BYTES sh c (Int.tmod sh.cur sh.cols)
    apply ih
    · rw [put_eq]
      dsimp only
      have hcc : Int.tmod sh.cur sh.cols = sh.cur := Int.tmod_eq_of_lt h0 (by omega)
      rw [hcc, if_neg (by omega), hk]
      simp [bic, kf_dographic]
    · rw [hc]; omega
    · rw [hc, p1]; omega
    · rw [p1, p3]; exact hp

theorem rd_cons_ne {c : Nat} (rest : List Nat) (h : c ≠ 0) : rd (c :: rest) 0 ≠ 0 := h

theorem glyph_plain (BYTES : Nat) (c : Nat) : glyph BYTES 0 c = c := by
  unfold glyph
  rw [if_neg]
  simp

theorem B_eq_cur (sh : my_sess) : B sh = { sh with cur := B_cur sh sh.cur } := by
  rw [B_eq]
  rfl

theorem B_cur_id (sh : my_sess) {x : Int} (h0 : 0 ≤ x) (h1 : x ≤ sh.pagelen)
    (ho : sh.originmode = 0) : B_cur sh x = x := by
  unfold B_cur
  rw [if_neg (by simp [ho]), if_neg (by omega), if_neg (by omega)]

theorem ctl_cr_eq (sh : my_sess) (curcol : Int) :
    ctl_cr sh curcol =
      { sh with
        cur := B_cur sh (if sh.kflags &&& kf_wrapped ≠ 0 then sh.cur - curcol - sh.cols
          else sh.cur - curcol)
        kflags := bic sh.kflags kf_wrapped } := by
  unfold ctl_cr
  dsimp only
  split_ifs <;> rw [B_eq_cur] <;> rfl

theorem newline_eq (sh : my_sess) :
    newline sh =
      { sh with
        cur := if sh.kflags &&& kf_wrapped ≠ 0 then sh.cur else sh.cur + sh.cols
        kflags := if sh.kflags &&& kf_wrapped ≠ 0 then bic sh.kflags kf_wrapped else sh.kflags } := by
  unfold newline
  split_ifs <;> rfl

/-! ## C7: text followed by CR LF on a fresh session -/

/-- C7: on a fresh session, feeding a string `w` of printable ASCII characters
shorter than a row, followed by CR LF, leaves `w` padded with spaces on row 0,
every other row blank, and the cursor at row 1, column 0. -/
theorem text_crlf (BYTES : Nat) (rows cols sb_lines fd : Int) (w rest : List Nat)
    (hw : printable w) (hlen : (w.length : Int) < (term_new rows cols sb_lines fd).cols)
    (hrest : rd rest 0 = 0) :
    ∃ sh1, page_append BYTES (term_new rows cols sb_lines fd) (w ++ 13 :: 10 :: rest)
        = some (sh1, rest) ∧
      sh1.cur = 1 * sh1.cols + 0 ∧
      sh1.rows = (term_new rows cols sb_lines fd).rows ∧
      sh1.cols = (term_new rows cols sb_lines fd).cols ∧
      sh1.page.length = (term_new rows cols sb_lines fd).page.length ∧
      ∀ i : Nat, (i : Int) < sh1.rows * sh1.cols →
        sh1.page.getD i 0 = if i < w.length then w.getD i 0 else 32 := by
  obtain ⟨f1, f2, f3, f4, f5, f6, f7, f8, f9, f10, f11, f12, f13⟩ :=
    term_new_fields rows cols sb_lines fd
  have hwf := term_new_wf rows cols sb_lines fd
  have hsh := term_new_shape rows cols sb_lines fd
  have hf := geo_facts hwf.1
  have hpg := hwf.1.2.2.1
  generalize hsh0 : term_new rows cols sb_lines fd = sh0 at *
  obtain ⟨s1, ⟨s2, s3, s4, s5, s6, s7, s8, s9, s10⟩, s11, s12⟩ :=
    puts_spec BYTES w sh0 0 f2 (by rw [f2]; omega)
  have hk := puts_kflags_zero BYTES w sh0 f1 (by omega) (by rw [f2]; omega) hf.2.2.2.2
  have hrun := run_printable BYTES w sh0 (13 :: 10 :: rest) hwf.1 hw (by rw [f2]; omega)
  have hcr : ctl_cr (puts BYTES sh0 w) (Int.tmod (puts BYTES sh0 w).cur (puts BYTES sh0 w).cols)
      = { puts BYTES sh0 w with cur := 0, kflags := bic (puts BYTES sh0 w).kflags kf_wrapped } := by
    have hcc : Int.tmod (puts BYTES sh0 w).cur (puts BYTES sh0 w).cols = (puts BYTES sh0 w).cur :=
      Int.tmod_eq_of_lt (by omega) (by omega)
    have hb : B_cur (puts BYTES sh0 w) 0 = 0 :=
      B_cur_id _ (le_refl _) (by rw [s4]; omega) (by rw [s7, f3])
    have hz : (if (puts BYTES sh0 w).kflags &&& kf_wrapped ≠ 0
        then (puts BYTES sh0 w).cur - (puts BYTES sh0 w).cur - (puts BYTES sh0 w).cols
        else (puts BYTES sh0 w).cur - (puts BYTES sh0 w).cur) = 0 := by
      rw [hk]
      simp
    rw [ctl_cr_eq, hcc, hz, hb]
  have hnl : newline
      { puts BYTES sh0 w with cur := 0, kflags := bic (puts BYTES sh0 w).kflags kf_wrapped }
      = { puts BYTES sh0 w with
          cur := (puts BYTES sh0 w).cols, kflags := bic (puts BYTES sh0 w).kflags kf_wrapped } := by
    rw [newline_eq]
    dsimp only
    rw [bic_self _ _ (by decide)]
    simp only [ne_eq, not_true_eq_false, if_false, zero_add]
  have hstep2 : page_append_step BYTES
      { puts BYTES sh0 w with cur := 0, kflags := bic (puts BYTES sh0 w).kflags kf_wrapped }
      (10 :: rest)
      = .next { puts BYTES sh0 w with
          cur := (puts BYTES sh0 w).cols, kflags := bic (puts BYTES sh0 w).kflags kf_wrapped }
        rest := by
    rw [step_lf, hnl, scroll_loop_skip]
    show (puts BYTES sh0 w).cols < (puts BYTES sh0 w).scroll_bottom * (puts BYTES sh0 w).cols
    rw [s6, s2, f5]
    have : 2 * sh0.cols ≤ sh0.rows * sh0.cols := Int.mul_le_mul_of_nonneg_right (by omega) (by omega)
    omega
  refine ⟨{ puts BYTES sh0 w with
    cur := (puts BYTES sh0 w).cols, kflags := bic (puts BYTES sh0 w).kflags kf_wrapped },
    ?_, ?_, s3, s2, s11, ?_⟩
  · rw [hrun, page_append_next BYTES (rd_cons_ne _ (by decide)) (step_cr BYTES _ _), hcr,
      page_append_next BYTES (rd_cons_ne _ (by decide)) hstep2, page_append_nil BYTES _ hrest]
  · show (puts BYTES sh0 w).cols = 1 * (puts BYTES sh0 w).cols + 0
    ring
  · intro i hi
    show (puts BYTES sh0 w).page.getD i 0 = _
    have hi2 : (i : Int) < sh0.pagelen := by
      have : (i : Int) < (puts BYTES sh0 w).rows * (puts BYTES sh0 w).cols := hi
      rw [s3, s2, ← hpg] at this
      exact this
    have hi3 : i < sh0.page.length := by
      have := hsh.1
      omega
    rw [s12, f1]
    have hp := (term_new_page rows cols sb_lines fd i (by rw [hsh0]; exact hi2)).1
    rw [hsh0] at hp
    by_cases h : i < w.length
    · rw [if_pos ⟨hi3, by omega, by omega⟩, if_pos h, glyph_plain, Nat.sub_zero]
    · rw [if_neg (by omega), if_neg h, hp]

theorem text_crlf_witness :
    ∃ sh1, page_append 1 (term_new 25 80 0 3) ([72, 101, 108, 108, 111] ++ 13 :: 10 :: [])
        = some (sh1, []) ∧
      sh1.cur = 1 * sh1.cols + 0 ∧
      sh1.rows = (term_new 25 80 0 3).rows ∧
      sh1.cols = (term_new 25 80 0 3).cols ∧
      sh1.page.length = (term_new 25 80 0 3).page.length ∧
      ∀ i : Nat, (i : Int) < sh1.rows * sh1.cols →
        sh1.page.getD i 0 = if i < [72, 101, 108, 108, 111].length
          then [72, 101, 108, 108, 111].getD i 0 else 32 :=
  text_crlf 1 25 80 0 3 [72, 101, 108, 108, 111] [] (by unfold printable; decide) (by decide) rfl

/-! ## C3: autowrap -/

theorem printable_run (BYTES : Nat) (sh : my_sess) (w rest : List Nat) (n : Nat) (hg : Geo sh)
    (hn : sh.cur = n) (hw : printable w) (hlen : sh.cur + w.length ≤ sh.scroll_bottom * sh.cols)
    (hrest : rd rest 0 = 0) :
    ∃ sh1, page_append BYTES sh (w ++ rest) = some (sh1, rest) ∧
      sh1.cur = sh.cur + w.length ∧ sh1.page.length = sh.page.length ∧
      ∀ i : Nat, sh1.page.getD i 0 =
        if i < sh.page.length ∧ n ≤ i ∧ i < n + w.length then glyph BYTES sh.kflags (w.getD (i - n) 0)
        else sh.page.getD i 0 := by
  have hf := geo_facts hg
  obtain ⟨s1, -, s11, s12⟩ := puts_spec BYTES w sh n hn (by omega)
  refine ⟨puts BYTES sh w, ?_, s1, s11, s12⟩
  rw [run_printable BYTES w sh rest hg hw hlen, page_append_nil BYTES _ hrest]

/-- C3 as amended: with the cursor at column 0 of a row `r` above the last row of the
scroll region, feeding `cols + 1` printable characters leaves the first `cols`
of them on row `r` and the last one at `(r+1, 0)`, every other cell unchanged;
feeding "AB" with the cursor at `(r, cols-1)` puts A at `(r, cols-1)` and B at
`(r+1, 0)`.  A cell holds the code stored for the character: the character
itself unless the graphics translation applies to it. -/
theorem autowrap (BYTES : Nat) (sh : my_sess) (r C : Nat) (rest : List Nat) (hwf : WF sh)
    (hs : Shape sh) (hC : sh.cols = C) (hr : (r : Int) + 1 < sh.scroll_bottom)
    (hrest : rd rest 0 = 0) :
    (∀ w : List Nat, printable w → w.length = C + 1 → sh.cur = (r : Int) * sh.cols + 0 →
      ∃ sh1, page_append BYTES sh (w ++ rest) = some (sh1, rest) ∧
        (∀ j : Nat, j < C → sh1.page.getD (r * C + j) 0 = glyph BYTES sh.kflags (w.getD j 0)) ∧
        sh1.page.getD ((r + 1) * C + 0) 0 = glyph BYTES sh.kflags (w.getD C 0) ∧
        (∀ i : Nat, i < r * C ∨ (r + 1) * C + 1 ≤ i → sh1.page.getD i 0 = sh.page.getD i 0) ∧
        sh1.cur = ((r : Int) + 1) * sh.cols + 1) ∧
    (sh.cur = (r : Int) * sh.cols + (sh.cols - 1) →
      ∃ sh1, page_append BYTES sh (65 :: 66 :: rest) = some (sh1, rest) ∧
        sh1.page.getD (r * C + (C - 1)) 0 = 65 ∧ sh1.page.getD ((r + 1) * C + 0) 0 = 66 ∧
        (∀ i : Nat, i < r * C + (C - 1) ∨ (r + 1) * C + 1 ≤ i →
          sh1.page.getD i 0 = sh.page.getD i 0) ∧
        sh1.cur = ((r : Int) + 1) * sh.cols + 1) := by
  obtain ⟨hg, h0, h1⟩ := hwf
  have hf := geo_facts hg
  have hC0 : 0 < C := by omega
  have hsb : ((r : Int) + 2) * sh.cols ≤ sh.scroll_bottom * sh.cols :=
    Int.mul_le_mul_of_nonneg_right (by omega) (by omega)
  have e1 : ((r : Int) + 2) * sh.cols = (r : Int) * C + C + C := by rw [hC]; ring
  have e2 : ((r : Int) + 1) * sh.cols = (r : Int) * C + C := by rw [hC]; ring
  have e3 : (r + 1) * C = r * C + C := by ring
  have hrc : ((r * C : Nat) : Int) = (r : Int) * C := by push_cast; rfl
  have hpl : (sh.page.length : Int) = sh.pagelen := hs.1
  constructor
  · intro w hw hlen hcur
    have hn : sh.cur = ((r * C : Nat) : Int) := by rw [hcur, hC, hrc]; ring
    obtain ⟨sh1, e, c1, c2, c3⟩ := printable_run BYTES sh w rest (r * C) hg hn hw
      (by rw [hn, hlen]; push_cast; omega) hrest
    refine ⟨sh1, e, fun j hj => ?_, ?_, fun i hi => ?_, ?_⟩
    · rw [c3, if_pos ⟨by omega, by omega, by omega⟩]
      congr 2
      omega
    · rw [c3, if_pos ⟨by omega, by omega, by omega⟩]
      congr 2
      omega
    · rw [c3, if_neg (by omega)]
    · rw [c1, hn, hlen, e2]
      push_cast
      ring
  · intro hcur
    have hn : sh.cur = ((r * C + (C - 1) : Nat) : Int) := by
      rw [hcur, hC]
      push_cast
      rw [Nat.cast_sub (by omega)]
      push_cast
      ring
    have hp : printable [65, 66] := by unfold printable; decide
    obtain ⟨sh1, e, c1, c2, c3⟩ := printable_run BYTES sh [65, 66] rest (r * C + (C - 1)) hg hn hp
      (by rw [hn]; simp only [List.length_cons, List.length_nil]; push_cast; omega) hrest
    have g1 : glyph BYTES sh.kflags 65 = 65 := by unfold glyph; rw [if_neg (by omega)]
    have g2 : glyph BYTES sh.kflags 66 = 66 := by unfold glyph; rw [if_neg (by omega)]
    refine ⟨sh1, e, ?_, ?_, fun i hi => ?_, ?_⟩
    · rw [c3, if_pos ⟨by omega, by omega, by simp⟩]
      simp [g1]
    · rw [c3, if_pos ⟨by omega, by omega, by simp; omega⟩]
      have : (r + 1) * C + 0 - (r * C + (C - 1)) = 1 := by omega
      rw [this]
      exact g2
    · rw [c3, if_neg (by simp only [List.length_cons, List.length_nil]; omega)]
    · rw [c1, hn, e2]
      simp only [List.length_cons, List.length_nil]
      push_cast
      omega

theorem autowrap_witness :
    ∃ sh1, page_append 1 (term_new 4 10 0 3)
        ([48, 49, 50, 51, 52, 53, 54, 55, 56, 57, 65] ++ []) = some (sh1, []) ∧
      (∀ j : Nat, j < 10 → sh1.page.getD (0 * 10 + j) 0 =
        glyph 1 (term_new 4 10 0 3).kflags ([48, 49, 50, 51, 52, 53, 54, 55, 56, 57, 65].getD j 0)) ∧
      sh1.page.getD ((0 + 1) * 10 + 0) 0 =
        glyph 1 (term_new 4 10 0 3).kflags ([48, 49, 50, 51, 52, 53, 54, 55, 56, 57, 65].getD 10 0) ∧
      (∀ i : Nat, i < 0 * 10 ∨ (0 + 1) * 10 + 1 ≤ i →
        sh1.page.getD i 0 = (term_new 4 10 0 3).page.getD i 0) ∧
      sh1.cur = (((0 : Nat) : Int) + 1) * (term_new 4 10 0 3).cols + 1 :=
  (autowrap 1 (term_new 4 10 0 3) 0 10 [] (term_new_wf 4 10 0 3) (term_new_shape 4 10 0 3)
    (by decide) (by decide) rfl).1
    [48, 49, 50, 51, 52, 53, 54, 55, 56, 57, 65] (by unfold printable; decide) rfl (by decide)

set_option maxRecDepth 100000 in
/-- C3 as stated fails for a row below the scroll region: on a fresh 4x10
session with the region set to rows 0 and 1 by `ESC [ 1 ; 2 r` and the cursor
put on row 2, column 0 by `ESC [ 3 ; 1 H`, the eleven characters
`0123456789A` do not land on rows 2 and 3: the loop in front of the store
pulls the cursor into the region and scrolls it, the digits end on row 0, the
`A` on row 1, and the cells `(2, 0)` and `(3, 0)` stay blank. -/
theorem autowrap_below_region_counterexample :
    (page_append 1 (term_new 4 10 0 3) [27, 91, 49, 59, 50, 114, 27, 91, 51, 59, 49, 72]).map
      (fun r => (r.1.scroll_top, r.1.scroll_bottom, r.1.cur)) = some (0, 2, 20) ∧
    (page_append 1 (term_new 4 10 0 3)
      [27, 91, 49, 59, 50, 114, 27, 91, 51, 59, 49, 72,
        48, 49, 50, 51, 52, 53, 54, 55, 56, 57, 65]).map
      (fun r => (r.1.page.take 11, r.1.page.getD 20 0, r.1.page.getD 30 0, r.1.cur))
      = some ([48, 49, 50, 51, 52, 53, 54, 55, 56, 57, 65], 32, 32, 11) := by
  decide

/-! ## Parsing CSI parameters -/

theorem dec_digits (n : Nat) : ∀ d ∈ dec n, isdigit d = true := by
  intro d hd
  unfold dec at hd
  simp only [List.mem_reverse, List.mem_map] at hd
  obtain ⟨x, hx, rfl⟩ := hd
  have := Nat.digits_lt_base (by decide : 1 < 10) hx
  unfold isdigit
  simp
  omega

theorem isdigit_isparm {d : Nat} (h : isdigit d = true) : isparm d = true := by
  unfold isdigit at h
  simp at h
  have : d = 48 ∨ d = 49 ∨ d = 50 ∨ d = 51 ∨ d = 52 ∨ d = 53 ∨ d = 54 ∨ d = 55 ∨ d = 56 ∨ d = 57 := by
    omega
  rcases this with h | h | h | h | h | h | h | h | h | h <;> subst h <;> decide

theorem dec_ne_nil {n : Nat} (h : 1 ≤ n) : dec n ≠ [] := by
  unfold dec
  intro e
  rw [List.reverse_eq_nil_iff, List.map_eq_nil_iff] at e
  exact (Nat.digits_ne_nil_iff_ne_zero.mpr (by omega)) e

theorem dec_value (n : Nat) : (dec n).foldl (fun a d => a * 10 + (d - 48)) 0 = n := by
  unfold dec
  rw [List.foldl_reverse, List.foldr_map]
  have h := Nat.ofDigits_digits 10 n
  rw [Nat.ofDigits_eq_foldr] at h
  simp only [Nat.cast_id, Nat.add_sub_cancel] at h ⊢
  have e : (fun (x y : Nat) => y * 10 + x) = (fun (x y : Nat) => x + 10 * y) := by
    funext x y
    ring
  rw [e]
  exact h

theorem scan_int_dec (n : Nat) (h : 1 ≤ n) (hn : n < 2147483648) {c : Nat} (t : List Nat)
    (hc : isdigit c = false) :
    scan_int (dec n ++ c :: t) = some ((n : Int), c :: t) := by
  have h1 : List.takeWhile isdigit (dec n ++ c :: t) = dec n := by
    rw [List.takeWhile_append_of_pos (dec_digits n), List.takeWhile_cons, hc]
    simp
  have h2 : List.dropWhile isdigit (dec n ++ c :: t) = c :: t := by
    rw [List.dropWhile_append_of_pos (dec_digits n), List.dropWhile_cons, hc]
    simp
  unfold scan_int
  simp only [h1, h2]
  have : (dec n).isEmpty = false := by
    cases hd : dec n with
    | nil => exact absurd hd (dec_ne_nil h)
    | cons a l => rfl
  have hw : wrap (min (n : Int) 9223372036854775807) = (n : Int) := by
    rw [min_eq_left (by omega)]
    exact wrap_id (by omega) (by omega)
  simp only [this, Bool.false_eq_true, if_false, dec_value, hw]

theorem scan_int_none {c : Nat} (t : List Nat) (hc : isdigit c = false) :
    scan_int (c :: t) = none := by
  unfold scan_int
  simp [List.takeWhile_cons, hc]

theorem sscanf3_none {c : Nat} (t : List Nat) (hc : isdigit c = false) :
    sscanf3 (c :: t) = (0, 1, 1, 1) := by
  unfold sscanf3
  rw [scan_int_none t hc]

theorem sscanf3_one (a : Nat) (ha : 1 ≤ a) (hn : a < 2147483648) {c : Nat} (t : List Nat)
    (hc : isparm c = false) :
    sscanf3 (dec a ++ c :: t) = (1, (a : Int), 1, 1) := by
  have hd : isdigit c = false := by
    cases h : isdigit c with
    | false => rfl
    | true => rw [isdigit_isparm h] at hc; cases hc
  have h59 : c ≠ 59 := by
    intro e
    subst e
    revert hc
    decide
  unfold sscanf3
  rw [scan_int_dec a ha hn t hd]
  simp [rd, h59]

theorem sscanf3_two (a b : Nat) (ha : 1 ≤ a) (hb : 1 ≤ b) (hna : a < 2147483648)
    (hnb : b < 2147483648) {c : Nat} (t : List Nat)
    (hc : isparm c = false) :
    sscanf3 (dec a ++ 59 :: (dec b ++ c :: t)) = (2, (a : Int), (b : Int), 1) := by
  have hd : isdigit c = false := by
    cases h : isdigit c with
    | false => rfl
    | true => rw [isdigit_isparm h] at hc; cases hc
  have h59 : c ≠ 59 := by
    intro e
    subst e
    revert hc
    decide
  unfold sscanf3
  rw [scan_int_dec a ha hna _ (by decide : isdigit 59 = false)]
  simp only [rd, List.getD_cons_zero, ne_eq, not_true_eq_false, if_false, List.drop_succ_cons,
    List.drop_zero]
  rw [scan_int_dec b hb hnb t hd]
  simp [h59]

theorem skip_parms_eq (ps : List Nat) {c : Nat} (t : List Nat) (hps : ∀ x ∈ ps, isparm x = true)
    (hc : isparm c = false) : skip_parms (ps ++ c :: t) = c :: t := by
  have e : skip_parms = List.dropWhile isparm := rfl
  rw [e, List.dropWhile_append_of_pos hps, List.dropWhile_cons, hc]
  simp

theorem isparm_range {x : Nat} (h : isparm x = true) : 48 ≤ x ∧ x ≤ 59 := by
  unfold isparm index at h
  simp at h
  omega

theorem do_csi_eq (sh : my_sess) (ps : List Nat) {cmd : Nat} (rest : List Nat) (curcol : Int)
    (hps : ∀ x ∈ ps, isparm x = true) (hc : isparm cmd = false) (h0 : cmd ≠ 0)
    (hm : cmd < 60 ∨ 63 < cmd) :
    do_csi sh (27 :: 91 :: (ps ++ cmd :: rest)) curcol =
      (0, csi_cmd sh cmd 32 (sscanf3 (ps ++ cmd :: rest)).1 (sscanf3 (ps ++ cmd :: rest)).2.1
        (sscanf3 (ps ++ cmd :: rest)).2.2.1 (sscanf3 (ps ++ cmd :: rest)).2.2.2 curcol,
        cmd :: rest) := by
  have hhead : rd (ps ++ cmd :: rest) 0 ≠ 0 ∧
      index [60, 61, 62, 63] (rd (ps ++ cmd :: rest) 0) = false := by
    cases ps with
    | nil =>
      refine ⟨h0, ?_⟩
      show index [60, 61, 62, 63] cmd = false
      unfold index
      simp
      omega
    | cons p ps' =>
      have hp := isparm_range (hps p (List.mem_cons_self _ _))
      show p ≠ 0 ∧ index [60, 61, 62, 63] p = false
      refine ⟨by omega, ?_⟩
      unfold index
      simp
      omega
  unfold do_csi
  simp only [List.drop_succ_cons, List.drop_zero, hhead.1, hhead.2, if_false, Bool.false_eq_true,
    skip_parms_eq ps rest hps hc]
  have : rd (cmd :: rest) 0 = cmd := rfl
  simp only [this, h0, if_false]

theorem step_csi (BYTES : Nat) (sh : my_sess) (ps : List Nat) (cmd : Nat) (rest : List Nat)
    (hps : ∀ x ∈ ps, isparm x = true) (hc : isparm cmd = false) (h0 : cmd ≠ 0)
    (hm : cmd < 60 ∨ 63 < cmd) :
    page_append_step BYTES sh (27 :: 91 :: (ps ++ cmd :: rest)) =
      .next (csi_cmd sh cmd 32 (sscanf3 (ps ++ cmd :: rest)).1 (sscanf3 (ps ++ cmd :: rest)).2.1
        (sscanf3 (ps ++ cmd :: rest)).2.2.1 (sscanf3 (ps ++ cmd :: rest)).2.2.2
        (Int.tmod sh.cur sh.cols)) rest := by
  rw [step_ascii BYTES sh _ (by decide) (by decide)]
  unfold ctl_switch
  simp only [Nat.reduceEqDiff, if_false, if_true]
  unfold ctl_esc
  have h1 : rd (27 :: 91 :: (ps ++ cmd :: rest)) 1 = 91 := rfl
  simp only [h1, Nat.reduceEqDiff, if_false, if_true]
  rw [do_csi_eq sh ps rest _ hps hc h0 hm]
  simp

/-! ## C9, C10: set graphic rendition -/

set_option maxRecDepth 100000 in
theorem attr_fg_bits : ∀ a < 256, ∀ k < 8,
    u8 (u8 (bic a ka_fg) ||| k) &&& ka_fg = k ∧ u8 (u8 (bic a ka_fg) ||| k) &&& ka_bg = a &&& ka_bg := by
  decide

set_option maxRecDepth 100000 in
theorem attr_bg_bits : ∀ a < 256, ∀ k < 8,
    (u8 (u8 (bic a ka_bg) ||| (k <<< ka_bg_shift)) &&& ka_bg) >>> ka_bg_shift = k ∧
    u8 (u8 (bic a ka_bg) ||| (k <<< ka_bg_shift)) &&& ka_fg = a &&& ka_fg := by
  decide

theorem step_sgr_one (BYTES : Nat) (sh : my_sess) (p : Nat) (hp : 1 ≤ p) (hn : p < 2147483648)
    (rest : List Nat) :
    page_append_step BYTES sh (27 :: 91 :: (dec p ++ 109 :: rest)) =
      .next (sgr_loop sh [(p : Int)]) rest := by
  rw [step_csi BYTES sh (dec p) 109 rest (fun x hx => isdigit_isparm (dec_digits p x hx)) (by decide)
    (by decide) (by decide), sscanf3_one p hp hn rest (by decide)]
  unfold csi_cmd
  simp only [Nat.reduceEqDiff, if_false, if_true, Nat.reduceEqDiff, or_self]
  unfold csi_m
  simp

theorem sgr_fg_arg (sh : my_sess) (p : Nat)
    (hp : p = 1 ∨ p = 4 ∨ p = 5 ∨ p = 7 ∨ p = 22 ∨ p = 24 ∨ p = 25 ∨ p = 27 ∨ (30 ≤ p ∧ p ≤ 37)) :
    sgr_loop sh [(p : Int)] =
      { sh with cur_attr := u8 (u8 (bic sh.cur_attr ka_fg) ||| (37 - p)) } := by
  have h1 : (p : Int) ≠ 0 := by omega
  have h2 : (p : Int) = 1 ∨ (p : Int) = 4 ∨ (p : Int) = 5 ∨ (p : Int) = 7 ∨ (p : Int) = 22 ∨
      (p : Int) = 24 ∨ (p : Int) = 25 ∨ (p : Int) = 27 ∨ (30 ≤ (p : Int) ∧ (p : Int) ≤ 37) := by
    omega
  have h3 : (37 - (p : Int)).toNat = 37 - p := by omega
  unfold sgr_loop sgr_arg
  rw [if_neg h1, if_pos h2, h3]
  rfl

theorem sgr_bg_arg (sh : my_sess) (p : Nat) (hp : 40 ≤ p ∧ p ≤ 47) :
    sgr_loop sh [(p : Int)] =
      { sh with cur_attr := u8 (u8 (bic sh.cur_attr ka_bg) ||| ((47 - p) <<< ka_bg_shift)) } := by
  have h1 : (p : Int) ≠ 0 := by omega
  have h2 : ¬ ((p : Int) = 1 ∨ (p : Int) = 4 ∨ (p : Int) = 5 ∨ (p : Int) = 7 ∨ (p : Int) = 22 ∨
      (p : Int) = 24 ∨ (p : Int) = 25 ∨ (p : Int) = 27 ∨ (30 ≤ (p : Int) ∧ (p : Int) ≤ 37)) := by
    omega
  have h3 : (47 - (p : Int)).toNat = 47 - p := by omega
  have h4 : (p : Int) ≠ 39 := by omega
  have h5 : 40 ≤ (p : Int) ∧ (p : Int) ≤ 47 := by omega
  unfold sgr_loop sgr_arg
  rw [if_neg h1, if_neg h2, if_neg h4, if_pos h5, h3]
  rfl

theorem step_sgr_zero (BYTES : Nat) (sh : my_sess) (rest : List Nat) :
    page_append_step BYTES sh (27 :: 91 :: 48 :: 109 :: rest) = .next { sh with cur_attr := 0 } rest := by
  have h := step_csi BYTES sh [48] 109 rest (by decide) (by decide) (by decide) (by decide)
  have e : sscanf3 ([48] ++ 109 :: rest) = (1, 0, 1, 1) := by
    simp [sscanf3, scan_int, List.takeWhile, List.dropWhile, isdigit, rd, wrap]
  rw [e] at h
  rw [show (27 :: 91 :: 48 :: 109 :: rest) = 27 :: 91 :: ([48] ++ 109 :: rest) from rfl, h]
  unfold csi_cmd
  simp only [Nat.reduceEqDiff, if_false, if_true, Nat.reduceEqDiff, or_self]
  unfold csi_m
  simp [sgr_loop, sgr_arg]

theorem put_attr_plain (BYTES : Nat) (sh : my_sess) (c : Nat) (curcol : Int)
    (hplain : ¬ (c ≥ 0x60 ∧ c < 0x7f ∧ sh.kflags &&& kf_dographic ≠ 0 ∧ sh.kflags &&& kf_graphics ≠ 0)) :
    (put BYTES sh c curcol).attributes = store sh.attributes sh.cur sh.cur_attr := by
  rw [put_eq]
  dsimp only
  rw [if_neg hplain]

theorem glyph_low (BYTES : Nat) (k : Nat) {c : Nat} (h : c < 96) : glyph BYTES k c = c := by
  unfold glyph
  rw [if_neg (by omega)]

theorem sgr_scenario (BYTES : Nat) (rows cols sb_lines fd : Int) (rest : List Nat)
    (hrest : rd rest 0 = 0) :
    ∃ sh1, page_append BYTES (term_new rows cols sb_lines fd)
        (27 :: 91 :: 51 :: 49 :: 59 :: 52 :: 48 :: 109 :: 65 :: 27 :: 91 :: 48 :: 109 :: 66 :: rest)
        = some (sh1, rest) ∧
      sh1.page.getD 0 0 = 65 ∧ sh1.attributes.getD 0 0 &&& ka_fg = 6 ∧
      (sh1.attributes.getD 0 0 &&& ka_bg) >>> ka_bg_shift = 7 ∧
      sh1.page.getD 1 0 = 66 ∧ sh1.attributes.getD 1 0 = 0 := by
  obtain ⟨f1, f2, f3, f4, f5, f6, f7, f8, f9, f10, f11, f12, f13⟩ :=
    term_new_fields rows cols sb_lines fd
  have hwf := term_new_wf rows cols sb_lines fd
  have hsh := term_new_shape rows cols sb_lines fd
  have hpg := hwf.1.2.2.1
  generalize term_new rows cols sb_lines fd = sh0 at *
  have hbig : (1 : Int) < sh0.scroll_bottom * sh0.cols := by
    rw [f5]
    have : 1 * sh0.cols ≤ sh0.rows * sh0.cols := Int.mul_le_mul_of_nonneg_right (by omega) (by omega)
    omega
  have hl1 : 1 < sh0.page.length := by have := hsh.1; rw [hpg] at this; rw [f5] at hbig; omega
  have hl2 : 1 < sh0.attributes.length := by have := hsh.2; rw [hpg] at this; rw [f5] at hbig; omega
  -- ESC [ 31 ; 40 m
  have e1 : page_append_step BYTES sh0
      (27 :: 91 :: 51 :: 49 :: 59 :: 52 :: 48 :: 109 :: 65 :: 27 :: 91 :: 48 :: 109 :: 66 :: rest)
      = .next { sh0 with cur_attr := 62 } (65 :: 27 :: 91 :: 48 :: 109 :: 66 :: rest) := by
    have h := step_csi BYTES sh0 [51, 49, 59, 52, 48] 109
      (65 :: 27 :: 91 :: 48 :: 109 :: 66 :: rest) (by decide) (by decide) (by decide) (by decide)
    have e : sscanf3 ([51, 49, 59, 52, 48] ++ 109 :: 65 :: 27 :: 91 :: 48 :: 109 :: 66 :: rest)
        = (2, 31, 40, 1) := by
      simp [sscanf3, scan_int, List.takeWhile, List.dropWhile, isdigit, rd, wrap]
    rw [e] at h
    rw [show (27 :: 91 :: 51 :: 49 :: 59 :: 52 :: 48 :: 109 :: 65 :: 27 :: 91 :: 48 :: 109 :: 66 :: rest)
      = 27 :: 91 :: ([51, 49, 59, 52, 48] ++ 109 :: 65 :: 27 :: 91 :: 48 :: 109 :: 66 :: rest) from rfl, h]
    unfold csi_cmd
    simp only [Nat.reduceEqDiff, if_false, if_true, Nat.reduceEqDiff, or_self]
    unfold csi_m
    simp [sgr_loop, sgr_arg, f6]
    decide
  -- A
  have e2 := step_printable BYTES { sh0 with cur_attr := 62 } (c := 65)
    (27 :: 91 :: 48 :: 109 :: 66 :: rest) (by omega)
    (by show sh0.cur < sh0.scroll_bottom * sh0.cols; rw [f2]; omega)
  -- ESC [ 0 m
  have e3 := step_sgr_zero BYTES
    (put BYTES { sh0 with cur_attr := 62 } 65 (Int.tmod sh0.cur sh0.cols)) (66 :: rest)
  have hc2 : (put BYTES { sh0 with cur_attr := 62 } 65 (Int.tmod sh0.cur sh0.cols)).cur = 1 := by
    rw [put_cur BYTES _ _ _ (by show sh0.cur < sh0.pagelen; rw [f2, hpg, ← f5]; omega)]
    show sh0.cur + 1 = 1
    rw [f2]
    rfl
  obtain ⟨p1, p2, p3, p4, p5, -⟩ :=
    put_ctl BYTES { sh0 with cur_attr := 62 } 65 (Int.tmod sh0.cur sh0.cols)
  -- B
  have e4 := step_printable BYTES
    { put BYTES { sh0 with cur_attr := 62 } 65 (Int.tmod sh0.cur sh0.cols) with cur_attr := 0 }
    (c := 66) rest (by omega) (by
      show (put BYTES { sh0 with cur_attr := 62 } 65 (Int.tmod sh0.cur sh0.cols)).cur < _ * _
      rw [hc2, p5, p1]
      exact hbig)
  have hA := (page_append_next BYTES (rd_cons_ne _ (by decide)) e1).trans
    ((page_append_next BYTES (rd_cons_ne _ (by decide)) e2).trans
      ((page_append_next BYTES (rd_cons_ne _ (by decide)) e3).trans
        ((page_append_next BYTES (rd_cons_ne _ (by decide)) e4).trans
          (page_append_nil BYTES _ hrest))))
  have hpage : (put BYTES
      { put BYTES { sh0 with cur_attr := 62 } 65 (Int.tmod sh0.cur sh0.cols) with cur_attr := 0 } 66
      (Int.tmod (put BYTES { sh0 with cur_attr := 62 } 65 (Int.tmod sh0.cur sh0.cols)).cur
        (put BYTES { sh0 with cur_attr := 62 } 65 (Int.tmod sh0.cur sh0.cols)).cols)).page
      = store (store sh0.page 0 65) 1 66 := by
    rw [put_page]
    show store (put BYTES { sh0 with cur_attr := 62 } 65 (Int.tmod sh0.cur sh0.cols)).page
      (put BYTES { sh0 with cur_attr := 62 } 65 (Int.tmod sh0.cur sh0.cols)).cur _ = _
    rw [hc2, put_page, glyph_low BYTES _ (by decide : 65 < 96),
      glyph_low BYTES _ (by decide : 66 < 96)]
    show store (store sh0.page sh0.cur 65) 1 66 = _
    rw [f2]
  have hattr : (put BYTES
      { put BYTES { sh0 with cur_attr := 62 } 65 (Int.tmod sh0.cur sh0.cols) with cur_attr := 0 } 66
      (Int.tmod (put BYTES { sh0 with cur_attr := 62 } 65 (Int.tmod sh0.cur sh0.cols)).cur
        (put BYTES { sh0 with cur_attr := 62 } 65 (Int.tmod sh0.cur sh0.cols)).cols)).attributes
      = store (store sh0.attributes 0 62) 1 0 := by
    rw [put_attr_plain BYTES _ _ _ (by omega)]
    show store (put BYTES { sh0 with cur_attr := 62 } 65 (Int.tmod sh0.cur sh0.cols)).attributes
      (put BYTES { sh0 with cur_attr := 62 } 65 (Int.tmod sh0.cur sh0.cols)).cur 0 = _
    rw [hc2, put_attr_plain BYTES _ _ _ (by omega)]
    show store (store sh0.attributes sh0.cur 62) 1 0 = _
    rw [f2]
  have g0 : 0 < sh0.page.length := by omega
  have g1 : 0 < sh0.attributes.length := by omega
  refine ⟨_, hA, ?_, ?_, ?_, ?_, ?_⟩
  · rw [hpage, store_getD, if_neg (by simp), store_getD, if_pos ⟨g0, rfl⟩]
  · rw [hattr, store_getD, if_neg (by simp), store_getD, if_pos ⟨g1, rfl⟩]
    decide
  · rw [hattr, store_getD, if_neg (by simp), store_getD, if_pos ⟨g1, rfl⟩]
    decide
  · rw [hpage, store_getD, if_pos ⟨by rw [store, fill_length]; exact hl1, rfl⟩]
  · rw [hattr, store_getD, if_pos ⟨by rw [store, fill_length]; exact hl2, rfl⟩]

/-- The colour arguments of SGR: for `p` in 30..37, `CSI p m` sets the
foreground index (bits 0-2 of `cur_attr`) to `37 - p` and keeps the background
bits; for `p` in 40..47 it sets the background index (bits 3-5) to `47 - p`
and keeps the foreground bits; `CSI 0 m` sets `cur_attr` to 0; none of them
changes another field; a character written without graphics translation
stores `cur_attr` in its attribute cell; so `ESC[31;40mA ESC[0mB` on a fresh
grid gives `attrs[0]` with foreground index 6 and background index 7 and
`attrs[1] = 0`. -/
theorem sgr_colours (BYTES : Nat) (sh : my_sess) (rest : List Nat) (hattr : sh.cur_attr < 256) :
    (∀ p : Nat, 30 ≤ p → p ≤ 37 →
      ∃ a, page_append_step BYTES sh (27 :: 91 :: (dec p ++ 109 :: rest))
          = .next { sh with cur_attr := a } rest ∧
        a &&& ka_fg = 37 - p ∧ a &&& ka_bg = sh.cur_attr &&& ka_bg) ∧
    (∀ p : Nat, 40 ≤ p → p ≤ 47 →
      ∃ a, page_append_step BYTES sh (27 :: 91 :: (dec p ++ 109 :: rest))
          = .next { sh with cur_attr := a } rest ∧
        (a &&& ka_bg) >>> ka_bg_shift = 47 - p ∧ a &&& ka_fg = sh.cur_attr &&& ka_fg) ∧
    page_append_step BYTES sh (27 :: 91 :: 48 :: 109 :: rest)
      = .next { sh with cur_attr := 0 } rest ∧
    (∀ c : Nat, 32 ≤ c → c ≤ 126 → sh.cur < sh.scroll_bottom * sh.cols →
      ¬ (c ≥ 0x60 ∧ c < 0x7f ∧ sh.kflags &&& kf_dographic ≠ 0 ∧ sh.kflags &&& kf_graphics ≠ 0) →
      ∃ sh1, page_append_step BYTES sh (c :: rest) = .next sh1 rest ∧
        sh1.attributes = store sh.attributes sh.cur sh.cur_attr ∧ sh1.cur_attr = sh.cur_attr) ∧
    (∀ rows cols sb_lines fd : Int, rd rest 0 = 0 →
      ∃ sh1, page_append BYTES (term_new rows cols sb_lines fd)
          (27 :: 91 :: 51 :: 49 :: 59 :: 52 :: 48 :: 109 :: 65 :: 27 :: 91 :: 48 :: 109 :: 66 :: rest)
          = some (sh1, rest) ∧
        sh1.page.getD 0 0 = 65 ∧ sh1.attributes.getD 0 0 &&& ka_fg = 6 ∧
        (sh1.attributes.getD 0 0 &&& ka_bg) >>> ka_bg_shift = 7 ∧
        sh1.page.getD 1 0 = 66 ∧ sh1.attributes.getD 1 0 = 0) := by
  refine ⟨fun p h1 h2 => ?_, fun p h1 h2 => ?_, step_sgr_zero BYTES sh rest,
    fun c h1 h2 hlt hpl => ?_, fun rows cols sb_lines fd hrest =>
      sgr_scenario BYTES rows cols sb_lines fd rest hrest⟩
  · obtain ⟨b1, b2⟩ := attr_fg_bits sh.cur_attr hattr (37 - p) (by omega)
    exact ⟨_, by rw [step_sgr_one BYTES sh p (by omega) (by omega) rest, sgr_fg_arg sh p (by omega)], b1, b2⟩
  · obtain ⟨b1, b2⟩ := attr_bg_bits sh.cur_attr hattr (47 - p) (by omega)
    exact ⟨_, by rw [step_sgr_one BYTES sh p (by omega) (by omega) rest, sgr_bg_arg sh p ⟨h1, h2⟩], b1, b2⟩
  · refine ⟨_, step_printable BYTES sh rest ⟨h1, h2⟩ hlt, put_attr_plain BYTES sh c _ hpl, ?_⟩
    exact (put_ctl BYTES sh c _).2.2.2.2.2.2.1

set_option maxRecDepth 100000 in
/-- C9 (the code at the failing input): on a fresh 4x10 session,
`ESC [ 3 1 ; 4 0 m A` writes `A` in cell 0 with the attribute 62; after CR,
`ESC [ 0 m` (`cur_attr` is 0 from here on) and `ESC ( 0`, the character `q` is
written over it as the line-drawing glyph 0xC4, and the attribute cell still
holds 62: the store of the attribute stands in the branch of the
untranslated characters only. -/
theorem sgr_translated_glyph_attr :
    (page_append 1 (term_new 4 10 0 3)
      [27, 91, 51, 49, 59, 52, 48, 109, 65, 13, 27, 91, 48, 109]).map
      (fun r => (r.1.page.getD 0 0, r.1.attributes.getD 0 0, r.1.cur, r.1.cur_attr))
      = some (65, 62, 0, 0) ∧
    (page_append 1 (term_new 4 10 0 3)
      [27, 91, 51, 49, 59, 52, 48, 109, 65, 13, 27, 91, 48, 109, 27, 40, 48, 113]).map
      (fun r => (r.1.page.getD 0 0, r.1.attributes.getD 0 0, r.1.cur, r.1.cur_attr))
      = some (0xC4, 62, 1, 0) := by
  decide

/-- C10 (the code at the failing input): `CSI 1 m` does not leave `cur_attr`
unchanged.  Case 1 of the switch falls through to the foreground cases, so
the foreground bits are replaced and `37 - 1 = 36` is or-ed into `cur_attr`;
on a fresh session `cur_attr` goes from 0 to 36, foreground index 4 and
background index 4. -/
theorem sgr_bold_sets_colour_bits :
    (∀ (BYTES : Nat) (sh : my_sess) (rest : List Nat),
      page_append_step BYTES sh (27 :: 91 :: 49 :: 109 :: rest)
        = .next { sh with cur_attr := u8 (u8 (bic sh.cur_attr ka_fg) ||| 36) } rest) ∧
    (term_new 4 10 0 3).cur_attr = 0 ∧
    page_append 1 (term_new 4 10 0 3) [27, 91, 49, 109]
      = some ({ term_new 4 10 0 3 with cur_attr := 36 }, []) ∧
    (36 &&& ka_fg = 4 ∧ (36 &&& ka_bg) >>> ka_bg_shift = 4) := by
  have gen : ∀ (BYTES : Nat) (sh : my_sess) (rest : List Nat),
      page_append_step BYTES sh (27 :: 91 :: 49 :: 109 :: rest)
        = .next { sh with cur_attr := u8 (u8 (bic sh.cur_attr ka_fg) ||| 36) } rest := by
    intro BYTES sh rest
    have h := step_sgr_one BYTES sh 1 (le_refl 1) (by decide) rest
    have e : dec 1 = [49] := by simp [dec]
    rw [e, sgr_fg_arg sh 1 (Or.inl rfl)] at h
    exact h
  refine ⟨gen, by decide, ?_, by decide⟩
  rw [page_append_next 1 (rd_cons_ne _ (by decide)) (gen 1 _ []),
    page_append_nil 1 _ (show rd [] 0 = 0 from rfl)]
  rfl

/-! ## C6: clear and home -/

theorem step_ed2 (BYTES : Nat) (sh : my_sess) (rest : List Nat) :
    page_append_step BYTES sh (27 :: 91 :: 50 :: 74 :: rest) = .next (erase sh 0 sh.pagelen) rest := by
  have h := step_csi BYTES sh [50] 74 rest (by decide) (by decide) (by decide) (by decide)
  have e : sscanf3 ([50] ++ 74 :: rest) = (1, 2, 1, 1) := by
    simp [sscanf3, scan_int, List.takeWhile, List.dropWhile, isdigit, rd, wrap]
  rw [e] at h
  rw [show (27 :: 91 :: 50 :: 74 :: rest) = 27 :: 91 :: ([50] ++ 74 :: rest) from rfl, h]
  unfold csi_cmd
  simp only [Nat.reduceEqDiff, if_false, if_true, or_self]
  unfold csi_J
  simp

theorem csi_H_eq (sh : my_sess) (a1 a2 : Int) :
    csi_H sh a1 a2 =
      { sh with
        cur := B_cur sh
          (((if sh.originmode ≠ 0 then
              (if a1 > sh.rows then sh.rows else if a1 < 1 then 1 else a1) + sh.scroll_top
            else (if a1 > sh.rows then sh.rows else if a1 < 1 then 1 else a1)) - 1) * sh.cols
            + (if a2 > sh.cols then sh.cols else if a2 < 1 then 1 else a2) - 1)
        kflags := bic sh.kflags kf_wrapped } := by
  unfold csi_H
  dsimp only
  rw [B_eq_cur]
  rfl

theorem step_cup (BYTES : Nat) (sh : my_sess) (ps : List Nat) (rest : List Nat)
    (hps : ∀ x ∈ ps, isparm x = true) :
    page_append_step BYTES sh (27 :: 91 :: (ps ++ 72 :: rest)) =
      .next (csi_H sh (sscanf3 (ps ++ 72 :: rest)).2.1 (sscanf3 (ps ++ 72 :: rest)).2.2.1) rest := by
  rw [step_csi BYTES sh ps 72 rest hps (by decide) (by decide) (by decide)]
  unfold csi_cmd
  simp only [Nat.reduceEqDiff, if_false, if_true, or_self, or_true, true_or]

theorem erase_all_page (sh : my_sess) (hs : Shape sh) (i : Nat) (hi : (i : Int) < sh.pagelen) :
    (erase sh 0 sh.pagelen).page.getD i 0 = 32 := by
  have := hs.1
  show (fill sh.page 0 sh.pagelen 32).getD i 0 = 32
  rw [fill_getD, if_pos ⟨by omega, by omega, by omega⟩]

/-- C6 as amended: in every session with well-formed geometry whose page array
has `pagelen` cells, feeding `ESC [ 2 J ESC [ H` to `page_append` leaves every
cell of the page equal to space; the cursor is at offset 0 when origin mode is
off and at the first cell of the scroll region, offset `scroll_top * cols`,
when it is on.  The same holds when the seven bytes arrive through
`term_screen` while no byte is pending in the screen buffer. -/
theorem clear_and_home (BYTES : Nat) (sh : my_sess) (rest : List Nat) (hg : Geo sh)
    (hs : Shape sh) (hrest : rd rest 0 = 0) :
    (∃ sh1, page_append BYTES sh (27 :: 91 :: 50 :: 74 :: 27 :: 91 :: 72 :: rest) = some (sh1, rest) ∧
      (∀ i : Nat, (i : Int) < sh1.pagelen → sh1.page.getD i 0 = 32) ∧
      (sh1.page.length : Int) = sh1.pagelen ∧
      sh1.cur = if sh.originmode ≠ 0 then sh.scroll_top * sh.cols else 0) ∧
    (strlen sh.sbuf = 0 →
      ∃ sh1, term_screen BYTES sh [27, 91, 50, 74, 27, 91, 72] = some (0, sh1) ∧
        (∀ i : Nat, (i : Int) < sh1.pagelen → sh1.page.getD i 0 = 32) ∧
        (sh1.page.length : Int) = sh1.pagelen ∧
        sh1.cur = if sh.originmode ≠ 0 then sh.scroll_top * sh.cols else 0) := by
  have main : ∀ (sh : my_sess) (rest : List Nat), Geo sh → Shape sh → rd rest 0 = 0 →
      ∃ sh1, page_append BYTES sh (27 :: 91 :: 50 :: 74 :: 27 :: 91 :: 72 :: rest) = some (sh1, rest) ∧
        (∀ i : Nat, (i : Int) < sh1.pagelen → sh1.page.getD i 0 = 32) ∧
        (sh1.page.length : Int) = sh1.pagelen ∧
        sh1.cur = if sh.originmode ≠ 0 then sh.scroll_top * sh.cols else 0 := by
    intro sh rest hg hs hrest
    have hf := geo_facts hg
    obtain ⟨g1, g2, g3, g4, g5, g6, g7⟩ := hg
    have e2 := step_cup BYTES (erase sh 0 sh.pagelen) [] rest (by simp)
    rw [show sscanf3 ([] ++ 72 :: rest) = (0, 1, 1, 1) from sscanf3_none rest (by decide)] at e2
    have hA := (page_append_next BYTES (rd_cons_ne _ (by decide)) (step_ed2 BYTES sh _)).trans
      ((page_append_next BYTES (rd_cons_ne _ (by decide)) e2).trans (page_append_nil BYTES _ hrest))
    refine ⟨_, hA, fun i hi => ?_, ?_, ?_⟩
    · rw [csi_H_eq]
      exact erase_all_page sh hs i (by rw [csi_H_eq] at hi; exact hi)
    · rw [csi_H_eq]
      show ((fill sh.page 0 sh.pagelen 32).length : Int) = sh.pagelen
      rw [fill_length]
      exact hs.1
    · rw [csi_H_eq]
      show B_cur (erase sh 0 sh.pagelen) _ = _
      unfold B_cur
      show (if sh.originmode ≠ 0 then _ else _) = _
      dsimp only [erase]
      have e3 : (1 + sh.scroll_top - 1) * sh.cols = sh.scroll_top * sh.cols := by ring
      split_ifs <;> omega
  refine ⟨main sh rest hg hs hrest, fun h0 => ?_⟩
  obtain ⟨sh1, e, c1, c2, c3⟩ := main
    { sh with sbuf := [27, 91, 50, 74, 27, 91, 72] ++ 0 :: sh.sbuf.drop 8, modified := 1 }
    (0 :: sh.sbuf.drop 8) hg hs rfl
  refine ⟨{ sh1 with sbuf := strcpy sh1.sbuf (0 :: sh.sbuf.drop 8) }, ?_, c1, c2, c3⟩
  unfold term_screen
  simp only [h0]
  have e1 : List.take (SMAX - 1 - 0) [27, 91, 50, 74, 27, 91, 72] = [27, 91, 50, 74, 27, 91, 72] := by
    decide
  rw [e1]
  simp only [List.length_cons, List.length_nil, List.take_zero, List.nil_append]
  rw [if_neg (by decide)]
  simp only [zero_add, Nat.reduceAdd, List.cons_append, List.nil_append] at e ⊢
  rw [e]

theorem clear_and_home_witness :
    (Geo (term_new 4 10 0 3) ∧ Shape (term_new 4 10 0 3) ∧ strlen (term_new 4 10 0 3).sbuf = 0) ∧
    (∃ sh1, page_append 1 (term_new 4 10 0 3) (27 :: 91 :: 50 :: 74 :: 27 :: 91 :: 72 :: [])
        = some (sh1, []) ∧
      (∀ i : Nat, (i : Int) < sh1.pagelen → sh1.page.getD i 0 = 32) ∧
      (sh1.page.length : Int) = sh1.pagelen ∧
      sh1.cur = if (term_new 4 10 0 3).originmode ≠ 0
        then (term_new 4 10 0 3).scroll_top * (term_new 4 10 0 3).cols else 0) ∧
    (∃ sh1, term_screen 1 (term_new 4 10 0 3) [27, 91, 50, 74, 27, 91, 72] = some (0, sh1) ∧
      (∀ i : Nat, (i : Int) < sh1.pagelen → sh1.page.getD i 0 = 32) ∧
      (sh1.page.length : Int) = sh1.pagelen ∧
      sh1.cur = if (term_new 4 10 0 3).originmode ≠ 0
        then (term_new 4 10 0 3).scroll_top * (term_new 4 10 0 3).cols else 0) :=
  ⟨⟨(term_new_wf 4 10 0 3).1, term_new_shape 4 10 0 3, by decide⟩,
    (clear_and_home 1 (term_new 4 10 0 3) [] (term_new_wf 4 10 0 3).1 (term_new_shape 4 10 0 3)
      rfl).1,
    (clear_and_home 1 (term_new 4 10 0 3) [] (term_new_wf 4 10 0 3).1 (term_new_shape 4 10 0 3)
      rfl).2 (by decide)⟩

set_option maxRecDepth 100000 in
/-- C6 as stated fails: on a fresh 4x10 session, after `ESC [ 2 ; 4 r` (scroll
region rows 1..3) and `ESC [ ? 6 h` (origin mode), feeding `ESC [ 2 J ESC [ H`
leaves the cursor at offset 10, the first cell of the scroll region, not at
offset 0.  And when a lone ESC is pending in the screen buffer of a fresh
session, `term_screen` parses `ESC ESC [ 2 J ESC [ H`: the two escapes are
dropped and `[2J` is printed, so the first three cells hold `[`, `2` and `J`. -/
theorem clear_and_home_counterexample :
    ((page_append 1 (term_new 4 10 0 3) [27, 91, 50, 59, 52, 114, 27, 91, 63, 54, 104]).bind
      fun r => page_append 1 r.1 [27, 91, 50, 74, 27, 91, 72]).map (fun r => r.1.cur)
      = some 10 ∧
    (feed 1 (term_new 4 10 0 3) [[27]]).map (fun r => (strlen r.sbuf, r.sbuf.take 1, r.cur))
      = some (1, [27], 0) ∧
    (feed 1 (term_new 4 10 0 3) [[27], [27, 91, 50, 74, 27, 91, 72]]).map
      (fun r => (r.page.take 4, r.cur)) = some ([91, 50, 74, 32], 0) := by
  decide

/-! ## C8: absolute positioning -/

theorem csi_H_cur (sh : my_sess) (hg : Geo sh) (ho : sh.originmode = 0) (r c : Nat) (hr1 : 1 ≤ r)
    (hr2 : (r : Int) ≤ sh.rows) (hc1 : 1 ≤ c) (hc2 : (c : Int) ≤ sh.cols) :
    (csi_H sh r c).cur = ((r : Int) - 1) * sh.cols + c - 1 := by
  have hf := geo_facts hg
  obtain ⟨g1, g2, g3, g4, g5, g6, g7⟩ := hg
  have h1 : ((r : Int) - 1) * sh.cols ≤ (sh.rows - 1) * sh.cols :=
    Int.mul_le_mul_of_nonneg_right (by omega) (by omega)
  have h2 : (sh.rows - 1) * sh.cols = sh.rows * sh.cols - sh.cols := by ring
  have h3 : 0 ≤ ((r : Int) - 1) * sh.cols := Int.mul_nonneg (by omega) (by omega)
  rw [csi_H_eq]
  dsimp only
  rw [if_neg (by simp [ho]), if_neg (by omega), if_neg (by omega), if_neg (by omega),
    if_neg (by omega)]
  exact B_cur_id _ (by omega) (by omega) ho

/-- C8 as amended: with origin mode off, for every `1 ≤ r ≤ scroll_bottom` (a
row not below the scroll region) and `1 ≤ c < cols`, feeding
`ESC [ 2 J ESC [ r ; c H X` yields a page that is blank except for `X` at
`(r-1, c-1)`, with the cursor at `(r-1, c)`. -/
theorem cup_absolute (BYTES : Nat) (sh : my_sess) (r c : Nat) (rest : List Nat) (hwf : WF sh)
    (hs : Shape sh) (ho : sh.originmode = 0) (hr1 : 1 ≤ r) (hr2 : (r : Int) ≤ sh.scroll_bottom)
    (hc1 : 1 ≤ c) (hc2 : (c : Int) < sh.cols) (hrest : rd rest 0 = 0) :
    ∃ sh1, page_append BYTES sh
        (27 :: 91 :: 50 :: 74 :: 27 :: 91 :: (dec r ++ 59 :: (dec c ++ 72 :: 88 :: rest)))
        = some (sh1, rest) ∧
      (∀ i : Nat, (i : Int) < sh1.pagelen →
        sh1.page.getD i 0 = if (i : Int) = ((r : Int) - 1) * sh.cols + ((c : Int) - 1) then 88 else 32) ∧
      sh1.cur = ((r : Int) - 1) * sh.cols + c := by
  obtain ⟨hg, h0, h1⟩ := hwf
  have hf := geo_facts hg
  have hi := geo_int hg
  obtain ⟨g1, g2, g3, g4, g5, g6, g7⟩ := hg
  have hps : ∀ x ∈ dec r ++ 59 :: dec c, isparm x = true := by
    intro x hx
    rw [List.mem_append, List.mem_cons] at hx
    rcases hx with hx | hx | hx
    · exact isdigit_isparm (dec_digits r x hx)
    · subst hx; decide
    · exact isdigit_isparm (dec_digits c x hx)
  have hl : (dec r ++ 59 :: dec c) ++ 72 :: 88 :: rest = dec r ++ 59 :: (dec c ++ 72 :: 88 :: rest) := by
    simp
  have e2 := step_cup BYTES (erase sh 0 sh.pagelen) (dec r ++ 59 :: dec c) (88 :: rest) hps
  rw [hl, sscanf3_two r c hr1 hc1 (by omega) (by omega) (88 :: rest) (by decide)] at e2
  -- the cursor set by CUP
  have hrc : ((r : Int) - 1) * sh.cols < sh.scroll_bottom * sh.cols - sh.cols + 1 := by
    have : ((r : Int) - 1) * sh.cols ≤ (sh.scroll_bottom - 1) * sh.cols :=
      Int.mul_le_mul_of_nonneg_right (by omega) (by omega)
    have e : (sh.scroll_bottom - 1) * sh.cols = sh.scroll_bottom * sh.cols - sh.cols := by ring
    omega
  have hrc0 : 0 ≤ ((r : Int) - 1) * sh.cols := Int.mul_nonneg (by omega) (by omega)
  have hcur : (csi_H (erase sh 0 sh.pagelen) r c).cur = ((r : Int) - 1) * sh.cols + c - 1 :=
    csi_H_cur (erase sh 0 sh.pagelen) (sameCtl_wf (erase_ctl sh 0 sh.pagelen) ⟨⟨g1, g2, g3, g4, g5, g6, g7⟩, h0, h1⟩).1
      ho r c hr1 (by show (r : Int) ≤ sh.rows; omega) hc1 (by show (c : Int) ≤ sh.cols; omega)
  have e3 := step_printable BYTES (csi_H (erase sh 0 sh.pagelen) r c) (c := 88) rest (by omega)
    (by rw [hcur, csi_H_eq]; show _ < sh.scroll_bottom * sh.cols; omega)
  have hA := (page_append_next BYTES (rd_cons_ne _ (by decide)) (step_ed2 BYTES sh _)).trans
    ((page_append_next BYTES (rd_cons_ne _ (by decide)) e2).trans
      ((page_append_next BYTES (rd_cons_ne _ (by decide)) e3).trans
        (page_append_nil BYTES _ hrest)))
  have hpl : (csi_H (erase sh 0 sh.pagelen) r c).pagelen = sh.pagelen := by rw [csi_H_eq]; rfl
  have hpg : (csi_H (erase sh 0 sh.pagelen) r c).page = fill sh.page 0 sh.pagelen 32 := by
    rw [csi_H_eq]; rfl
  refine ⟨_, hA, fun i hi => ?_, ?_⟩
  · have hi2 : (i : Int) < sh.pagelen := by
      rw [(put_ctl BYTES _ _ _).2.2.1, hpl] at hi
      exact hi
    have hlen := hs.1
    rw [put_page, store_getD, hpg, fill_length, hcur, glyph_low BYTES _ (by decide : 88 < 96),
      fill_getD]
    split_ifs <;> first | rfl | omega
  · rw [put_cur BYTES _ _ _ (by rw [hcur, hpl]; omega), hcur]
    ring

theorem cup_absolute_witness :
    ∃ sh1, page_append 1 (term_new 25 80 0 3)
        (27 :: 91 :: 50 :: 74 :: 27 :: 91 :: (dec 5 ++ 59 :: (dec 10 ++ 72 :: 88 :: [])))
        = some (sh1, []) ∧
      (∀ i : Nat, (i : Int) < sh1.pagelen →
        sh1.page.getD i 0 =
          if (i : Int) = (((5 : Nat) : Int) - 1) * (term_new 25 80 0 3).cols + (((10 : Nat) : Int) - 1)
          then 88 else 32) ∧
      sh1.cur = (((5 : Nat) : Int) - 1) * (term_new 25 80 0 3).cols + ((10 : Nat) : Int) :=
  cup_absolute 1 (term_new 25 80 0 3) 5 10 [] (term_new_wf 25 80 0 3) (term_new_shape 25 80 0 3)
    (by decide) (by decide) (by decide) (by decide) (by decide) rfl

set_option maxRecDepth 100000 in
/-- C8 as stated fails: on a fresh 4x10 session, after `ESC [ 1 ; 2 r` (scroll
region rows 0..1, origin mode off), feeding `ESC [ 2 J ESC [ 4 ; 5 H X` does
not put `X` at row 3, column 4 (offset 34) with the cursor at offset 35: the
store first brings the cursor back into the scroll region, so `X` lands at
offset 14 and the cursor at offset 15. -/
theorem cup_below_region_counterexample :
    ((page_append 1 (term_new 4 10 0 3) [27, 91, 49, 59, 50, 114]).bind
      fun r => page_append 1 r.1 [27, 91, 50, 74, 27, 91, 52, 59, 53, 72, 88]).map
      (fun r => (r.1.originmode, r.1.cur, r.1.page.getD 34 0, r.1.page.getD 14 0))
      = some (0, 15, 32, 88) := by
  decide

/-! ## C4: the store of a printable character -/

/-- The store of a character that is not subject to the graphics translation,
with the cursor on the page at column `col`: the character goes to the cursor
cell and `cur_attr` to the matching attribute cell, no other cell changes; the
cursor advances by exactly one in every case, to column 0 of the next row when
`col = cols - 1`; `kf_wrapped` is set when `col = cols - 1` and clear
otherwise.  A printable ASCII byte met by `page_append` with the cursor above
the bottom of the scroll region is written in this way. -/
theorem put_contract (BYTES : Nat) (sh : my_sess) (c n : Nat) (rest : List Nat) (hs : Shape sh)
    (hn : sh.cur = n) (hlt : sh.cur < sh.pagelen)
    (hplain : ¬ (c ≥ 0x60 ∧ c < 0x7f ∧ sh.kflags &&& kf_dographic ≠ 0 ∧
      sh.kflags &&& kf_graphics ≠ 0)) :
    (∀ i : Nat, (put BYTES sh c (Int.tmod sh.cur sh.cols)).page.getD i 0 =
      if i = n then c else sh.page.getD i 0) ∧
    (∀ i : Nat, (put BYTES sh c (Int.tmod sh.cur sh.cols)).attributes.getD i 0 =
      if i = n then sh.cur_attr else sh.attributes.getD i 0) ∧
    (put BYTES sh c (Int.tmod sh.cur sh.cols)).cur = sh.cur + 1 ∧
    (Int.tmod sh.cur sh.cols = sh.cols - 1 →
      (put BYTES sh c (Int.tmod sh.cur sh.cols)).kflags &&& kf_wrapped = kf_wrapped) ∧
    (Int.tmod sh.cur sh.cols ≠ sh.cols - 1 →
      (put BYTES sh c (Int.tmod sh.cur sh.cols)).kflags &&& kf_wrapped = 0) ∧
    (32 ≤ c ∧ c ≤ 126 → sh.cur < sh.scroll_bottom * sh.cols →
      page_append_step BYTES sh (c :: rest) =
        .next (put BYTES sh c (Int.tmod sh.cur sh.cols)) rest) := by
  have hl1 := hs.1
  have hl2 := hs.2
  have hg : glyph BYTES sh.kflags c = c := by
    unfold glyph
    rw [if_neg hplain]
  refine ⟨fun i => ?_, fun i => ?_, put_cur BYTES sh c _ hlt, fun hc => ?_, fun hc => ?_,
    fun hc hsb => step_printable BYTES sh rest hc hsb⟩
  · rw [put_page, store_getD, hg]
    split_ifs <;> first | rfl | omega
  · rw [put_attr_plain BYTES sh c _ hplain, store_getD]
    split_ifs <;> first | rfl | omega
  · rw [put_eq]
    dsimp only
    rw [if_pos hc, if_neg hplain, or_self_and]
  · rw [put_eq]
    dsimp only
    rw [if_neg hc, if_neg hplain, bic_self _ _ (by decide)]

set_option maxRecDepth 100000 in
/-- C4 (the code at the failing input): on a fresh 4x10 session the tenth
character of `0123456789` is written at column 9, the last column; afterwards
`kf_wrapped` is set but the cursor is at offset 10, column 0 of the next row,
not at the cell just written (offset 9): the `cur++` after the store is
unconditional.  On the translated path, `ESC [ 3 1 m ESC ( 0 q` stores the
glyph 0xC4 in cell 0 but leaves its attribute cell at 0 although `cur_attr`
is 6. -/
theorem put_advances_at_last_column :
    (page_append 1 (term_new 4 10 0 3) [48, 49, 50, 51, 52, 53, 54, 55, 56, 57]).map
      (fun r => (r.1.page.getD 9 0, r.1.cur, r.1.kflags &&& kf_wrapped))
      = some (57, 10, kf_wrapped) ∧
    (page_append 1 (term_new 4 10 0 3) [27, 91, 51, 49, 109, 27, 40, 48, 113]).map
      (fun r => (r.1.page.getD 0 0, r.1.cur_attr, r.1.attributes.getD 0 0))
      = some (0xC4, 6, 0) := by
  decide

/-! ## C5: line feeds and scrolling -/

theorem page_scroll_nscroll (sh : my_sess) : (page_scroll sh).nscroll = sh.nscroll + 1 := by
  unfold page_scroll erase
  dsimp only
  split_ifs
  · show (sb_push sh).nscroll + 1 = _
    unfold sb_push
    dsimp only
    split_ifs <;> rfl
  · rfl

theorem scroll_loop_once (f : Nat) (sh : my_sess) (h1 : sh.scroll_bottom * sh.cols ≤ sh.cur)
    (h2 : (B { sh with cur := sh.cur - sh.cols }).cur < sh.scroll_bottom * sh.cols) :
    scroll_loop (f + 2) sh = some (page_scroll (B { sh with cur := sh.cur - sh.cols })) := by
  obtain ⟨c1, c2, c3, c4, c5, c6, -⟩ := page_scroll_ctl (B { sh with cur := sh.cur - sh.cols })
  have hb : (B { sh with cur := sh.cur - sh.cols }).scroll_bottom = sh.scroll_bottom ∧
      (B { sh with cur := sh.cur - sh.cols }).cols = sh.cols := by
    rw [B_eq_cur]
    exact ⟨rfl, rfl⟩
  unfold scroll_loop
  rw [if_pos h1]
  unfold scroll_loop
  rw [if_neg (by rw [c6, c5, c1, hb.1, hb.2]; omega)]

theorem step_lf_plain (BYTES : Nat) (sh : my_sess) (rest : List Nat) (hg : Geo sh)
    (ho : sh.originmode = 0) (hk : sh.kflags &&& kf_wrapped = 0)
    (h1 : sh.cur < sh.scroll_bottom * sh.cols) :
    page_append_step BYTES sh (10 :: rest) =
      .next (if sh.cur + sh.cols < sh.scroll_bottom * sh.cols then { sh with cur := sh.cur + sh.cols }
        else page_scroll sh) rest := by
  have hf := geo_facts hg
  have hn : newline sh = { sh with cur := sh.cur + sh.cols } := by
    rw [newline_eq]
    simp [hk]
  rw [step_lf, hn]
  split_ifs with e
  · rw [scroll_loop_skip (by exact e)]
  · have hb : B { sh with cur := sh.cur + sh.cols - sh.cols } = sh := by
      rw [B_eq_cur]
      show { sh with cur := B_cur sh (sh.cur + sh.cols - sh.cols) } = sh
      rw [B_cur_id sh (by omega) (by omega) ho]
      have : sh.cur + sh.cols - sh.cols = sh.cur := by ring
      rw [this]
    have h := scroll_loop_once (sh.cur + sh.cols - sh.scroll_bottom * sh.cols).toNat
      { sh with cur := sh.cur + sh.cols }
      (by show sh.scroll_bottom * sh.cols ≤ sh.cur + sh.cols; omega)
      (by
        show (B { sh with cur := sh.cur + sh.cols - sh.cols }).cur < sh.scroll_bottom * sh.cols
        rw [hb]
        exact h1)
    have hfuel : scroll_fuel { sh with cur := sh.cur + sh.cols }
        = (sh.cur + sh.cols - sh.scroll_bottom * sh.cols).toNat + 2 := rfl
    rw [hfuel, h]
    show Step.next (page_scroll (B { sh with cur := sh.cur + sh.cols - sh.cols })) rest = _
    rw [hb]

theorem lf_run (BYTES : Nat) (j : Nat) (sh : my_sess) (rest : List Nat) (m R : Nat) (hg : Geo sh)
    (ho : sh.originmode = 0) (hk : sh.kflags &&& kf_wrapped = 0)
    (hsb : sh.scroll_bottom = R) (hcur : sh.cur = m * sh.cols) (hm : m + 1 ≤ R)
    (hrest : rd rest 0 = 0) :
    ∃ sh1, page_append BYTES sh (List.replicate j 10 ++ rest) = some (sh1, rest) ∧
      sh1.cur = (min (m + j) (R - 1) : Nat) * sh.cols ∧
      sh1.nscroll = sh.nscroll + (m + j - (R - 1)) := by
  induction j generalizing sh m with
  | zero =>
    refine ⟨sh, page_append_nil BYTES sh hrest, ?_, by omega⟩
    rw [hcur, show min (m + 0) (R - 1) = m by omega]
  | succ j ih =>
    have hf := geo_facts hg
    have hmul : (m : Int) * sh.cols + sh.cols ≤ (R : Int) * sh.cols := by
      have : ((m : Int) + 1) * sh.cols ≤ (R : Int) * sh.cols :=
        Int.mul_le_mul_of_nonneg_right (by omega) (by omega)
      have e : ((m : Int) + 1) * sh.cols = (m : Int) * sh.cols + sh.cols := by ring
      omega
    have hst := step_lf_plain BYTES sh (List.replicate j 10 ++ rest) hg ho hk
      (by rw [hcur, hsb]; omega)
    have hA := page_append_next BYTES (rd_cons_ne _ (by decide)) hst
    rw [List.replicate_succ, List.cons_append, hA]
    by_cases e : m + 2 ≤ R
    · have hlt : sh.cur + sh.cols < sh.scroll_bottom * sh.cols := by
        have : ((m : Int) + 2) * sh.cols ≤ (R : Int) * sh.cols :=
          Int.mul_le_mul_of_nonneg_right (by omega) (by omega)
        have e2 : ((m : Int) + 2) * sh.cols = (m : Int) * sh.cols + sh.cols + sh.cols := by ring
        rw [hcur, hsb]
        omega
      rw [if_pos hlt]
      obtain ⟨sh1, a1, a2, a3⟩ := ih { sh with cur := sh.cur + sh.cols } (m + 1) hg ho hk hsb
        (by show sh.cur + sh.cols = ((m + 1 : Nat) : Int) * sh.cols; rw [hcur]; push_cast; ring)
        (by omega)
      refine ⟨sh1, a1, ?_, ?_⟩
      · rw [a2]
        show _ * sh.cols = _
        rw [show m + 1 + j = m + (j + 1) by omega]
      · rw [a3]
        show sh.nscroll + _ = _
        rw [show m + 1 + j = m + (j + 1) by omega]
    · have hR : R = m + 1 := by omega
      have hge : ¬ (sh.cur + sh.cols < sh.scroll_bottom * sh.cols) := by
        rw [hcur, hsb, hR]
        push_cast
        have e2 : ((m : Int) + 1) * sh.cols = (m : Int) * sh.cols + sh.cols := by ring
        omega
      rw [if_neg hge]
      obtain ⟨c1, c2, c3, c4, c5, c6, c7, c8, -⟩ := page_scroll_ctl sh
      obtain ⟨sh1, a1, a2, a3⟩ := ih (page_scroll sh) m
        (by unfold Geo; rw [c1, c2, c3, c4, c5]; exact hg) (by rw [c7, ho]) (by rw [c8, hk])
        (by rw [c5, hsb]) (by rw [c6, c1, hcur]) hm
      refine ⟨sh1, a1, ?_, ?_⟩
      · rw [a2, c1]
        congr 2
        omega
      · rw [a3, page_scroll_nscroll]
        omega

/-- C5 as amended: on a fresh session with scrollback disabled and the default
scroll region, after `rows + k` line feeds the cursor is on row `rows - 1`,
column 0, and the page has been scrolled up exactly `k + 1` times: the first
`rows - 1` line feeds move the cursor down to the last row and every later one
scrolls. -/
theorem lf_scroll (BYTES : Nat) (rows cols fd : Int) (R k : Nat) (rest : List Nat)
    (hR : (term_new rows cols 0 fd).rows = R) (hrest : rd rest 0 = 0) :
    ∃ sh1, page_append BYTES (term_new rows cols 0 fd) (List.replicate (R + k) 10 ++ rest)
        = some (sh1, rest) ∧
      sh1.cur = ((R : Int) - 1) * (term_new rows cols 0 fd).cols + 0 ∧
      sh1.nscroll = k + 1 := by
  obtain ⟨f1, f2, f3, f4, f5, f6, f7, f8, f9, f10, f11, f12, f13⟩ := term_new_fields rows cols 0 fd
  have hwf := term_new_wf rows cols 0 fd
  obtain ⟨sh1, a1, a2, a3⟩ := lf_run BYTES (R + k) (term_new rows cols 0 fd) rest 0 R hwf.1 f3
    (by rw [f1]; rfl) (by rw [f5, hR]) (by rw [f2]; simp) (by omega) hrest
  refine ⟨sh1, a1, ?_, ?_⟩
  · rw [a2, show min (0 + (R + k)) (R - 1) = R - 1 by omega, Nat.cast_sub (by omega)]
    simp
  · rw [a3, f9]
    omega

theorem lf_scroll_witness :
    ∃ sh1, page_append 1 (term_new 4 10 0 3) (List.replicate (4 + 2) 10 ++ []) = some (sh1, []) ∧
      sh1.cur = (((4 : Nat) : Int) - 1) * (term_new 4 10 0 3).cols + 0 ∧ sh1.nscroll = 2 + 1 :=
  lf_scroll 1 4 10 3 4 2 [] (by decide) rfl

set_option maxRecDepth 100000 in
/-- C5 as stated fails: on a fresh 4x10 session with scrollback disabled,
`rows + 0 = 4` line feeds leave the cursor on row 3 but have already scrolled
the page once, not `k = 0` times; with `A` written on row 0 beforehand, the
four line feeds discard that row. -/
theorem lf_scroll_counterexample :
    (page_append 1 (term_new 4 10 0 3) [10, 10, 10, 10]).map (fun r => (r.1.cur, r.1.nscroll))
      = some (30, 1) ∧
    (page_append 1 (term_new 4 10 0 3) [65, 13]).map (fun r => (r.1.cur, r.1.page.getD 0 0))
      = some (0, 65) ∧
    (page_append 1 (term_new 4 10 0 3) [65, 13, 10, 10, 10, 10]).map
      (fun r => (r.1.cur, r.1.page.getD 0 0, r.1.nscroll)) = some (30, 32, 1) := by
  decide

/-! ## C1: feeding a sequence in chunks -/

set_option maxRecDepth 100000 in
/-- C1 (the code at the failing input): on a fresh 4x10 session in 8-bit
mode, `ESC # 8` fed in one piece fills the page with `E` and leaves the cursor
at 0; fed as the chunks `ESC #` and `8`, the first chunk is consumed whole
(the scanner steps over the terminating NUL of the buffer and nothing is
retained), and the second chunk is printed as the character `8`: the page
stays blank except for `8` in the first cell and the cursor ends at 1. -/
theorem chunked_esc_hash_differs :
    (feed 1 (term_new 4 10 0 3) [[27, 35, 56]]).map (fun sh => (sh.page, sh.cur, strlen sh.sbuf))
      = some (List.replicate 40 69, 0, 0) ∧
    (feed 1 (term_new 4 10 0 3) [[27, 35]]).map (fun sh => (sh.page, sh.cur, strlen sh.sbuf))
      = some (List.replicate 40 32, 0, 0) ∧
    (feed 1 (term_new 4 10 0 3) [[27, 35], [56]]).map (fun sh => (sh.page, sh.cur, strlen sh.sbuf))
      = some (56 :: List.replicate 39 32, 1, 0) := by
  decide

/-! ## C11: scrolling inside the region -/

theorem page_scroll_page (sh : my_sess) :
    (page_scroll sh).page =
      fill (move sh.page sh.page (sh.scroll_top * sh.cols) (sh.scroll_top * sh.cols + sh.cols)
        ((sh.scroll_bottom - sh.scroll_top - 1) * sh.cols)) ((sh.scroll_bottom - 1) * sh.cols) sh.cols 0x20 ∧
    (page_scroll sh).attributes =
      fill (move sh.attributes sh.attributes (sh.scroll_top * sh.cols)
        (sh.scroll_top * sh.cols + sh.cols) ((sh.scroll_bottom - sh.scroll_top - 1) * sh.cols))
        ((sh.scroll_bottom - 1) * sh.cols) sh.cols sh.cur_attr := by
  unfold page_scroll erase
  dsimp only
  split_ifs
  · unfold sb_push
    dsimp only
    split_ifs <;> exact ⟨rfl, rfl⟩
  · exact ⟨rfl, rfl⟩

/-- The cells of an array after the move and the erasure of `page_scroll`. -/
theorem scrolled_getD (m : List Nat) (P C Lr E : Int) (v : Nat) (i : Nat) (hi : i < m.length)
    (hC : 0 < C) (hE : E = P + Lr) (hL : 0 ≤ Lr) :
    (fill (move m m P (P + C) Lr) E C v).getD i 0 =
      if (i : Int) < P then m.getD i 0
      else if (i : Int) < E then m.getD (i + C.toNat) 0
      else if (i : Int) < E + C then v
      else m.getD i 0 := by
  rw [fill_getD, move_length, move_getD]
  by_cases h1 : (i : Int) < P
  · rw [if_neg (by omega), if_neg (by omega), if_pos h1]
  · by_cases h2 : (i : Int) < E
    · rw [if_neg (by omega), if_pos ⟨hi, by omega, by omega⟩, if_neg h1, if_pos h2]
      congr 1
      omega
    · by_cases h3 : (i : Int) < E + C
      · rw [if_pos ⟨hi, by omega, h3⟩, if_neg h1, if_neg h2, if_pos h3]
      · rw [if_neg (by omega), if_neg (by omega), if_neg h1, if_neg h2, if_neg h3]

theorem page_scroll_cell (sh : my_sess) (hg : Geo sh) (hs : Shape sh) (r c : Int)
    (hr : 0 ≤ r ∧ r < sh.rows) (hc : 0 ≤ c ∧ c < sh.cols) :
    cell (page_scroll sh) r c =
      (if r < sh.scroll_top then cell sh r c else if r < sh.scroll_bottom - 1 then cell sh (r + 1) c
       else if r < sh.scroll_bottom then 0x20 else cell sh r c) ∧
    acell (page_scroll sh) r c =
      (if r < sh.scroll_top then acell sh r c else if r < sh.scroll_bottom - 1 then acell sh (r + 1) c
       else if r < sh.scroll_bottom then sh.cur_attr else acell sh r c) := by
  obtain ⟨g1, g2, g3, g4, g5, g6, g7⟩ := hg
  obtain ⟨s1, s2⟩ := hs
  obtain ⟨c1, c2, -⟩ := page_scroll_ctl sh
  have hrc : 0 ≤ r * sh.cols := Int.mul_nonneg hr.1 (by omega)
  have hrows : (r + 1) * sh.cols ≤ sh.rows * sh.cols :=
    Int.mul_le_mul_of_nonneg_right (by omega) (by omega)
  have e1 : (r + 1) * sh.cols = r * sh.cols + sh.cols := by ring
  have hP : 0 ≤ sh.scroll_top * sh.cols := Int.mul_nonneg g4 (by omega)
  have hL : 0 ≤ (sh.scroll_bottom - sh.scroll_top - 1) * sh.cols :=
    Int.mul_nonneg (by omega) (by omega)
  have hE : (sh.scroll_bottom - 1) * sh.cols =
      sh.scroll_top * sh.cols + (sh.scroll_bottom - sh.scroll_top - 1) * sh.cols := by ring
  have e2 : (sh.scroll_bottom - 1) * sh.cols + sh.cols = sh.scroll_bottom * sh.cols := by ring
  have hidx : ((r * sh.cols + c).toNat : Int) = r * sh.cols + c := Int.toNat_of_nonneg (by omega)
  have hadd : (r * sh.cols + c).toNat + sh.cols.toNat = ((r + 1) * sh.cols + c).toNat := by omega
  have m1 : r < sh.scroll_top → (r + 1) * sh.cols ≤ sh.scroll_top * sh.cols := fun h =>
    Int.mul_le_mul_of_nonneg_right (by omega) (by omega)
  have m2 : ¬ r < sh.scroll_top → sh.scroll_top * sh.cols ≤ r * sh.cols := fun h =>
    Int.mul_le_mul_of_nonneg_right (by omega) (by omega)
  have m3 : r < sh.scroll_bottom - 1 → (r + 1) * sh.cols ≤ (sh.scroll_bottom - 1) * sh.cols :=
    fun h => Int.mul_le_mul_of_nonneg_right (by omega) (by omega)
  have m4 : ¬ r < sh.scroll_bottom - 1 → (sh.scroll_bottom - 1) * sh.cols ≤ r * sh.cols := fun h =>
    Int.mul_le_mul_of_nonneg_right (by omega) (by omega)
  have m5 : r < sh.scroll_bottom → (r + 1) * sh.cols ≤ sh.scroll_bottom * sh.cols := fun h =>
    Int.mul_le_mul_of_nonneg_right (by omega) (by omega)
  have m6 : ¬ r < sh.scroll_bottom → sh.scroll_bottom * sh.cols ≤ r * sh.cols := fun h =>
    Int.mul_le_mul_of_nonneg_right (by omega) (by omega)
  unfold cell acell
  rw [c1, (page_scroll_page sh).1, (page_scroll_page sh).2,
    scrolled_getD _ _ _ _ _ _ _ (by omega) g1 hE hL,
    scrolled_getD _ _ _ _ _ _ _ (by omega) g1 hE hL, hidx, hadd]
  constructor
  · by_cases h1 : r < sh.scroll_top
    · rw [if_pos (by have := m1 h1; omega), if_pos h1]
    · rw [if_neg (by have := m2 h1; omega), if_neg h1]
      by_cases h2 : r < sh.scroll_bottom - 1
      · rw [if_pos (by have := m3 h2; omega), if_pos h2]
      · rw [if_neg (by have := m4 h2; omega), if_neg h2]
        by_cases h3 : r < sh.scroll_bottom
        · rw [if_pos (by have := m5 h3; omega), if_pos h3]
        · rw [if_neg (by have := m6 h3; omega), if_neg h3]
  · by_cases h1 : r < sh.scroll_top
    · rw [if_pos (by have := m1 h1; omega), if_pos h1]
    · rw [if_neg (by have := m2 h1; omega), if_neg h1]
      by_cases h2 : r < sh.scroll_bottom - 1
      · rw [if_pos (by have := m3 h2; omega), if_pos h2]
      · rw [if_neg (by have := m4 h2; omega), if_neg h2]
        by_cases h3 : r < sh.scroll_bottom
        · rw [if_pos (by have := m5 h3; omega), if_pos h3]
        · rw [if_neg (by have := m6 h3; omega), if_neg h3]

theorem B_fields (sh : my_sess) :
    (B sh).page = sh.page ∧ (B sh).attributes = sh.attributes ∧ (B sh).cols = sh.cols ∧
    (B sh).rows = sh.rows ∧ (B sh).pagelen = sh.pagelen ∧ (B sh).scroll_top = sh.scroll_top ∧
    (B sh).scroll_bottom = sh.scroll_bottom := by
  rw [B_eq_cur]
  exact ⟨rfl, rfl, rfl, rfl, rfl, rfl, rfl⟩

theorem scroll_loop_outside (fuel : Nat) (sh : my_sess) (hg : Geo sh) (hs : Shape sh) (r c : Int)
    (hr : 0 ≤ r ∧ r < sh.rows) (hc : 0 ≤ c ∧ c < sh.cols)
    (ho : r < sh.scroll_top ∨ sh.scroll_bottom ≤ r) :
    ∀ sh1, scroll_loop fuel sh = some sh1 →
      cell sh1 r c = cell sh r c ∧ acell sh1 r c = acell sh r c := by
  induction fuel generalizing sh with
  | zero => intro sh1 e; cases e
  | succ fuel ih =>
    intro sh1 e
    unfold scroll_loop at e
    split_ifs at e
    · obtain ⟨b1, b2, b3, b4, b5, b6, b7⟩ := B_fields { sh with cur := sh.cur - sh.cols }
      dsimp only at b1 b2 b3 b4 b5 b6 b7
      have hgb : Geo (B { sh with cur := sh.cur - sh.cols }) := by
        unfold Geo
        rw [b3, b4, b5, b6, b7]
        exact hg
      have hsb : Shape (B { sh with cur := sh.cur - sh.cols }) := by
        unfold Shape
        rw [b1, b2, b5]
        exact hs
      obtain ⟨c1, c2, c3, c4, c5, -⟩ := page_scroll_ctl (B { sh with cur := sh.cur - sh.cols })
      have hgp : Geo (page_scroll (B { sh with cur := sh.cur - sh.cols })) := by
        unfold Geo
        rw [c1, c2, c3, c4, c5]
        exact hgb
      have hsp := frame_shape (page_scroll_frame (B { sh with cur := sh.cur - sh.cols })) hsb
      obtain ⟨i1, i2⟩ := ih _ hgp hsp (by rw [c2, b4]; exact hr) (by rw [c1, b3]; exact hc)
        (by rw [c4, c5, b6, b7]; exact ho) sh1 e
      obtain ⟨p1, p2⟩ := page_scroll_cell _ hgb hsb r c (by rw [b4]; exact hr) (by rw [b3]; exact hc)
      have hcb : cell (B { sh with cur := sh.cur - sh.cols }) r c = cell sh r c := by
        unfold cell
        rw [b1, b3]
      have hab : acell (B { sh with cur := sh.cur - sh.cols }) r c = acell sh r c := by
        unfold acell
        rw [b2, b3]
      have g5 := hg.2.2.2.2.1
      rw [b6, b7] at p1 p2
      rw [i1, i2, p1, p2, hcb, hab]
      rcases ho with ho | ho
      · rw [if_pos ho, if_pos ho]
        exact ⟨rfl, rfl⟩
      · rw [if_neg (by omega), if_neg (by omega), if_neg (by omega), if_neg (by omega),
          if_neg (by omega), if_neg (by omega)]
        exact ⟨rfl, rfl⟩
    · cases e
      exact ⟨rfl, rfl⟩

/-- C11: `page_scroll` on a well-formed session moves every row of the scroll
region but the first up by one (row `r` of characters and of attributes
receives the old row `r + 1` for `scroll_top ≤ r < scroll_bottom - 1`), blanks
row `scroll_bottom - 1` (spaces, current attribute), and leaves every row
outside the region as it was; and a line feed, which scrolls by calls of
`page_scroll` only, has an outcome and leaves every row outside the region
as it was. -/
theorem page_scroll_region (sh : my_sess) (hg : Geo sh) (hs : Shape sh) (r c : Int)
    (hr : 0 ≤ r ∧ r < sh.rows) (hc : 0 ≤ c ∧ c < sh.cols) :
    (sh.scroll_top ≤ r ∧ r < sh.scroll_bottom - 1 →
      cell (page_scroll sh) r c = cell sh (r + 1) c ∧
      acell (page_scroll sh) r c = acell sh (r + 1) c) ∧
    (r = sh.scroll_bottom - 1 →
      cell (page_scroll sh) r c = 0x20 ∧ acell (page_scroll sh) r c = sh.cur_attr) ∧
    (r < sh.scroll_top ∨ sh.scroll_bottom ≤ r →
      cell (page_scroll sh) r c = cell sh r c ∧ acell (page_scroll sh) r c = acell sh r c) ∧
    (r < sh.scroll_top ∨ sh.scroll_bottom ≤ r → 0 ≤ sh.cur → ∀ (BYTES : Nat) (rest : List Nat),
      ∃ sh1, page_append_step BYTES sh (10 :: rest) = .next sh1 rest ∧
        cell sh1 r c = cell sh r c ∧ acell sh1 r c = acell sh r c) := by
  obtain ⟨p1, p2⟩ := page_scroll_cell sh hg hs r c hr hc
  have g5 := hg.2.2.2.2.1
  refine ⟨fun h => ?_, fun h => ?_, fun h => ?_, fun h h0 BYTES rest => ?_⟩
  · rw [p1, p2, if_neg (by omega), if_pos h.2, if_neg (by omega), if_pos h.2]
    exact ⟨rfl, rfl⟩
  · rw [p1, p2, if_neg (by omega), if_neg (by omega), if_pos (by omega), if_neg (by omega),
      if_neg (by omega), if_pos (by omega)]
    exact ⟨rfl, rfl⟩
  · rw [p1, p2]
    rcases h with h | h
    · rw [if_pos h, if_pos h]
      exact ⟨rfl, rfl⟩
    · rw [if_neg (by omega), if_neg (by omega), if_neg (by omega), if_neg (by omega),
        if_neg (by omega), if_neg (by omega)]
      exact ⟨rfl, rfl⟩
  · obtain ⟨n1, n2⟩ := newline_geo hg h0
    obtain ⟨sh1, e, -, -⟩ := scroll_fuel_wf n1 n2
    have hn : (newline sh).page = sh.page ∧ (newline sh).attributes = sh.attributes ∧
        (newline sh).cols = sh.cols ∧ (newline sh).rows = sh.rows ∧
        (newline sh).pagelen = sh.pagelen ∧ (newline sh).scroll_top = sh.scroll_top ∧
        (newline sh).scroll_bottom = sh.scroll_bottom := by
      rw [newline_eq]
      exact ⟨rfl, rfl, rfl, rfl, rfl, rfl, rfl⟩
    obtain ⟨m1, m2, m3, m4, m5, m6, m7⟩ := hn
    have hsn : Shape (newline sh) := by
      unfold Shape
      rw [m1, m2, m5]
      exact hs
    obtain ⟨o1, o2⟩ := scroll_loop_outside _ (newline sh) n1 hsn r c (by rw [m4]; exact hr)
      (by rw [m3]; exact hc) (by rw [m6, m7]; exact h) sh1 e
    refine ⟨sh1, ?_, ?_, ?_⟩
    · rw [step_lf, e]
    · rw [o1]
      unfold cell
      rw [m1, m3]
    · rw [o2]
      unfold acell
      rw [m2, m3]

set_option maxRecDepth 100000 in
theorem page_scroll_region_witness :
    (page_append 1 (term_new 4 10 0 3) [27, 91, 49, 59, 51, 114]).map (fun r => r.1)
      = some region_sess ∧
    Geo region_sess ∧ Shape region_sess ∧
    (cell (page_scroll region_sess) 3 0 = cell region_sess 3 0 ∧
      acell (page_scroll region_sess) 3 0 = acell region_sess 3 0) ∧
    cell (page_scroll region_sess) 2 0 = 0x20 :=
  have hg : Geo region_sess := by unfold Geo; decide
  have hs : Shape region_sess := by unfold Shape; decide
  ⟨by decide, hg, hs,
    (page_scroll_region region_sess hg hs 3 0 (by decide) (by decide)).2.2.1 (by decide),
    ((page_scroll_region region_sess hg hs 2 0 (by decide) (by decide)).2.1 (by decide)).1⟩

/-! ## C12: the scrollback -/

theorem sb_push_eq (sh : my_sess) :
    (sb_push sh).top = top_next sh ∧
    (sb_push sh).sb_page =
      move (if top_next sh > 1 then
          move sh.sb_page sh.sb_page ((sh.sb_lines - top_next sh) * sh.cols - sh.cols)
            ((sh.sb_lines - top_next sh) * sh.cols) (top_next sh * sh.cols)
        else sh.sb_page) sh.page ((sh.sb_lines - 1) * sh.cols) 0 sh.cols ∧
    (sb_push sh).sb_attributes =
      move (if top_next sh > 1 then
          move sh.sb_attributes sh.sb_attributes ((sh.sb_lines - top_next sh) * sh.cols - sh.cols)
            ((sh.sb_lines - top_next sh) * sh.cols) (top_next sh * sh.cols)
        else sh.sb_attributes) sh.attributes ((sh.sb_lines - 1) * sh.cols) 0 sh.cols := by
  unfold sb_push top_next
  dsimp only
  split_ifs <;> exact ⟨rfl, rfl, rfl⟩

theorem page_scroll_sb (sh : my_sess) (ht : sh.scroll_top = 0) (hs : sh.sb_lines ≠ 0) :
    (page_scroll sh).top = (sb_push sh).top ∧ (page_scroll sh).sb_page = (sb_push sh).sb_page ∧
    (page_scroll sh).sb_attributes = (sb_push sh).sb_attributes := by
  unfold page_scroll erase
  dsimp only
  rw [if_pos ⟨ht, hs⟩]
  exact ⟨rfl, rfl, rfl⟩

/-- The cells of a scrollback array after the move and the copy of `sb_push`. -/
theorem pushed_getD (m src : List Nat) (S T C r c : Int) (hm : (m.length : Int) = S * C)
    (hC : 0 < C) (hT : 0 ≤ T ∧ T ≤ S - 1) (hr : 0 ≤ r ∧ r < S) (hc : 0 ≤ c ∧ c < C) :
    (move (if T > 1 then move m m ((S - T) * C - C) ((S - T) * C) (T * C) else m) src
        ((S - 1) * C) 0 C).getD (r * C + c).toNat 0 =
      if r = S - 1 then src.getD c.toNat 0
      else if T > 1 ∧ S - T - 1 ≤ r then m.getD ((r + 1) * C + c).toNat 0
      else m.getD (r * C + c).toNat 0 := by
  have hrc : 0 ≤ r * C := Int.mul_nonneg hr.1 (by omega)
  have hidx : ((r * C + c).toNat : Int) = r * C + c := Int.toNat_of_nonneg (by omega)
  have e1 : (r + 1) * C = r * C + C := by ring
  have e2 : (S - 1) * C + C = S * C := by ring
  have hS : (r + 1) * C ≤ S * C := Int.mul_le_mul_of_nonneg_right (by omega) (by omega)
  have e3 : (S - T) * C - C + T * C = (S - 1) * C := by ring
  have e4 : (S - T) * C - C = (S - T - 1) * C := by ring
  have m1 : r = S - 1 → r * C = (S - 1) * C := fun h => by rw [h]
  have m2 : r ≠ S - 1 → (r + 1) * C ≤ (S - 1) * C := fun h =>
    Int.mul_le_mul_of_nonneg_right (by omega) (by omega)
  have m3 : S - T - 1 ≤ r → (S - T - 1) * C ≤ r * C := fun h =>
    Int.mul_le_mul_of_nonneg_right h (by omega)
  have m4 : ¬ S - T - 1 ≤ r → (r + 1) * C ≤ (S - T - 1) * C := fun h =>
    Int.mul_le_mul_of_nonneg_right (by omega) (by omega)
  have hlen : (if T > 1 then move m m ((S - T) * C - C) ((S - T) * C) (T * C) else m).length
      = m.length := by
    split_ifs
    · exact move_length _ _ _ _ _
    · rfl
  rw [move_getD, hlen, hidx]
  by_cases h1 : r = S - 1
  · rw [if_pos ⟨by omega, by have := m1 h1; omega, by have := m1 h1; omega⟩, if_pos h1]
    congr 1
    have := m1 h1
    omega
  · rw [if_neg (by have := m2 h1; omega), if_neg h1]
    by_cases h2 : T > 1
    · rw [if_pos h2, move_getD, hidx]
      by_cases h3 : S - T - 1 ≤ r
      · rw [if_pos ⟨by omega, by have := m3 h3; omega, by have := m2 h1; omega⟩, if_pos ⟨h2, h3⟩]
        congr 1
        omega
      · rw [if_neg (by have := m4 h3; omega), if_neg (by omega)]
    · rw [if_neg h2, if_neg (by omega)]

/-- One scroll-up with scrollback: the new `top` and the rows of the scrollback. -/
theorem page_scroll_push (sh : my_sess) (hC : 0 < sh.cols) (hS : 0 < sh.sb_lines)
    (ht : sh.scroll_top = 0) (hl1 : (sh.sb_page.length : Int) = sh.sb_lines * sh.cols)
    (hl2 : (sh.sb_attributes.length : Int) = sh.sb_lines * sh.cols)
    (hT : 0 ≤ sh.top ∧ sh.top ≤ sh.sb_lines - 1) :
    (page_scroll sh).top = min (sh.top + 1) (sh.sb_lines - 1) ∧
    ∀ c : Int, 0 ≤ c → c < sh.cols →
      (sb_cell (page_scroll sh) (sh.sb_lines - 1) c = cell sh 0 c ∧
        sb_acell (page_scroll sh) (sh.sb_lines - 1) c = acell sh 0 c) ∧
      ∀ r : Int, 1 < (page_scroll sh).top → sh.sb_lines - (page_scroll sh).top - 1 ≤ r →
        r < sh.sb_lines - 1 →
        sb_cell (page_scroll sh) r c = sb_cell sh (r + 1) c ∧
        sb_acell (page_scroll sh) r c = sb_acell sh (r + 1) c := by
  obtain ⟨p1, p2, p3⟩ := page_scroll_sb sh ht (by omega)
  obtain ⟨q1, q2, q3⟩ := sb_push_eq sh
  obtain ⟨c1, -⟩ := page_scroll_ctl sh
  have htn : top_next sh = min (sh.top + 1) (sh.sb_lines - 1) := by
    unfold top_next
    split_ifs <;> omega
  have hT2 : 0 ≤ top_next sh ∧ top_next sh ≤ sh.sb_lines - 1 := by omega
  rw [p1, q1]
  refine ⟨htn, fun c h0 h1 => ⟨?_, fun r hr1 hr2 hr3 => ?_⟩⟩
  · unfold sb_cell sb_acell cell acell
    rw [c1, p2, p3, q2, q3,
      pushed_getD _ _ _ _ _ _ _ hl1 hC hT2 ⟨by omega, by omega⟩ ⟨h0, h1⟩,
      pushed_getD _ _ _ _ _ _ _ hl2 hC hT2 ⟨by omega, by omega⟩ ⟨h0, h1⟩,
      if_pos rfl, if_pos rfl]
    have : (0 : Int) * sh.cols + c = c := by ring
    rw [this]
    exact ⟨rfl, rfl⟩
  · unfold sb_cell sb_acell
    rw [c1, p2, p3, q2, q3,
      pushed_getD _ _ _ _ _ _ _ hl1 hC hT2 ⟨by omega, by omega⟩ ⟨h0, h1⟩,
      pushed_getD _ _ _ _ _ _ _ hl2 hC hT2 ⟨by omega, by omega⟩ ⟨h0, h1⟩,
      if_neg (show ¬ r = sh.sb_lines - 1 by omega), if_neg (show ¬ r = sh.sb_lines - 1 by omega),
      if_pos (show top_next sh > 1 ∧ sh.sb_lines - top_next sh - 1 ≤ r from ⟨hr1, hr2⟩),
      if_pos (show top_next sh > 1 ∧ sh.sb_lines - top_next sh - 1 ≤ r from ⟨hr1, hr2⟩)]
    exact ⟨rfl, rfl⟩

/-- C12 (amended): with scrollback enabled and `scroll_top = 0`, one scroll-up
stores the displaced page row 0 (characters and attributes) in scrollback row
`sb_lines - 1`, moves the stored rows one row towards the start and increments
`top` up to the cap `sb_lines - 1`; hence after `n` scroll-ups from `top = 0`,
`top = min n (sb_lines - 1)` and scrollback row `sb_lines - 1 - j` holds the
`j`-th most recently displaced row for every `j < top`. -/
theorem scrollback_push (sh : my_sess) (hC : 0 < sh.cols) (hS : 0 < sh.sb_lines)
    (ht : sh.scroll_top = 0) (hl1 : (sh.sb_page.length : Int) = sh.sb_lines * sh.cols)
    (hl2 : (sh.sb_attributes.length : Int) = sh.sb_lines * sh.cols)
    (hT : 0 ≤ sh.top ∧ sh.top ≤ sh.sb_lines - 1) :
    ((page_scroll sh).top = min (sh.top + 1) (sh.sb_lines - 1) ∧
      ∀ c : Int, 0 ≤ c → c < sh.cols →
        (sb_cell (page_scroll sh) (sh.sb_lines - 1) c = cell sh 0 c ∧
          sb_acell (page_scroll sh) (sh.sb_lines - 1) c = acell sh 0 c) ∧
        ∀ j : Int, 1 ≤ j → j < (page_scroll sh).top →
          sb_cell (page_scroll sh) (sh.sb_lines - 1 - j) c = sb_cell sh (sh.sb_lines - j) c ∧
          sb_acell (page_scroll sh) (sh.sb_lines - 1 - j) c = sb_acell sh (sh.sb_lines - j) c) ∧
    (sh.top = 0 → ∀ n : Nat,
      (page_scroll^[n] sh).top = min (n : Int) (sh.sb_lines - 1) ∧
      ∀ j : Nat, (j : Int) < (page_scroll^[n] sh).top → ∀ c : Int, 0 ≤ c → c < sh.cols →
        sb_cell (page_scroll^[n] sh) (sh.sb_lines - 1 - j) c = cell (page_scroll^[n - 1 - j] sh) 0 c ∧
        sb_acell (page_scroll^[n] sh) (sh.sb_lines - 1 - j) c
          = acell (page_scroll^[n - 1 - j] sh) 0 c) := by
  constructor
  · obtain ⟨a1, a2⟩ := page_scroll_push sh hC hS ht hl1 hl2 hT
    refine ⟨a1, fun c h0 h1 => ⟨(a2 c h0 h1).1, fun j hj1 hj2 => ?_⟩⟩
    have := (a2 c h0 h1).2 (sh.sb_lines - 1 - j) (by omega) (by omega) (by omega)
    rw [show sh.sb_lines - 1 - j + 1 = sh.sb_lines - j by ring] at this
    exact this
  · intro h0 n
    induction n with
    | zero =>
      refine ⟨?_, fun j hj => ?_⟩
      · show sh.top = _
        rw [h0]
        simp
        omega
      · have : (page_scroll^[0] sh).top = 0 := h0
        omega
    | succ n ih =>
      obtain ⟨ih1, ih2⟩ := ih
      obtain ⟨s1, -, -, s4, -, -, -, -, -, s10⟩ := page_scroll_iter_ctl n sh
      obtain ⟨-, -, -, -, -, -, f7, f8⟩ := page_scroll_iter_frame n sh
      rw [Function.iterate_succ_apply']
      obtain ⟨a1, a2⟩ := page_scroll_push (page_scroll^[n] sh) (by rw [s1]; exact hC)
        (by rw [s10]; exact hS) (by rw [s4]; exact ht) (by rw [f7, s10, s1]; exact hl1)
        (by rw [f8, s10, s1]; exact hl2) (by rw [ih1, s10]; omega)
      rw [s10, s1] at a2
      rw [s10, ih1] at a1
      refine ⟨by rw [a1]; push_cast; omega, fun j hj c h0c h1c => ?_⟩
      rcases Nat.eq_zero_or_pos j with hj0 | hj0
      · subst hj0
        have := (a2 c h0c h1c).1
        simp only [Nat.cast_zero, sub_zero, Nat.add_sub_cancel] at this ⊢
        exact this
      · have h3 := (a2 c h0c h1c).2 (sh.sb_lines - 1 - j) (by omega) (by omega) (by omega)
        have h4 := ih2 (j - 1) (by rw [ih1]; omega) c h0c h1c
        rw [show sh.sb_lines - 1 - ((j - 1 : Nat) : Int) = sh.sb_lines - 1 - j + 1 by omega,
          show n - 1 - (j - 1) = n + 1 - 1 - j by omega] at h4
        rw [h3.1, h3.2]
        exact h4

set_option maxRecDepth 100000 in
theorem scrollback_push_witness :
    (0 < (term_new 4 10 3 3).sb_lines ∧ (term_new 4 10 3 3).scroll_top = 0 ∧
      (term_new 4 10 3 3).top = 0) ∧
    (page_scroll^[5] (term_new 4 10 3 3)).top = min ((5 : Nat) : Int) ((term_new 4 10 3 3).sb_lines - 1) :=
  ⟨by decide,
    ((scrollback_push (term_new 4 10 3 3) (by decide) (by decide) (by decide) (by decide)
      (by decide) (by decide)).2 (by decide) 5).1⟩

set_option maxRecDepth 100000 in
/-- C12 as stated fails: on a fresh 4x10 session with two scrollback rows
(`scroll_top = 0`), `top` is 1 after two scroll-ups and stays 1, not
`min 2 sb_lines = 2`; five line feeds, which scroll twice, give the same; with
one scrollback row `top` never leaves 0. -/
theorem scrollback_top_cap_counterexample :
    (term_new 4 10 2 3).scroll_top = 0 ∧ (term_new 4 10 2 3).sb_lines = 2 ∧
    (page_scroll^[2] (term_new 4 10 2 3)).top = 1 ∧
    (page_scroll^[2] (term_new 4 10 2 3)).top ≠ min 2 (term_new 4 10 2 3).sb_lines ∧
    (page_scroll^[7] (term_new 4 10 2 3)).top = 1 ∧
    (page_append 1 (term_new 4 10 2 3) [10, 10, 10, 10, 10]).map
      (fun r => (r.1.nscroll, r.1.top)) = some (2, 1) ∧
    (page_scroll (term_new 4 10 1 3)).top = 0 := by
  decide

/-! ## C13: graphics translation -/

theorem special_ne : ∀ c < 0x7f, 0x60 ≤ c →
    special.getD (c - 0x60) 0 ≠ c ∧ special16.getD (c - 0x60) 0 ≠ c := by
  decide

set_option maxRecDepth 100000 in
/-- C13: the character stored by `put` at the cursor is the entry `c - 0x60` of
the translation table (`special` in 8-bit mode, `special16` in 16-bit mode),
which differs from `c`, when `kf_graphics` and `kf_dographic` are both set and
`0x60 ≤ c < 0x7f`, and `c` itself in every other case; a printable ASCII byte
that does not scroll is stored by `put`; and on a fresh session `ESC ( 0`
followed by the byte 0x71 stores 0xC4 (8-bit) or U+2500 (16-bit), entry 0x11
of the table, where the byte alone, or after SO only, stores `q`. -/
theorem graphics_translation (BYTES : Nat) (sh : my_sess) (c : Nat) (curcol : Int)
    (h0 : 0 ≤ sh.cur) (h1 : sh.cur < sh.page.length) :
    ((sh.kflags &&& kf_graphics ≠ 0 ∧ sh.kflags &&& kf_dographic ≠ 0 ∧ 0x60 ≤ c ∧ c < 0x7f →
        (put BYTES sh c curcol).page.getD sh.cur.toNat 0
          = (if UTF8 BYTES then special16 else special).getD (c - 0x60) 0 ∧
        (put BYTES sh c curcol).page.getD sh.cur.toNat 0 ≠ c) ∧
      (¬ (sh.kflags &&& kf_graphics ≠ 0 ∧ sh.kflags &&& kf_dographic ≠ 0 ∧ 0x60 ≤ c ∧ c < 0x7f) →
        (put BYTES sh c curcol).page.getD sh.cur.toNat 0 = c)) ∧
    (∀ rest : List Nat, 32 ≤ c ∧ c ≤ 126 → sh.cur < sh.scroll_bottom * sh.cols →
      page_append_step BYTES sh (c :: rest) = .next (put BYTES sh c (Int.tmod sh.cur sh.cols)) rest) ∧
    ((page_append 1 (term_new 4 10 0 3) [27, 40, 48, 0x71]).map (fun r => r.1.page.getD 0 0)
        = some 0xC4 ∧
      (page_append 2 (term_new 4 10 0 3) [27, 40, 48, 0x71]).map (fun r => r.1.page.getD 0 0)
        = some 0x2500 ∧
      special.getD 0x11 0 = 0xC4 ∧ special16.getD 0x11 0 = 0x2500 ∧
      (page_append 1 (term_new 4 10 0 3) [0x71]).map (fun r => r.1.page.getD 0 0) = some 0x71 ∧
      (page_append 1 (term_new 4 10 0 3) [0x0e, 0x71]).map (fun r => r.1.page.getD 0 0)
        = some 0x71) := by
  have hst : (put BYTES sh c curcol).page.getD sh.cur.toNat 0 = glyph BYTES sh.kflags c := by
    rw [put_page, store_getD, if_pos ⟨by omega, by omega⟩]
  refine ⟨⟨fun h => ?_, fun h => ?_⟩, fun rest hc hlt => step_printable BYTES sh rest hc hlt,
    by decide⟩
  · have hg : glyph BYTES sh.kflags c = (if UTF8 BYTES then special16 else special).getD (c - 0x60) 0 := by
      unfold glyph
      rw [if_pos ⟨h.2.2.1, h.2.2.2, h.2.1, h.1⟩]
    rw [hst, hg]
    refine ⟨rfl, ?_⟩
    obtain ⟨n1, n2⟩ := special_ne c h.2.2.2 h.2.2.1
    split_ifs
    · exact n2
    · exact n1
  · have hg : glyph BYTES sh.kflags c = c := by
      unfold glyph
      rw [if_neg (fun g => h ⟨g.2.2.2, g.2.2.1, g.1, g.2.1⟩)]
    rw [hst, hg]

set_option maxRecDepth 100000 in
theorem graphics_translation_witness :
    (esc_charset (term_new 4 10 0 3) 40 48).kflags &&& kf_graphics ≠ 0 ∧
    (esc_charset (term_new 4 10 0 3) 40 48).kflags &&& kf_dographic ≠ 0 ∧
    (put 1 (esc_charset (term_new 4 10 0 3) 40 48) 0x71 0).page.getD
      (esc_charset (term_new 4 10 0 3) 40 48).cur.toNat 0
      = (if UTF8 1 then special16 else special).getD (0x71 - 0x60) 0 :=
  ⟨by decide, by decide,
    ((graphics_translation 1 (esc_charset (term_new 4 10 0 3) 40 48) 0x71 0 (by decide)
      (by decide)).1.1 (by decide)).1⟩

/-! ## C14: erase -/

/-- C14 (amended): for a range inside the page (`0 ≤ start`, `0 ≤ len`,
`start + len ≤ pagelen`), `erase sh start len` sets the character of every
cell `i` with `start ≤ i < start + len` to a space and its attribute to the
current attribute, changes no other cell and no other field, and makes no
access outside the arrays. -/
theorem erase_in_page (sh : my_sess) (start len : Int) (hs : Shape sh) (h0 : 0 ≤ start)
    (hl : 0 ≤ len) (h1 : start + len ≤ sh.pagelen) :
    (∀ i : Nat,
      (erase sh start len).page.getD i 0
        = (if start ≤ (i : Int) ∧ (i : Int) < start + len then 0x20 else sh.page.getD i 0) ∧
      (erase sh start len).attributes.getD i 0
        = (if start ≤ (i : Int) ∧ (i : Int) < start + len then sh.cur_attr
           else sh.attributes.getD i 0)) ∧
    erase sh start len =
      { sh with page := (erase sh start len).page, attributes := (erase sh start len).attributes } := by
  obtain ⟨s1, s2⟩ := hs
  have hb1 : inb sh.page.length start len = true := by
    unfold inb
    simp only [Bool.or_eq_true, Bool.and_eq_true, decide_eq_true_eq, beq_iff_eq]
    omega
  have hb2 : inb sh.attributes.length start len = true := by
    unfold inb
    simp only [Bool.or_eq_true, Bool.and_eq_true, decide_eq_true_eq, beq_iff_eq]
    omega
  constructor
  · intro i
    unfold erase
    dsimp only
    rw [fill_getD, fill_getD]
    by_cases h : start ≤ (i : Int) ∧ (i : Int) < start + len
    · rw [if_pos (show i < sh.page.length ∧ start ≤ (i : Int) ∧ (i : Int) < start + len from
          ⟨by omega, h⟩),
        if_pos (show i < sh.attributes.length ∧ start ≤ (i : Int) ∧ (i : Int) < start + len from
          ⟨by omega, h⟩), if_pos h, if_pos h]
      exact ⟨rfl, rfl⟩
    · rw [if_neg (show ¬ (i < sh.page.length ∧ start ≤ (i : Int) ∧ (i : Int) < start + len) from
          fun g => h g.2),
        if_neg (show ¬ (i < sh.attributes.length ∧ start ≤ (i : Int) ∧ (i : Int) < start + len)
          from fun g => h g.2), if_neg h, if_neg h]
      exact ⟨rfl, rfl⟩
  · unfold erase
    dsimp only
    rw [hb1, hb2]
    simp

set_option maxRecDepth 100000 in
theorem erase_in_page_witness :
    Shape (term_new 4 10 0 3) ∧
    (erase (term_new 4 10 0 3) 5 10).page.getD 7 0
      = (if (5 : Int) ≤ ((7 : Nat) : Int) ∧ ((7 : Nat) : Int) < 5 + 10 then 0x20
         else (term_new 4 10 0 3).page.getD 7 0) :=
  ⟨term_new_shape 4 10 0 3,
    ((erase_in_page (term_new 4 10 0 3) 5 10 (term_new_shape 4 10 0 3) (by decide) (by decide)
      (by decide)).1 7).1⟩

set_option maxRecDepth 100000 in
/-- C14 as stated fails: `erase` does not clamp.  On a fresh 4x10 session
(`pagelen = 40`, arrays of 40 cells) the call `erase sh 0 41` stores 41 cells,
one past the end of each array; the call is reached by four `ESC D` (cursor
at 40) followed by `ESC [ 1 J`. -/
theorem erase_no_clamp_counterexample :
    (term_new 4 10 0 3).pagelen = 40 ∧ (term_new 4 10 0 3).page.length = 40 ∧
    (term_new 4 10 0 3).oob = false ∧
    (erase (term_new 4 10 0 3) 0 41).oob = true ∧
    (page_append 1 (term_new 4 10 0 3) [27, 68, 27, 68, 27, 68, 27, 68]).map
      (fun r => (r.1.cur, r.1.oob)) = some (40, false) ∧
    (page_append 1 (term_new 4 10 0 3) [27, 68, 27, 68, 27, 68, 27, 68, 27, 91, 49, 74]).map
      (fun r => (r.1.cur, r.1.oob)) = some (40, true) := by
  decide

/-! ## C15: decoding the UTF-8 encoding of a code point -/

theorem lead3_bits : ∀ a < 16, (0xE0 ||| a) ≠ 0 ∧ ¬ (0xE0 ||| a) < 0x80 ∧
    (0xE0 ||| a) &&& 0xE0 = 0xE0 ∧ (0xE0 ||| a) &&& 0x0F = a := by
  decide

theorem lead2_bits : ∀ a < 32, (0xC0 ||| a) ≠ 0 ∧ ¬ (0xC0 ||| a) < 0x80 ∧
    (0xC0 ||| a) &&& 0xE0 ≠ 0xE0 ∧ (0xC0 ||| a) &&& 0xC0 = 0xC0 ∧ (0xC0 ||| a) &&& 0x1F = a := by
  decide

theorem cont_bits : ∀ b < 64, (0x80 ||| b) ≠ 0 ∧ (0x80 ||| b) &&& 0x3F = b := by
  decide

theorem shift_or6 (a d : Nat) (hd : d < 64) : a <<< 6 ||| d = a * 64 + d := by
  rw [Nat.shiftLeft_eq, Nat.mul_comm a (2 ^ 6), ← Nat.mul_add_lt_is_or (i := 6) hd]

theorem shift_or12 (a b : Nat) (hb : b < 64) : a <<< 12 ||| b <<< 6 = a * 4096 + b * 64 := by
  have hb2 : b * 2 ^ 6 < 2 ^ 12 := by omega
  rw [Nat.shiftLeft_eq, Nat.shiftLeft_eq, Nat.mul_comm a (2 ^ 12), ← Nat.mul_add_lt_is_or hb2]
  omega

theorem shift_or3 (a b d : Nat) (hb : b < 64) (hd : d < 64) :
    a <<< 12 ||| b <<< 6 ||| d = a * 4096 + b * 64 + d := by
  rw [shift_or12 a b hb]
  have e : a * 4096 + b * 64 = 2 ^ 6 * (a * 64 + b) := by omega
  rw [e, ← Nat.mul_add_lt_is_or (i := 6) hd]

theorem utf8_fields (c : Nat) :
    c >>> 6 = c / 64 ∧ c >>> 12 = c / 4096 ∧ c &&& 0x3F = c % 64 ∧
    (c >>> 6) &&& 0x3F = c / 64 % 64 := by
  refine ⟨Nat.shiftRight_eq_div_pow c 6, Nat.shiftRight_eq_div_pow c 12,
    Nat.and_pow_two_sub_one_eq_mod c 6, ?_⟩
  rw [Nat.shiftRight_eq_div_pow c 6]
  exact Nat.and_pow_two_sub_one_eq_mod (c / 64) 6

/-- C15: for every code point `c` with `1 ≤ c ≤ 0xFFFF`, `utf8_to_ucs2` applied
to the standard UTF-8 encoding of `c` followed by arbitrary bytes returns `c`
and leaves the end pointer just past the encoding; the encoding has one, two
or three bytes. -/
theorem utf8_roundtrip (c : Nat) (rest : List Nat) (h1 : 1 ≤ c) (h2 : c ≤ 0xFFFF) :
    utf8_to_ucs2 (utf8_encode c ++ rest) = ((c : Int), (utf8_encode c).length) ∧
    (utf8_encode c).length = (if c < 0x80 then 1 else if c < 0x800 then 2 else 3) := by
  obtain ⟨f1, f2, f3, f4⟩ := utf8_fields c
  refine ⟨?_, by unfold utf8_encode; split_ifs <;> rfl⟩
  unfold utf8_encode
  by_cases ha : c < 0x80
  · rw [if_pos ha]
    unfold utf8_to_ucs2
    have e0 : rd ([c] ++ rest) 0 = c := rfl
    rw [e0, if_neg (by omega), if_pos ha]
    rfl
  · rw [if_neg ha]
    by_cases hb : c < 0x800
    · rw [if_pos hb]
      rw [f1, f3]
      obtain ⟨l1, l2, l3, l4, l5⟩ := lead2_bits (c / 64) (by omega)
      obtain ⟨k1, k2⟩ := cont_bits (c % 64) (by omega)
      unfold utf8_to_ucs2
      have e0 : rd ([0xC0 ||| c / 64, 0x80 ||| c % 64] ++ rest) 0 = 0xC0 ||| c / 64 := rfl
      have e1 : rd ([0xC0 ||| c / 64, 0x80 ||| c % 64] ++ rest) 1 = 0x80 ||| c % 64 := rfl
      rw [e0, e1, if_neg l1, if_neg l2, if_neg l3, if_pos l4, if_neg k1, l5, k2,
        shift_or6 _ _ (by omega)]
      have : c / 64 * 64 + c % 64 = c := by omega
      rw [this]
      rfl
    · rw [if_neg hb]
      rw [f2, f3, f4]
      obtain ⟨l1, l2, l3, l4⟩ := lead3_bits (c / 4096) (by omega)
      obtain ⟨k1, k2⟩ := cont_bits (c / 64 % 64) (by omega)
      obtain ⟨k3, k4⟩ := cont_bits (c % 64) (by omega)
      unfold utf8_to_ucs2
      have e0 : rd ([0xE0 ||| c / 4096, 0x80 ||| c / 64 % 64, 0x80 ||| c % 64] ++ rest) 0
          = 0xE0 ||| c / 4096 := rfl
      have e1 : rd ([0xE0 ||| c / 4096, 0x80 ||| c / 64 % 64, 0x80 ||| c % 64] ++ rest) 1
          = 0x80 ||| c / 64 % 64 := rfl
      have e2 : rd ([0xE0 ||| c / 4096, 0x80 ||| c / 64 % 64, 0x80 ||| c % 64] ++ rest) 2
          = 0x80 ||| c % 64 := rfl
      rw [e0, e1, e2, if_neg l1, if_neg l2, if_pos l3, if_neg (by simp [k1, k3]), l4, k2, k4,
        shift_or3 _ _ _ (by omega) (by omega)]
      have : c / 4096 * 4096 + c / 64 % 64 * 64 + c % 64 = c := by omega
      rw [this]
      rfl

theorem utf8_roundtrip_witness :
    utf8_encode 0x20AC = [0xE2, 0x82, 0xAC] ∧
    utf8_to_ucs2 (utf8_encode 0x20AC ++ [0x41]) = (((0x20AC : Nat) : Int), (utf8_encode 0x20AC).length) :=
  ⟨by decide, (utf8_roundtrip 0x20AC [0x41] (by decide) (by decide)).1⟩

/-! ## C16, C17: bytes that do not start a complete sequence -/

set_option maxRecDepth 100000 in
theorem cont_lead : ∀ b < 0xC0, 0x80 ≤ b →
    b ≠ 0 ∧ ¬ b < 0x80 ∧ b &&& 0xE0 ≠ 0xE0 ∧ b &&& 0xC0 ≠ 0xC0 := by
  decide

set_option maxRecDepth 100000 in
theorem four_lead : ∀ b < 0x100, 0xF0 ≤ b → b ≠ 0 ∧ ¬ b < 0x80 ∧ b &&& 0xE0 = 0xE0 := by
  decide

theorem decode_fail {s : List Nat} (h : utf8_to_ucs2 s = (-1, 0)) :
    decode_c 2 s = 0xfffd ∧ decode_ns s = 1 := by
  unfold decode_c decode_ns
  rw [h]
  exact ⟨rfl, rfl⟩

set_option maxRecDepth 100000 in
/-- C16 (what the code does): in UTF-8 mode a stray continuation byte
0x80-0xBF is decoded as U+FFFD and consumes one byte whatever follows; a byte
0xF0-0xFF is decoded so only when one of the next two bytes is NUL, and
otherwise it is taken as the lead byte of a three-byte sequence: for the
bytes F0 9F 98 80 the decoder returns U+07D8 with three bytes consumed, and
`page_append` stores U+07D8 and one U+FFFD (cursor 2) where the claim has
four U+FFFD. -/
theorem utf8_invalid_lead :
    (∀ (b : Nat) (rest : List Nat), 0x80 ≤ b → b ≤ 0xBF →
      decode_c 2 (b :: rest) = 0xfffd ∧ decode_ns (b :: rest) = 1) ∧
    (∀ (b : Nat) (rest : List Nat), 0xF0 ≤ b → b ≤ 0xFF → rd rest 0 = 0 ∨ rd rest 1 = 0 →
      decode_c 2 (b :: rest) = 0xfffd ∧ decode_ns (b :: rest) = 1) ∧
    utf8_to_ucs2 [0xF0, 0x9F, 0x98, 0x80] = (0x7D8, 3) ∧
    decode_c 2 [0xF0, 0x9F, 0x98, 0x80] = 0x7D8 ∧ decode_ns [0xF0, 0x9F, 0x98, 0x80] = 3 ∧
    (page_append 2 (term_new 4 10 0 3) [0xF0, 0x9F, 0x98, 0x80]).map
      (fun r => (r.1.page.take 4, r.1.cur, r.2)) = some ([0x7D8, 0xFFFD, 32, 32], 2, []) := by
  refine ⟨fun b rest h1 h2 => ?_, fun b rest h1 h2 h3 => ?_, by decide, by decide, by decide,
    by decide⟩
  · obtain ⟨c1, c2, c3, c4⟩ := cont_lead b (by omega) h1
    apply decode_fail
    unfold utf8_to_ucs2
    have e0 : rd (b :: rest) 0 = b := rfl
    rw [e0, if_neg c1, if_neg c2, if_neg c3, if_neg c4]
  · obtain ⟨c1, c2, c3⟩ := four_lead b (by omega) h1
    apply decode_fail
    unfold utf8_to_ucs2
    have e0 : rd (b :: rest) 0 = b := rfl
    have e1 : rd (b :: rest) 1 = rd rest 0 := rfl
    have e2 : rd (b :: rest) 2 = rd rest 1 := rfl
    rw [e0, e1, e2, if_neg c1, if_neg c2, if_pos c3, if_pos h3]

theorem utf8_invalid_lead_witness :
    decode_c 2 (0x85 :: [0x41]) = 0xfffd ∧ decode_ns (0x85 :: [0x41]) = 1 :=
  utf8_invalid_lead.1 0x85 [0x41] (by decide) (by decide)

set_option maxRecDepth 100000 in
/-- C17 (the code at the failing input): in UTF-8 mode the decoder returns -1
with the end pointer at the input for a truncated sequence exactly as for an
invalid byte, and `page_append` stores U+FFFD and consumes the lead byte.  On a
fresh 4x10 session the two bytes C3 A9 in one read store U+00E9 (cursor 1);
read as C3 then A9, the first read stores U+FFFD and retains nothing, the
second stores another U+FFFD (cursor 2).  Likewise E2 82 AC stores U+20AC in
one read and three U+FFFD when read as E2 82 then AC. -/
theorem chunked_utf8_differs :
    utf8_to_ucs2 [0xC3] = (-1, 0) ∧ utf8_to_ucs2 [0xE2, 0x82] = (-1, 0) ∧
    utf8_to_ucs2 [0x80] = (-1, 0) ∧
    (feed 2 (term_new 4 10 0 3) [[0xC3, 0xA9]]).map
      (fun sh => (sh.page.take 3, sh.cur, strlen sh.sbuf)) = some ([0xE9, 32, 32], 1, 0) ∧
    (feed 2 (term_new 4 10 0 3) [[0xC3]]).map
      (fun sh => (sh.page.take 3, sh.cur, strlen sh.sbuf)) = some ([0xFFFD, 32, 32], 1, 0) ∧
    (feed 2 (term_new 4 10 0 3) [[0xC3], [0xA9]]).map
      (fun sh => (sh.page.take 3, sh.cur, strlen sh.sbuf)) = some ([0xFFFD, 0xFFFD, 32], 2, 0) ∧
    (feed 2 (term_new 4 10 0 3) [[0xE2, 0x82, 0xAC]]).map
      (fun sh => (sh.page.take 3, sh.cur, strlen sh.sbuf)) = some ([0x20AC, 32, 32], 1, 0) ∧
    (feed 2 (term_new 4 10 0 3) [[0xE2, 0x82], [0xAC]]).map
      (fun sh => (sh.page.take 3, sh.cur, strlen sh.sbuf))
      = some ([0xFFFD, 0xFFFD, 0xFFFD], 3, 0) := by
  decide

/-! ## C18: the geometry of a new session -/

theorem getD_eq_of_mem {l : List Nat} {b : Nat} (h : b ∈ l) : ∃ i, i < l.length ∧ l.getD i 0 = b := by
  obtain ⟨i, hi, e⟩ := List.getElem_of_mem h
  refine ⟨i, hi, ?_⟩
  rw [List.getD_eq_getElem?_getD, List.getElem?_eq_getElem hi]
  exact e

/-- C18: `term_new` keeps the requested rows when `4 ≤ rows ≤ 80` and uses 25
otherwise, keeps the requested cols when `10 ≤ cols ≤ 160` and uses 80
otherwise; the session it creates has `4 ≤ rows ≤ 80`, `10 ≤ cols ≤ 160`,
`pagelen = rows * cols`, cursor 0, scroll region `[0, rows)`, current attribute
0, and a page of `pagelen` spaces with `pagelen` attributes 0. -/
theorem term_new_geometry (rows cols sb_lines fd : Int) :
    (term_new rows cols sb_lines fd).rows = (if 4 ≤ rows ∧ rows ≤ 80 then rows else 25) ∧
    (term_new rows cols sb_lines fd).cols = (if 10 ≤ cols ∧ cols ≤ 160 then cols else 80) ∧
    (4 ≤ (term_new rows cols sb_lines fd).rows ∧ (term_new rows cols sb_lines fd).rows ≤ 80) ∧
    (10 ≤ (term_new rows cols sb_lines fd).cols ∧ (term_new rows cols sb_lines fd).cols ≤ 160) ∧
    (term_new rows cols sb_lines fd).pagelen
      = (term_new rows cols sb_lines fd).rows * (term_new rows cols sb_lines fd).cols ∧
    (term_new rows cols sb_lines fd).cur = 0 ∧
    (term_new rows cols sb_lines fd).scroll_top = 0 ∧
    (term_new rows cols sb_lines fd).scroll_bottom = (term_new rows cols sb_lines fd).rows ∧
    (term_new rows cols sb_lines fd).cur_attr = 0 ∧
    (term_new rows cols sb_lines fd).page
      = List.replicate (term_new rows cols sb_lines fd).pagelen.toNat 0x20 ∧
    (term_new rows cols sb_lines fd).attributes
      = List.replicate (term_new rows cols sb_lines fd).pagelen.toNat 0 := by
  obtain ⟨f1, f2, f3, f4, f5, f6, f7, f8, f9, f10, f11, f12, f13⟩ :=
    term_new_fields rows cols sb_lines fd
  obtain ⟨s1, s2⟩ := term_new_shape rows cols sb_lines fd
  have hp : (term_new rows cols sb_lines fd).pagelen
      = (term_new rows cols sb_lines fd).rows * (term_new rows cols sb_lines fd).cols :=
    (term_new_wf rows cols sb_lines fd).1.2.2.1
  refine ⟨?_, ?_, ⟨f10, f11⟩, ⟨f12, f13⟩, hp, f2, f4, f5, f6, ?_, ?_⟩
  · unfold term_new erase
    dsimp only
    split_ifs <;> first | rfl | omega
  · unfold term_new erase
    dsimp only
    split_ifs <;> first | rfl | omega
  · rw [List.eq_replicate_iff]
    refine ⟨by omega, fun b hb => ?_⟩
    obtain ⟨i, hi, e⟩ := getD_eq_of_mem hb
    rw [← e]
    exact (term_new_page rows cols sb_lines fd i (by omega)).1
  · rw [List.eq_replicate_iff]
    refine ⟨by omega, fun b hb => ?_⟩
    obtain ⟨i, hi, e⟩ := getD_eq_of_mem hb
    rw [← e]
    exact (term_new_page rows cols sb_lines fd i (by omega)).2

/-! ## C19, C20: the keyboard queue -/

theorem do_csi_mark (sh : my_sess) (ps : List Nat) {cmd : Nat} (rest : List Nat) (curcol : Int)
    (hps : ∀ x ∈ ps, isparm x = true) (hc : isparm cmd = false) (h0 : cmd ≠ 0) :
    do_csi sh (27 :: 91 :: 63 :: (ps ++ cmd :: rest)) curcol =
      (0, csi_cmd sh cmd 63 (sscanf3 (ps ++ cmd :: rest)).1 (sscanf3 (ps ++ cmd :: rest)).2.1
        (sscanf3 (ps ++ cmd :: rest)).2.2.1 (sscanf3 (ps ++ cmd :: rest)).2.2.2 curcol,
        cmd :: rest) := by
  have hhead : rd (ps ++ cmd :: rest) 0 ≠ 0 := by
    cases ps with
    | nil => exact h0
    | cons p ps' =>
      have hp := isparm_range (hps p (List.mem_cons_self _ _))
      show p ≠ 0
      omega
  have h63 : rd (63 :: (ps ++ cmd :: rest)) 0 = 63 := rfl
  have hi : index [60, 61, 62, 63] 63 = true := by decide
  unfold do_csi
  simp only [List.drop_succ_cons, List.drop_zero, h63, hi, hhead, if_false, if_true,
    Nat.reduceEqDiff, skip_parms_eq ps rest hps hc]
  have : rd (cmd :: rest) 0 = cmd := rfl
  simp only [this, h0, if_false]

theorem do_csi_priv (sh : my_sess) (c : Nat) (rest : List Nat) (curcol : Int)
    (hc : c = 104 ∨ c = 108) :
    do_csi sh (27 :: 91 :: 63 :: 49 :: c :: rest) curcol
      = (0, csi_cmd sh c 63 1 1 1 1 curcol, c :: rest) := by
  have e : sscanf3 ([49] ++ c :: rest) = (1, 1, 1, 1) := by
    rcases hc with hc | hc <;> subst hc <;>
      simp [sscanf3, scan_int, List.takeWhile, List.dropWhile, isdigit, rd, wrap]
  have h := @do_csi_mark sh [49] c rest curcol (by decide)
    (by rcases hc with hc | hc <;> subst hc <;> decide) (by omega)
  rw [e] at h
  exact h

theorem step_decckm (BYTES : Nat) (sh : my_sess) (rest : List Nat) :
    page_append_step BYTES sh (27 :: 91 :: 63 :: 49 :: 104 :: rest)
      = .next { sh with kflags := sh.kflags ||| kf_priv } rest ∧
    page_append_step BYTES sh (27 :: 91 :: 63 :: 49 :: 108 :: rest)
      = .next { sh with kflags := bic sh.kflags kf_priv } rest := by
  constructor
  · rw [step_ascii BYTES sh _ (by decide) (by decide)]
    unfold ctl_switch
    simp only [Nat.reduceEqDiff, if_false, if_true]
    unfold ctl_esc
    have h1 : rd (27 :: 91 :: 63 :: 49 :: 104 :: rest) 1 = 91 := rfl
    simp only [h1, Nat.reduceEqDiff, if_false, if_true]
    rw [do_csi_priv sh 104 rest _ (Or.inl rfl)]
    rfl
  · rw [step_ascii BYTES sh _ (by decide) (by decide)]
    unfold ctl_switch
    simp only [Nat.reduceEqDiff, if_false, if_true]
    unfold ctl_esc
    have h1 : rd (27 :: 91 :: 63 :: 49 :: 108 :: rest) 1 = 91 := rfl
    simp only [h1, Nat.reduceEqDiff, if_false, if_true]
    rw [do_csi_priv sh 108 rest _ (Or.inr rfl)]
    rfl

theorem priv_bit (k : Nat) : (k ||| kf_priv) &&& kf_priv ≠ 0 ∧ bic k kf_priv &&& kf_priv = 0 := by
  constructor
  · rw [or_self_and]
    decide
  · exact bic_self k kf_priv (by decide)

theorem rd_lt_strlen {k : List Nat} {i : Nat} (h : i < strlen k) : rd k i ≠ 0 := by
  induction k generalizing i with
  | nil => exact absurd h (by simp [strlen])
  | cons a t ih =>
    unfold strlen at h ih
    by_cases ha : a = 0
    · subst ha
      simp at h
    · have hp : (a != 0) = true := by simp [ha]
      rw [List.takeWhile_cons_of_pos (p := fun c => c != 0) hp] at h
      cases i with
      | zero => exact ha
      | succ j =>
        have : j < (List.takeWhile (fun c => c != 0) t).length := by
          simpa using h
        exact ih this

theorem keyin_map_arrow (kflags x : Nat) (rest : List Nat) (hp : kflags &&& kf_priv ≠ 0)
    (hx : x = 65 ∨ x = 66 ∨ x = 67 ∨ x = 68) :
    keyin_map kflags (27 :: 91 :: x :: rest) = 27 :: 79 :: x :: rest := by
  have hlen : strlen (27 :: 91 :: x :: rest) > 2 := by
    have hx0 : (x != 0) = true := by
      rcases hx with h | h | h | h <;> subst h <;> rfl
    unfold strlen
    rw [List.takeWhile_cons_of_pos (p := fun c => c != 0) (by rfl),
      List.takeWhile_cons_of_pos (p := fun c => c != 0) (by rfl),
      List.takeWhile_cons_of_pos (p := fun c => c != 0) hx0]
    simp
  have hidx : index [65, 66, 67, 68] (rd (27 :: 91 :: x :: rest) 2) = true := by
    show index [65, 66, 67, 68] x = true
    rcases hx with h | h | h | h <;> subst h <;> rfl
  unfold keyin_map
  rw [if_pos ⟨hp, hlen, rfl, rfl, hidx⟩]
  rfl

theorem keyin_map_off (kflags : Nat) (k : List Nat) (hp : kflags &&& kf_priv = 0) :
    keyin_map kflags k = k := by
  unfold keyin_map
  rw [if_neg (fun h => h.1 hp)]

theorem keyin_map_other (kflags : Nat) (k : List Nat)
    (h : ¬ (rd k 0 = 27 ∧ rd k 1 = 91 ∧ (rd k 2 = 65 ∨ rd k 2 = 66 ∨ rd k 2 = 67 ∨ rd k 2 = 68))) :
    keyin_map kflags k = k := by
  unfold keyin_map
  rw [if_neg]
  rintro ⟨-, h1, h2, h3, h4⟩
  have h0 := rd_lt_strlen h1
  apply h
  refine ⟨h2, h3, ?_⟩
  unfold index at h4
  simp at h4
  omega

theorem takeWhile_append_nul (a b : List Nat) (h : ∀ x ∈ a, x ≠ 0) :
    (a ++ 0 :: b).takeWhile (fun c => c != 0) = a := by
  induction a with
  | nil => rfl
  | cons x t ih =>
    have hx : (fun c : Nat => c != 0) x = true := by
      have := h x (List.mem_cons_self _ _)
      simp [this]
    rw [List.cons_append, List.takeWhile_cons_of_pos (p := fun c => c != 0) hx,
      ih (fun y hy => h y (List.mem_cons_of_mem _ hy))]

theorem take_strlen (l : List Nat) : l.take (strlen l) = l.takeWhile (fun c => c != 0) := by
  unfold strlen
  induction l with
  | nil => rfl
  | cons x t ih =>
    by_cases hx : (fun c : Nat => c != 0) x = true
    · rw [List.takeWhile_cons_of_pos (p := fun c => c != 0) hx, List.length_cons, List.take_succ_cons, ih]
    · rw [List.takeWhile_cons_of_neg (p := fun c => c != 0) hx]
      rfl

theorem strlen_drop_strlen (l : List Nat) : strlen (l.drop (strlen l)) = 0 := by
  unfold strlen
  induction l with
  | nil => rfl
  | cons x t ih =>
    by_cases hx : (fun c : Nat => c != 0) x = true
    · rw [List.takeWhile_cons_of_pos (p := fun c => c != 0) hx, List.length_cons, List.drop_succ_cons]
      exact ih
    · rw [List.takeWhile_cons_of_neg (p := fun c => c != 0) hx, List.length_nil, List.drop_zero,
        List.takeWhile_cons_of_neg (p := fun c => c != 0) hx]
      rfl

theorem strlen_le (l : List Nat) : strlen l ≤ l.length := by
  unfold strlen
  exact List.Sublist.length_le (List.takeWhile_sublist _)

theorem mem_str_ne {l : List Nat} {x : Nat} (h : x ∈ l.takeWhile (fun c => c != 0)) : x ≠ 0 := by
  have := List.mem_takeWhile_imp h
  simpa using this

/-- The queue after `term_keyin` on a well-formed queue. -/
theorem term_keyin_queue (sh : my_sess) (k : List Nat) (h : KeysOk sh) :
    queue (term_keyin sh k) =
      queue sh ++ ((keyin_map sh.kflags k).takeWhile (fun c => c != 0)).take (255 - (queue sh).length) ∧
    (term_keyin sh k).klen = ((queue (term_keyin sh k)).length : Int) ∧
    (term_keyin sh k).keys.length = KMAX ∧ (term_keyin sh k).oob = sh.oob := by
  obtain ⟨h1, h2, h3⟩ := h
  have hL : sh.klen.toNat = strlen sh.keys := by omega
  have hq : (queue sh).length = strlen sh.keys := rfl
  have hn : (((KMAX : Int) - 1 - sh.klen) % 2 ^ 64).toNat = 255 - strlen sh.keys := by
    have : ((KMAX : Nat) : Int) = 256 := rfl
    rw [this]
    omega
  have he : sh.klen.toNat + strlen (sh.keys.drop sh.klen.toNat) = strlen sh.keys := by
    rw [hL, strlen_drop_strlen]
    rfl
  have hkeys : (term_keyin sh k).keys =
      queue sh ++ ((keyin_map sh.kflags k).takeWhile (fun c => c != 0)).take (255 - strlen sh.keys)
        ++ 0 :: sh.keys.drop (strlen sh.keys
          + (((keyin_map sh.kflags k).takeWhile (fun c => c != 0)).take (255 - strlen sh.keys)).length
          + 1) := by
    unfold term_keyin strncat
    dsimp only
    rw [hn, he, take_strlen]
    rfl
  have hne : ∀ x ∈ queue sh
      ++ ((keyin_map sh.kflags k).takeWhile (fun c => c != 0)).take (255 - strlen sh.keys), x ≠ 0 := by
    intro x hx
    rcases List.mem_append.mp hx with hx | hx
    · exact mem_str_ne hx
    · exact mem_str_ne (List.mem_of_mem_take hx)
  have hal : (((keyin_map sh.kflags k).takeWhile (fun c => c != 0)).take (255 - strlen sh.keys)).length
      ≤ 255 - strlen sh.keys := by
    rw [List.length_take]
    exact Nat.min_le_left _ _
  have hqk : queue (term_keyin sh k) =
      queue sh ++ ((keyin_map sh.kflags k).takeWhile (fun c => c != 0)).take (255 - strlen sh.keys) := by
    unfold queue at hkeys hne ⊢
    rw [hkeys, takeWhile_append_nul _ _ hne]
  have h255 : strlen sh.keys ≤ 255 := by omega
  have hk256 : sh.keys.length = 256 := h1
  refine ⟨by rw [hq]; exact hqk, ?_, ?_, ?_⟩
  · show ((strlen (term_keyin sh k).keys : Nat) : Int) = _
    rfl
  · rw [hkeys, List.length_append, List.length_append, List.length_cons, List.length_drop, hq]
    show _ = 256
    omega
  · unfold term_keyin
    dsimp only
    rw [hn, he]
    have hb : inb sh.keys.length ((strlen sh.keys : Nat) : Int)
        (((((keyin_map sh.kflags k).takeWhile (fun c => c != 0)).take
          (255 - strlen sh.keys)).length : Nat) + 1 : Int) = true := by
      unfold inb
      simp only [Bool.or_eq_true, Bool.and_eq_true, decide_eq_true_eq, beq_iff_eq]
      omega
    have hneg : decide (sh.klen < 0) = false := by
      simp only [decide_eq_false_iff_not]
      omega
    rw [hb, hneg]
    simp

theorem keyin_map_strlen (kflags : Nat) (k : List Nat) :
    ((keyin_map kflags k).takeWhile (fun c => c != 0)).length = strlen k := by
  unfold keyin_map
  split_ifs with h
  · obtain ⟨-, h1, h2, h3, -⟩ := h
    match k, h1, h2, h3 with
    | [], h1, _, _ => simp [strlen] at h1
    | [a], h1, _, h3 => simp [rd] at h3
    | a :: b :: t, _, h2, h3 =>
      have ha : a = 27 := h2
      have hb : b = 91 := h3
      subst ha hb
      rfl
  · rfl

/-- C19: with the queue well formed and room for the whole string, `term_keyin`
on a string that begins with ESC `[` `x`, `x` one of `A B C D`, enqueues it
with `O` in place of `[` when cursor-keys mode (`kf_priv`) is on; while the
mode is off, and for every string that does not begin so, it enqueues the
string byte for byte; `ESC [ ? 1 h` sets `kf_priv` and `ESC [ ? 1 l` clears
it. -/
theorem keyin_cursor_keys (sh : my_sess) (k : List Nat) (h : KeysOk sh)
    (hfit : (queue sh).length + strlen k ≤ 255) :
    (sh.kflags &&& kf_priv ≠ 0 → ∀ (x : Nat) (rest : List Nat),
      x = 65 ∨ x = 66 ∨ x = 67 ∨ x = 68 → k = 27 :: 91 :: x :: rest →
      queue (term_keyin sh k) = queue sh ++ 27 :: 79 :: x :: rest.takeWhile (fun c => c != 0)) ∧
    (sh.kflags &&& kf_priv = 0 ∨
        ¬ (rd k 0 = 27 ∧ rd k 1 = 91 ∧ (rd k 2 = 65 ∨ rd k 2 = 66 ∨ rd k 2 = 67 ∨ rd k 2 = 68)) →
      queue (term_keyin sh k) = queue sh ++ k.takeWhile (fun c => c != 0)) ∧
    (∀ (BYTES : Nat) (rest : List Nat),
      (page_append_step BYTES sh (27 :: 91 :: 63 :: 49 :: 104 :: rest)
          = .next { sh with kflags := sh.kflags ||| kf_priv } rest ∧
        (sh.kflags ||| kf_priv) &&& kf_priv ≠ 0) ∧
      (page_append_step BYTES sh (27 :: 91 :: 63 :: 49 :: 108 :: rest)
          = .next { sh with kflags := bic sh.kflags kf_priv } rest ∧
        bic sh.kflags kf_priv &&& kf_priv = 0)) := by
  obtain ⟨q1, -⟩ := term_keyin_queue sh k h
  have hall : ((keyin_map sh.kflags k).takeWhile (fun c => c != 0)).take (255 - (queue sh).length)
      = (keyin_map sh.kflags k).takeWhile (fun c => c != 0) :=
    List.take_of_length_le (by rw [keyin_map_strlen]; omega)
  rw [hall] at q1
  refine ⟨fun hp x rest hx hk => ?_, fun hc => ?_, fun BYTES rest => ?_⟩
  · have hx0 : (fun c : Nat => c != 0) x = true := by
      rcases hx with e | e | e | e <;> subst e <;> rfl
    rw [q1, hk, keyin_map_arrow _ x rest hp hx,
      List.takeWhile_cons_of_pos (p := fun c => c != 0) (by rfl),
      List.takeWhile_cons_of_pos (p := fun c => c != 0) (by rfl),
      List.takeWhile_cons_of_pos (p := fun c => c != 0) hx0]
  · rw [q1]
    rcases hc with hc | hc
    · rw [keyin_map_off _ k hc]
    · rw [keyin_map_other _ k hc]
  · exact ⟨⟨(step_decckm BYTES sh rest).1, (priv_bit sh.kflags).1⟩,
      ⟨(step_decckm BYTES sh rest).2, (priv_bit sh.kflags).2⟩⟩

set_option maxRecDepth 100000 in
theorem keyin_cursor_keys_witness :
    KeysOk (csi_h (term_new 4 10 0 3) 63 1) ∧
    (csi_h (term_new 4 10 0 3) 63 1).kflags &&& kf_priv ≠ 0 ∧
    queue (term_keyin (csi_h (term_new 4 10 0 3) 63 1) [27, 91, 65, 0])
      = queue (csi_h (term_new 4 10 0 3) 63 1)
        ++ 27 :: 79 :: 65 :: List.takeWhile (fun c => c != 0) [0] :=
  have hk : KeysOk (csi_h (term_new 4 10 0 3) 63 1) := by unfold KeysOk; decide
  ⟨hk, by decide,
    (keyin_cursor_keys (csi_h (term_new 4 10 0 3) 63 1) [27, 91, 65, 0] hk (by decide)).1
      (by decide) 65 [0] (Or.inl rfl) rfl⟩

/-- C20: for every well-formed queue (`klen ≤ 255` pending bytes) and every
string `k`, `term_keyin` leaves the queued bytes as they are, appends the
longest prefix of the string (after the cursor-key mapping, which is the
identity while `kf_priv` is off and never changes the length) that fits in
the remaining `255 - klen` bytes and drops the rest; afterwards `klen` is the
length of the queue, at most 255, the queue is well formed again and no byte
outside `keys` was touched. -/
theorem keyin_bounded (sh : my_sess) (k : List Nat) (h : KeysOk sh) :
    queue (term_keyin sh k) =
      queue sh ++ ((keyin_map sh.kflags k).takeWhile (fun c => c != 0)).take
        (255 - (queue sh).length) ∧
    ((keyin_map sh.kflags k).takeWhile (fun c => c != 0)).length = strlen k ∧
    (sh.kflags &&& kf_priv = 0 →
      queue (term_keyin sh k) =
        queue sh ++ (k.takeWhile (fun c => c != 0)).take (255 - (queue sh).length)) ∧
    (term_keyin sh k).klen = ((queue (term_keyin sh k)).length : Int) ∧
    (term_keyin sh k).klen ≤ 255 ∧ KeysOk (term_keyin sh k) ∧
    (term_keyin sh k).oob = sh.oob := by
  obtain ⟨q1, q2, q3, q4⟩ := term_keyin_queue sh k h
  have hq : (queue sh).length ≤ 255 := by
    obtain ⟨-, h2, h3⟩ := h
    have : (queue sh).length = strlen sh.keys := rfl
    omega
  have hle : (term_keyin sh k).klen ≤ 255 := by
    rw [q2, q1, List.length_append, List.length_take]
    omega
  refine ⟨q1, keyin_map_strlen _ _, fun hp => ?_, q2, hle, ⟨q3, rfl, hle⟩, q4⟩
  rw [q1, keyin_map_off _ k hp]

set_option maxRecDepth 1000000 in
theorem keyin_bounded_witness :
    KeysOk (term_new 4 10 0 3) ∧
    (term_keyin (term_new 4 10 0 3) (List.replicate 300 65)).klen ≤ 255 ∧
    KeysOk (term_keyin (term_new 4 10 0 3) (List.replicate 300 65)) :=
  have hk : KeysOk (term_new 4 10 0 3) := by unfold KeysOk; decide
  ⟨hk, (keyin_bounded (term_new 4 10 0 3) (List.replicate 300 65) hk).2.2.2.2.1,
    (keyin_bounded (term_new 4 10 0 3) (List.replicate 300 65) hk).2.2.2.2.2.1⟩

/-! ## C21: the snapshot of a session -/

theorem step_dectcem (BYTES : Nat) (sh : my_sess) (rest : List Nat) :
    page_append_step BYTES sh (27 :: 91 :: 63 :: 50 :: 53 :: 108 :: rest)
      = .next { sh with kflags := sh.kflags ||| kf_nocursor } rest ∧
    page_append_step BYTES sh (27 :: 91 :: 63 :: 50 :: 53 :: 104 :: rest)
      = .next { sh with kflags := bic sh.kflags kf_nocursor } rest := by
  have s1 : sscanf3 ([50, 53] ++ 108 :: rest) = (1, 25, 1, 1) := by
    simp [sscanf3, scan_int, List.takeWhile, List.dropWhile, isdigit, rd, wrap]
  have s2 : sscanf3 ([50, 53] ++ 104 :: rest) = (1, 25, 1, 1) := by
    simp [sscanf3, scan_int, List.takeWhile, List.dropWhile, isdigit, rd, wrap]
  have e1 : ∀ curcol, do_csi sh (27 :: 91 :: 63 :: 50 :: 53 :: 108 :: rest) curcol
      = (0, csi_cmd sh 108 63 1 25 1 1 curcol, 108 :: rest) := by
    intro curcol
    have h := @do_csi_mark sh [50, 53] 108 rest curcol (by decide) (by decide) (by decide)
    rw [s1] at h
    exact h
  have e2 : ∀ curcol, do_csi sh (27 :: 91 :: 63 :: 50 :: 53 :: 104 :: rest) curcol
      = (0, csi_cmd sh 104 63 1 25 1 1 curcol, 104 :: rest) := by
    intro curcol
    have h := @do_csi_mark sh [50, 53] 104 rest curcol (by decide) (by decide) (by decide)
    rw [s2] at h
    exact h
  constructor
  · rw [step_ascii BYTES sh _ (by decide) (by decide)]
    unfold ctl_switch
    simp only [Nat.reduceEqDiff, if_false, if_true]
    unfold ctl_esc
    have h1 : rd (27 :: 91 :: 63 :: 50 :: 53 :: 108 :: rest) 1 = 91 := rfl
    simp only [h1, Nat.reduceEqDiff, if_false, if_true]
    rw [e1]
    rfl
  · rw [step_ascii BYTES sh _ (by decide) (by decide)]
    unfold ctl_switch
    simp only [Nat.reduceEqDiff, if_false, if_true]
    unfold ctl_esc
    have h1 : rd (27 :: 91 :: 63 :: 50 :: 53 :: 104 :: rest) 1 = 91 := rfl
    simp only [h1, Nat.reduceEqDiff, if_false, if_true]
    rw [e2]
    rfl

theorem nocursor_bit (k : Nat) :
    (k ||| kf_nocursor) &&& kf_nocursor ≠ 0 ∧ bic k kf_nocursor &&& kf_nocursor = 0 := by
  constructor
  · rw [or_self_and]
    decide
  · exact bic_self k kf_nocursor (by decide)

/-- C21: `term_state` returns the `modified` flag of the session as it was
before the call, with or without `ptr`; with a `ptr`, the flag of the session
becomes `ptr->modified` exactly when `TS_MOD` is set in `ptr->flags`, and
otherwise stays and is copied into `ptr->modified`; the record reports the
rows, cols and top of the session, and as `cur` the value -1 when
`kf_nocursor` is set and the cursor offset otherwise; nothing else of the
session changes; `ESC [ ? 2 5 l` sets `kf_nocursor` and `ESC [ ? 2 5 h`
clears it. -/
theorem term_state_snapshot (sh : my_sess) (cb name : Nat) :
    term_state (some sh) cb name none = (sh.modified, some sh, cb, name, none) ∧
    (∀ p : term_state_t, ∃ sh1 cb1 name1 p1,
      term_state (some sh) cb name (some p) = (sh.modified, some sh1, cb1, name1, some p1) ∧
      sh1 = { sh with modified := if p.flags &&& TS_MOD ≠ 0 then p.modified else sh.modified } ∧
      p1.modified = (if p.flags &&& TS_MOD ≠ 0 then p.modified else sh.modified) ∧
      p1.rows = sh.rows ∧ p1.cols = sh.cols ∧ p1.top = sh.top ∧
      p1.cur = (if sh.kflags &&& kf_nocursor ≠ 0 then -1 else sh.cur)) ∧
    (∀ (BYTES : Nat) (rest : List Nat),
      (page_append_step BYTES sh (27 :: 91 :: 63 :: 50 :: 53 :: 108 :: rest)
          = .next { sh with kflags := sh.kflags ||| kf_nocursor } rest ∧
        (sh.kflags ||| kf_nocursor) &&& kf_nocursor ≠ 0) ∧
      (page_append_step BYTES sh (27 :: 91 :: 63 :: 50 :: 53 :: 104 :: rest)
          = .next { sh with kflags := bic sh.kflags kf_nocursor } rest ∧
        bic sh.kflags kf_nocursor &&& kf_nocursor = 0)) := by
  refine ⟨rfl, fun p => ?_, fun BYTES rest =>
    ⟨⟨(step_dectcem BYTES sh rest).1, (nocursor_bit sh.kflags).1⟩,
      ⟨(step_dectcem BYTES sh rest).2, (nocursor_bit sh.kflags).2⟩⟩⟩
  unfold term_state
  dsimp only
  split_ifs <;> exact ⟨_, _, _, _, rfl, rfl, rfl, rfl, rfl, rfl, rfl⟩

/-! ## C22: an unterminated CSI sequence that fills the pending buffer -/

theorem term_screen_full (BYTES : Nat) (sh : my_sess) (data : List Nat)
    (h : strlen sh.sbuf = SMAX - 1) :
    term_screen BYTES sh data = some (1, { sh with fd := -1 }) := by
  unfold term_screen
  dsimp only
  rw [h, Nat.sub_self, List.take_zero]
  rfl

set_option maxRecDepth 1000000 in
/-- C22 (the code at the failing input): on a fresh 4x10 session, a read of
the 255 bytes `ESC [` followed by 253 digits `1` (a CSI sequence without its
final byte) is retained whole by `page_append`: the pending buffer holds 255
bytes, its capacity, and the descriptor is still open.  The next call of
`term_screen` asks `read` for 0 bytes, gets 0, marks the session dead
(`fd = -1`) and returns 1, although the shell has the final byte `m` ready. -/
theorem overlong_csi_kills_session :
    (27 :: 91 :: List.replicate 253 49).length = SMAX - 1 ∧
    (feed 1 (term_new 4 10 0 3) [27 :: 91 :: List.replicate 253 49]).map
      (fun sh => (sh.fd, strlen sh.sbuf, sh.sbuf.take 3)) = some (3, 255, [27, 91, 49]) ∧
    ((feed 1 (term_new 4 10 0 3) [27 :: 91 :: List.replicate 253 49]).bind
      (fun sh => term_screen 1 sh [109])).map (fun r => (r.1, r.2.fd)) = some (1, -1) := by
  decide

/-! ## C25: the timeout of the event loop -/

theorem mainloop_timeout_eq (due now : timeval) :
    mainloop_timeout due now =
      if (if due.tv_usec - now.tv_usec < 0 then due.tv_sec - now.tv_sec - 1
          else due.tv_sec - now.tv_sec) > 100 then
        { tv_sec := 100
          tv_usec := if due.tv_usec - now.tv_usec < 0 then due.tv_usec - now.tv_usec + 1000000
            else due.tv_usec - now.tv_usec }
      else if (if due.tv_usec - now.tv_usec < 0 then due.tv_sec - now.tv_sec - 1
          else due.tv_sec - now.tv_sec) < 0 then { tv_sec := 0, tv_usec := 0 }
      else
        { tv_sec := if due.tv_usec - now.tv_usec < 0 then due.tv_sec - now.tv_sec - 1
            else due.tv_sec - now.tv_sec
          tv_usec := if due.tv_usec - now.tv_usec < 0 then due.tv_usec - now.tv_usec + 1000000
            else due.tv_usec - now.tv_usec } := by
  unfold mainloop_timeout
  dsimp only
  by_cases h1 : due.tv_usec - now.tv_usec < 0
  · simp only [h1, if_true]
    by_cases h2 : due.tv_sec - now.tv_sec - 1 > 100
    · simp only [h2, if_true]
      rw [if_neg (by decide)]
    · simp only [h2, if_false]
  · simp only [h1, if_false]
    by_cases h2 : due.tv_sec - now.tv_sec > 100
    · simp only [h2, if_true]
      rw [if_neg (by decide)]
    · simp only [h2, if_false]

/-- C25 (amended): for normalised timestamps `due` and `now` (microseconds in
`[0, 1000000)`), the timeout of `mainloop` is normalised with `0 ≤ tv_sec ≤ 100`;
it is 0 when `due` is before `now`, `due - now` when that is less than 101
seconds, and otherwise 100 seconds plus the microsecond part of `due - now`:
never negative and always shorter than 101 seconds; it equals
`max 0 (min (due - now) 100 s)` whenever `due - now ≤ 100 s`. -/
theorem mainloop_timeout_bound (due now : timeval)
    (hd : 0 ≤ due.tv_usec ∧ due.tv_usec < 1000000) (hn : 0 ≤ now.tv_usec ∧ now.tv_usec < 1000000) :
    (0 ≤ (mainloop_timeout due now).tv_usec ∧ (mainloop_timeout due now).tv_usec < 1000000 ∧
      0 ≤ (mainloop_timeout due now).tv_sec ∧ (mainloop_timeout due now).tv_sec ≤ 100) ∧
    usecs (mainloop_timeout due now) =
      (if usecs due - usecs now < 0 then 0
       else if usecs due - usecs now < 101000000 then usecs due - usecs now
       else 100000000 + (usecs due - usecs now) % 1000000) ∧
    (0 ≤ usecs (mainloop_timeout due now) ∧ usecs (mainloop_timeout due now) < 101000000) ∧
    (usecs due - usecs now ≤ 100000000 →
      usecs (mainloop_timeout due now) = max 0 (min (usecs due - usecs now) 100000000)) := by
  rw [mainloop_timeout_eq]
  unfold usecs
  by_cases h1 : due.tv_usec - now.tv_usec < 0
  · simp only [h1, if_true]
    split_ifs <;> dsimp only <;> refine ⟨?_, ?_, ?_, ?_⟩ <;> omega
  · simp only [h1, if_false]
    split_ifs <;> dsimp only <;> refine ⟨?_, ?_, ?_, ?_⟩ <;> omega

theorem mainloop_timeout_bound_witness :
    usecs (mainloop_timeout { tv_sec := 7, tv_usec := 200000 } { tv_sec := 5, tv_usec := 900000 })
      = max 0 (min (usecs { tv_sec := 7, tv_usec := 200000 } - usecs { tv_sec := 5, tv_usec := 900000 })
          100000000) :=
  (mainloop_timeout_bound { tv_sec := 7, tv_usec := 200000 } { tv_sec := 5, tv_usec := 900000 }
    (by decide) (by decide)).2.2.2 (by decide)

/-- C25 as stated fails: with `due` 1000.5 s after `now` (the loop sets `due`
to `now + 1000 s` before the callbacks run) the timeout is 100 s and
500000 microseconds, longer than 100 s; with `due` 100.7 s after `now` it is
100.7 s. -/
theorem mainloop_timeout_counterexample :
    mainloop_timeout { tv_sec := 1000, tv_usec := 500000 } { tv_sec := 0, tv_usec := 0 }
      = { tv_sec := 100, tv_usec := 500000 } ∧
    usecs (mainloop_timeout { tv_sec := 1000, tv_usec := 500000 } { tv_sec := 0, tv_usec := 0 })
      ≠ max 0 (min (usecs { tv_sec := 1000, tv_usec := 500000 } - usecs { tv_sec := 0, tv_usec := 0 })
          100000000) ∧
    usecs (mainloop_timeout { tv_sec := 100, tv_usec := 700000 } { tv_sec := 0, tv_usec := 0 })
      = 100700000 := by
  decide

/-! ## C26: the input devices -/

/-- C26 (the code at the failing input): the test of `launchpad_init` is
`kpad.fdin == -1 && fw.fdin == -1 && vol.fdin`, so it reports the lack of input
exactly when the keypad and the five-way failed to open and the descriptor of
the volume device is not 0; with the keypad and the five-way missing and the
volume device open on descriptor 5 it aborts, as it does when all three are
missing; with only the keypad open it goes on. -/
theorem no_input_volume_open :
    (∀ k f v : Int, no_input k f v = true ↔ (k = -1 ∧ f = -1 ∧ v ≠ 0)) ∧
    no_input (-1) (-1) 5 = true ∧ no_input (-1) (-1) (-1) = true ∧
    no_input 4 (-1) (-1) = false := by
  refine ⟨fun k f v => ?_, by decide, by decide, by decide⟩
  unfold no_input
  simp [and_assoc]

/-! ## C27: TAB -/

theorem tmod_row {r c C : Int} (hr : 0 ≤ r) (hc : 0 ≤ c) (hC : c < C) :
    Int.tmod (r * C + c) C = c := by
  have h0 : 0 ≤ r * C + c := by
    have := Int.mul_nonneg hr (by omega : (0 : Int) ≤ C)
    omega
  rw [Int.tmod_eq_emod h0 (by omega), Int.add_comm, Int.add_mul_emod_self]
  exact Int.emod_eq_of_lt hc hC

theorem row_end {r c R C : Int} (hr : r < R) (hC : 0 < C) (hc : c < C) :
    r * C + c < R * C ∧ r * C + C ≤ R * C := by
  have h1 : (r + 1) * C ≤ R * C := Int.mul_le_mul_of_nonneg_right (by omega) (by omega)
  have h2 : (r + 1) * C = r * C + C := by ring
  omega

theorem step_tab (BYTES : Nat) (sh : my_sess) (rest : List Nat) :
    page_append_step BYTES sh (9 :: rest) = .next (ctl_tab sh (Int.tmod sh.cur sh.cols)) rest := by
  rw [step_ascii BYTES sh rest (by decide) (by decide)]
  unfold ctl_switch
  simp only [Nat.reduceEqDiff, if_false, if_true, advance_one]

theorem step_bs (BYTES : Nat) (sh : my_sess) (rest : List Nat) :
    page_append_step BYTES sh (8 :: rest) = .next (ctl_bs sh (Int.tmod sh.cur sh.cols)) rest := by
  rw [step_ascii BYTES sh rest (by decide) (by decide)]
  unfold ctl_switch
  simp only [Nat.reduceEqDiff, if_false, if_true, advance_one]

theorem B_kflags (sh : my_sess) : (B sh).kflags = sh.kflags := by
  rw [B_eq_cur]

theorem csi_move_kflags (sh : my_sess) (cmd mark : Nat) (n a1 a2 a3 curcol : Int)
    (hc : cmd = 65 ∨ cmd = 66 ∨ cmd = 67 ∨ cmd = 68 ∨ cmd = 100 ∨ cmd = 71) :
    (csi_cmd sh cmd mark n a1 a2 a3 curcol).kflags = sh.kflags := by
  rcases hc with h | h | h | h | h | h <;> subst h <;> unfold csi_cmd <;>
    simp only [Nat.reduceEqDiff, if_false, if_true, or_false, or_true, true_or, false_or]
  · unfold csi_A
    dsimp only
    split_ifs <;> rfl
  · unfold csi_B
    dsimp only
    split_ifs <;> rfl
  · unfold csi_C
    rw [B_kflags]
  · unfold csi_D
    rw [B_kflags]
  · unfold csi_d
    rw [B_kflags]
    dsimp only
    split_ifs <;> rfl
  · unfold csi_G
    rw [B_kflags]

theorem csi_cup_kflags (sh : my_sess) (cmd mark : Nat) (n a1 a2 a3 curcol : Int)
    (hc : cmd = 72 ∨ cmd = 102) :
    (csi_cmd sh cmd mark n a1 a2 a3 curcol).kflags &&& kf_wrapped = 0 := by
  have e : csi_cmd sh cmd mark n a1 a2 a3 curcol = csi_H sh a1 a2 := by
    rcases hc with h | h <;> subst h <;> unfold csi_cmd <;>
      simp only [Nat.reduceEqDiff, if_false, if_true, or_false, or_true, true_or, false_or]
  rw [e, csi_H_eq]
  exact bic_self sh.kflags kf_wrapped (by decide)

/-- C28 (amended): CSI `H`, CSI `f` and CR clear `kf_wrapped`, whatever its
value was; CSI `A`, `B`, `C`, `D`, `d`, `G` and the controls BS and TAB leave
`kflags`, and with it `kf_wrapped`, as it was. -/
theorem wrap_flag_cleared (BYTES : Nat) (sh : my_sess) (ps : List Nat) (rest : List Nat)
    (hps : ∀ x ∈ ps, isparm x = true) :
    (∀ cmd : Nat, cmd = 72 ∨ cmd = 102 →
      ∃ sh1, page_append_step BYTES sh (27 :: 91 :: (ps ++ cmd :: rest)) = .next sh1 rest ∧
        sh1.kflags &&& kf_wrapped = 0) ∧
    (∃ sh1, page_append_step BYTES sh (13 :: rest) = .next sh1 rest ∧
      sh1.kflags &&& kf_wrapped = 0) ∧
    (∀ cmd : Nat, cmd = 65 ∨ cmd = 66 ∨ cmd = 67 ∨ cmd = 68 ∨ cmd = 100 ∨ cmd = 71 →
      ∃ sh1, page_append_step BYTES sh (27 :: 91 :: (ps ++ cmd :: rest)) = .next sh1 rest ∧
        sh1.kflags = sh.kflags) ∧
    (∃ sh1, page_append_step BYTES sh (8 :: rest) = .next sh1 rest ∧ sh1.kflags = sh.kflags) ∧
    (∃ sh1, page_append_step BYTES sh (9 :: rest) = .next sh1 rest ∧ sh1.kflags = sh.kflags) := by
  refine ⟨fun cmd hc => ?_, ?_, fun cmd hc => ?_, ?_, ?_⟩
  · have h1 : isparm cmd = false := by rcases hc with h | h <;> subst h <;> rfl
    have h2 : cmd ≠ 0 := by omega
    have h3 : cmd < 60 ∨ 63 < cmd := by omega
    exact ⟨_, step_csi BYTES sh ps cmd rest hps h1 h2 h3, csi_cup_kflags _ _ _ _ _ _ _ _ hc⟩
  · refine ⟨_, step_cr BYTES sh rest, ?_⟩
    rw [ctl_cr_eq]
    exact bic_self sh.kflags kf_wrapped (by decide)
  · have h1 : isparm cmd = false := by
      rcases hc with h | h | h | h | h | h <;> subst h <;> rfl
    have h2 : cmd ≠ 0 := by omega
    have h3 : cmd < 60 ∨ 63 < cmd := by omega
    exact ⟨_, step_csi BYTES sh ps cmd rest hps h1 h2 h3, csi_move_kflags _ _ _ _ _ _ _ _ hc⟩
  · refine ⟨_, step_bs BYTES sh rest, ?_⟩
    unfold ctl_bs
    split_ifs <;> rw [B_kflags]
  · refine ⟨_, step_tab BYTES sh rest, ?_⟩
    unfold ctl_tab
    split_ifs <;> rw [B_kflags]

set_option maxRecDepth 100000 in
theorem wrap_flag_cleared_witness :
    ∃ sh1, page_append_step 1 (term_new 4 10 0 3) (27 :: 91 :: ([50, 59, 51] ++ 72 :: [])) = .next sh1 [] ∧
      sh1.kflags &&& kf_wrapped = 0 :=
  (wrap_flag_cleared 1 (term_new 4 10 0 3) [50, 59, 51] [] (by decide)).1 72 (Or.inl rfl)

set_option maxRecDepth 100000 in
/-- C28 as stated fails: on a fresh 4x10 session ten characters fill row 0 and
set `kf_wrapped` (0x40); BS, TAB, CSI `A`, `B`, `C`, `D`, `d` and `G` each
leave it set, where CR and CSI `H` clear it. -/
theorem wrap_flag_kept_counterexample :
    (page_append 1 (term_new 4 10 0 3) [48, 49, 50, 51, 52, 53, 54, 55, 56, 57]).map
      (fun r => r.1.kflags &&& kf_wrapped) = some 0x40 ∧
    (page_append 1 (term_new 4 10 0 3) [48, 49, 50, 51, 52, 53, 54, 55, 56, 57, 8]).map
      (fun r => r.1.kflags &&& kf_wrapped) = some 0x40 ∧
    (page_append 1 (term_new 4 10 0 3) [48, 49, 50, 51, 52, 53, 54, 55, 56, 57, 9]).map
      (fun r => r.1.kflags &&& kf_wrapped) = some 0x40 ∧
    (∀ cmd ∈ [65, 66, 67, 68, 100, 71],
      (page_append 1 (term_new 4 10 0 3)
        [48, 49, 50, 51, 52, 53, 54, 55, 56, 57, 27, 91, 49, cmd]).map
        (fun r => r.1.kflags &&& kf_wrapped) = some 0x40) ∧
    (page_append 1 (term_new 4 10 0 3) [48, 49, 50, 51, 52, 53, 54, 55, 56, 57, 13]).map
      (fun r => r.1.kflags &&& kf_wrapped) = some 0 ∧
    (page_append 1 (term_new 4 10 0 3) [48, 49, 50, 51, 52, 53, 54, 55, 56, 57, 27, 91, 72]).map
      (fun r => r.1.kflags &&& kf_wrapped) = some 0 := by
  decide

/-! ## C29: clamping of the cursor -/

theorem step_esc_D (BYTES : Nat) (sh : my_sess) (rest : List Nat) :
    page_append_step BYTES sh (27 :: 68 :: rest)
      = .next (B { sh with cur := sh.cur + sh.cols }) rest := by
  rw [step_ascii BYTES sh _ (by decide) (by decide)]
  unfold ctl_switch
  simp only [Nat.reduceEqDiff, if_false, if_true]
  unfold ctl_esc
  have h1 : rd (27 :: 68 :: rest) 1 = 68 := rfl
  have h2 : index [40, 41] 68 = false := by decide
  have h3 : index [72, 61, 62] 68 = false := by decide
  simp only [h1, h2, h3, Nat.reduceEqDiff, if_false, if_true, Bool.false_eq_true]
  unfold advance
  split_ifs <;> rfl

theorem csi_r_accept (sh : my_sess) (hg : Geo sh) (n a1 a2 : Int) (hn : n ≠ 0)
    (h : 1 ≤ a1 ∧ a1 < a2 ∧ a2 ≤ sh.rows) :
    csi_r sh n a1 a2 =
      { sh with scroll_top := a1 - 1, scroll_bottom := a2, cur := (a1 - 1) * sh.cols } := by
  obtain ⟨g1, g2, g3, g4, g5, g6, g7⟩ := hg
  have m1 : 0 ≤ (a1 - 1) * sh.cols := Int.mul_nonneg (by omega) (by omega)
  have m2 : (a1 - 1) * sh.cols ≤ a2 * sh.cols :=
    Int.mul_le_mul_of_nonneg_right (by omega) (by omega)
  have m3 : a2 * sh.cols ≤ sh.rows * sh.cols := Int.mul_le_mul_of_nonneg_right h.2.2 (by omega)
  unfold csi_r
  simp only [hn, if_false]
  rw [if_pos ⟨by omega, h.2.1, h.2.2⟩, B_eq]
  dsimp only
  split_ifs <;> first | rfl | omega

theorem csi_r_default (sh : my_sess) (hg : Geo sh) (hrows : 1 < sh.rows) (a1 a2 : Int) :
    csi_r sh 0 a1 a2 = { sh with scroll_top := 0, scroll_bottom := sh.rows, cur := 0 } := by
  obtain ⟨g1, g2, g3, g4, g5, g6, g7⟩ := hg
  have m3 : 0 ≤ sh.rows * sh.cols := Int.mul_nonneg (by omega) (by omega)
  have e : ((1 : Int) - 1) * sh.cols = 0 := by ring
  unfold csi_r
  simp only [if_true]
  rw [if_pos ⟨by omega, by omega, by omega⟩, B_eq, e]
  dsimp only
  split_ifs <;> first | rfl | omega

theorem csi_r_reject (sh : my_sess) (n a1 a2 : Int) (hn : n ≠ 0)
    (h : ¬ (1 ≤ a1 ∧ a1 < a2 ∧ a2 ≤ sh.rows)) : csi_r sh n a1 a2 = sh := by
  unfold csi_r
  simp only [hn, if_false]
  rw [if_neg (fun g => h ⟨g.1, g.2.1, g.2.2⟩)]

theorem step_decstbm (BYTES : Nat) (sh : my_sess) (ps : List Nat) (rest : List Nat)
    (hps : ∀ x ∈ ps, isparm x = true) :
    page_append_step BYTES sh (27 :: 91 :: (ps ++ 114 :: rest)) =
      .next (csi_r sh (sscanf3 (ps ++ 114 :: rest)).1 (sscanf3 (ps ++ 114 :: rest)).2.1
        (sscanf3 (ps ++ 114 :: rest)).2.2.1) rest := by
  rw [step_csi BYTES sh ps 114 rest hps (by decide) (by decide) (by decide)]
  unfold csi_cmd
  simp only [Nat.reduceEqDiff, if_false, if_true, or_self, or_true, true_or, or_false]

theorem parms_two (a b : Nat) : ∀ x ∈ dec a ++ 59 :: dec b, isparm x = true := by
  intro x hx
  rcases List.mem_append.mp hx with h | h
  · exact isdigit_isparm (dec_digits a x h)
  · rcases List.mem_cons.mp h with h | h
    · subst h
      rfl
    · exact isdigit_isparm (dec_digits b x h)

/-- C30 (amended): in a session with well-formed geometry and more than one
row, `ESC [ a1 ; a2 r`
with `1 ≤ a1 < a2 ≤ rows` sets `scroll_top = a1 - 1` and `scroll_bottom = a2`
and moves the cursor to the first cell of row `a1 - 1`, the top of the new
region, in both origin modes; `ESC [ r` restores the region `[0, rows)` and
moves the cursor to 0; a request that violates `1 ≤ a1 < a2 ≤ rows`, with
parameters that fit an `int`, changes nothing. -/
theorem decstbm (BYTES : Nat) (sh : my_sess) (rest : List Nat) (hg : Geo sh)
    (hrows : 1 < sh.rows) :
    (∀ a1 a2 : Nat, 1 ≤ a1 → a1 < a2 → (a2 : Int) ≤ sh.rows →
      page_append_step BYTES sh (27 :: 91 :: (dec a1 ++ 59 :: dec a2 ++ 114 :: rest)) =
        .next { sh with
          scroll_top := (a1 : Int) - 1, scroll_bottom := (a2 : Int)
          cur := ((a1 : Int) - 1) * sh.cols } rest) ∧
    page_append_step BYTES sh (27 :: 91 :: 114 :: rest) =
      .next { sh with scroll_top := 0, scroll_bottom := sh.rows, cur := 0 } rest ∧
    (∀ a1 a2 : Nat, 1 ≤ a1 → 1 ≤ a2 → a1 < 2147483648 → a2 < 2147483648 →
      ¬ (a1 < a2 ∧ (a2 : Int) ≤ sh.rows) →
      page_append_step BYTES sh (27 :: 91 :: (dec a1 ++ 59 :: dec a2 ++ 114 :: rest)) =
        .next sh rest) ∧
    (∀ n a1 a2 : Int, n ≠ 0 → ¬ (1 ≤ a1 ∧ a1 < a2 ∧ a2 ≤ sh.rows) → csi_r sh n a1 a2 = sh) := by
  have hi := geo_int hg
  have hp : ∀ a1 a2 : Nat, 1 ≤ a1 → 1 ≤ a2 → a1 < 2147483648 → a2 < 2147483648 →
      page_append_step BYTES sh (27 :: 91 :: (dec a1 ++ 59 :: dec a2 ++ 114 :: rest)) =
        .next (csi_r sh 2 a1 a2) rest := by
    intro a1 a2 h1 h2 b1 b2
    have e : dec a1 ++ 59 :: dec a2 ++ 114 :: rest = (dec a1 ++ 59 :: dec a2) ++ 114 :: rest := by
      simp
    have e2 : (dec a1 ++ 59 :: dec a2) ++ 114 :: rest = dec a1 ++ 59 :: (dec a2 ++ 114 :: rest) := by
      simp
    rw [e, step_decstbm BYTES sh _ rest (parms_two a1 a2), e2,
      sscanf3_two a1 a2 h1 h2 b1 b2 rest (by decide)]
  refine ⟨fun a1 a2 h1 h2 h3 => ?_, ?_, fun a1 a2 h1 h2 b1 b2 h3 => ?_,
    fun n a1 a2 hn h => csi_r_reject sh n a1 a2 hn h⟩
  · rw [hp a1 a2 h1 (by omega) (by omega) (by omega), csi_r_accept sh hg 2 a1 a2 (by decide) ⟨by omega, by omega, h3⟩]
  · have hs := step_decstbm BYTES sh [] rest (by simp)
    rw [List.nil_append, sscanf3_none rest (by decide)] at hs
    rw [hs]
    show Step.next (csi_r sh 0 1 1) rest = _
    rw [csi_r_default sh hg hrows]
  · rw [hp a1 a2 h1 h2 b1 b2, csi_r_reject sh 2 a1 a2 (by decide) (by omega)]

set_option maxRecDepth 100000 in
theorem decstbm_witness :
    page_append_step 1 (term_new 4 10 0 3) (27 :: 91 :: (dec 2 ++ 59 :: dec 3 ++ 114 :: [])) =
      .next { term_new 4 10 0 3 with
        scroll_top := ((2 : Nat) : Int) - 1, scroll_bottom := ((3 : Nat) : Int)
        cur := (((2 : Nat) : Int) - 1) * (term_new 4 10 0 3).cols } [] :=
  (decstbm 1 (term_new 4 10 0 3) [] (term_new_wf 4 10 0 3).1 (by decide)).1 2 3 (by decide) (by decide)
    (by decide)

set_option maxRecDepth 100000 in
/-- C30 as stated fails: on a fresh 4x10 session (origin mode off)
`ESC [ 2 ; 3 r` leaves the cursor at offset 10, the first cell of row 1, not
at offset 0.  And `ESC [ 1 ; 4294967299 r`, a request with `a2 > rows`, is
accepted as `1 ; 3`, the second parameter being read as 3: the region becomes
`[0, 3)`. -/
theorem decstbm_home_counterexample :
    (page_append 1 (term_new 4 10 0 3) [27, 91, 50, 59, 51, 114]).map
      (fun r => (r.1.originmode, r.1.scroll_top, r.1.scroll_bottom, r.1.cur))
      = some (0, 1, 3, 10) ∧
    (page_append 1 (term_new 4 10 0 3)
      [27, 91, 49, 59, 52, 50, 57, 52, 57, 54, 55, 50, 57, 57, 114]).map
      (fun r => (r.1.rows, r.1.scroll_top, r.1.scroll_bottom)) = some (4, 0, 3) := by
  decide

/-! ## C23: loading the key map -/

theorem seq_tokens_succ (fuel : Nat) (st : lp_keys) (s : List Nat) :
    seq_tokens (fuel + 1) st s =
      if strcspn s [32, 9] = 0 ∧ rd s 0 = 0 then some st
      else if strcspn s [32, 9] = 0 then seq_tokens fuel st (s.drop 1)
      else
        seq_tokens fuel
          { e := st.e ++ [{ st.next with
              name := if rd s 0 = 92 then s.drop 1 else s
              namelen := (if rd s 0 = 92 then strcspn s [32, 9] - 1 else strcspn s [32, 9]) % 256 }]
            next := { st.next with
              name := if rd s 0 = 92 then s.drop 1 else s
              namelen := (if rd s 0 = 92 then strcspn s [32, 9] - 1 else strcspn s [32, 9]) % 256
              code := (st.next.code + 1) % 256 }
            oob := st.oob || decide (255 ≤ st.e.length) }
          ((if rd s 0 = 92 then s.drop 1 else s).drop
            (if rd s 0 = 92 then strcspn s [32, 9] - 1 else strcspn s [32, 9])) := rfl

theorem seq_tokens_total (fuel : Nat) : ∀ (st : lp_keys) (s : List Nat), s.length < fuel →
    ∃ st1, seq_tokens fuel st s = some st1 := by
  induction fuel with
  | zero => intro st s h; omega
  | succ fuel ih =>
    intro st s h
    have hl : strcspn s [32, 9] ≤ s.length := by
      unfold strcspn
      exact List.Sublist.length_le (List.takeWhile_sublist _)
    rw [seq_tokens_succ]
    split_ifs with h1 h2 h3
    · exact ⟨st, rfl⟩
    · apply ih
      have hne : s ≠ [] := by
        intro e
        subst e
        exact h1 ⟨h2, rfl⟩
      have := List.length_pos.mpr hne
      rw [List.length_drop]
      omega
    · apply ih
      rw [List.length_drop, List.length_drop]
      omega
    · apply ih
      rw [List.length_drop]
      omega

theorem build_entries_total (ks : List entry) : ∀ st : lp_keys,
    ∃ st1, build_entries st ks = some st1 := by
  induction ks with
  | nil => exact fun st => ⟨st, rfl⟩
  | cons k ks ih =>
    intro st
    obtain ⟨st1, e⟩ : ∃ st1, build_entry st k = some st1 := by
      unfold build_entry
      exact seq_tokens_total _ _ _ (by omega)
    obtain ⟨st2, e2⟩ := ih st1
    refine ⟨st2, ?_⟩
    unfold build_entries
    rw [e]
    exact e2

/-! ## C24: the collapse of duplicate keys -/

set_option maxRecDepth 100000 in
/-- C24 (the code at the failing input): with `65 = a b` in the section
`inkeys` and `s65 = a b` in the section of the platform, the table holds `a`
and `b` as SEND (codes 65, 66) and as SHIFT.  The first sort gives `a`/0,
`a`/3, `b`/0, `b`/3 and the first pass marks the second and the fourth with
type 255; the second pass overwrites the marked entry at index 1 with the
last entry, which is marked too, and ends before looking at it again.  The
final table has three entries: `a`/0, and `b` twice, once with the removal
marker 255. -/
theorem collapse_keeps_marked :
    (load_keys (some [{ key := [54, 53], value := [97, 32, 98] }])
        (some [{ key := [115, 54, 53], value := [97, 32, 98] }])).map
      (fun st => st.e.map (fun e => (key_name e, e.type, e.code)))
      = some [([97], 0, 65), ([98], 0, 66), ([97], 3, 65), ([98], 3, 66)] ∧
    (load_keys (some [{ key := [54, 53], value := [97, 32, 98] }])
        (some [{ key := [115, 54, 53], value := [97, 32, 98] }])).map
      (fun st => (qsort ecmp1 st.e).map (fun e => (key_name e, e.type)))
      = some [([97], 0), ([97], 3), ([98], 0), ([98], 3)] ∧
    ((load_keys (some [{ key := [54, 53], value := [97, 32, 98] }])
        (some [{ key := [115, 54, 53], value := [97, 32, 98] }])).bind
      (fun st => sort_keys st.e)).map (fun l => l.map (fun e => (key_name e, e.type, e.code)))
      = some [([97], 0, 65), ([98], 255, 66), ([98], 0, 66)] := by
  decide

/-! ## C31: the scroll region and a store in front of the page -/

set_option maxRecDepth 100000 in
/-- C31 (the code at the failing input): on a fresh 8x10 session in 8-bit mode
a space moves the cursor to 1, and `ESC [ 2147483642 B` adds `cols * a1`,
which is -60 in 32 bits; the cursor becomes -59, the case only tests
`cur >= pagelen`, and no access outside the arrays has occurred so far.  The
next character `A` is not a line feed, the loop in front of the store does
not run, and the store goes to `page[-59]` (the flag `oob` is raised).  For a
session name of two characters that byte is the first byte of the field
`scroll_top` of the session record, which comes to hold 65 on a little-endian
target, above `scroll_bottom`. -/
theorem store_at_scroll_top :
    (page_append 1 (term_new 8 10 0 3)
      [32, 27, 91, 50, 49, 52, 55, 52, 56, 51, 54, 52, 50, 66]).map
      (fun r => (r.1.cur, r.1.oob, r.1.scroll_top, r.1.scroll_bottom)) = some (-59, false, 0, 8) ∧
    (page_append 1 (term_new 8 10 0 3)
      [32, 27, 91, 50, 49, 52, 55, 52, 56, 51, 54, 52, 50, 66, 65]).map
      (fun r => (r.1.cur, r.1.oob)) = some (-58, true) ∧
    page_byte 3 (-59) = offsetof_scroll_top := by
  decide

/-! ## C32: insert lines -/

/-- The cells of an array after the move and the erasure of `page_scrolldown`. -/
theorem scrolldown_getD (m : List Nat) (P C Lr : Int) (v : Nat) (i : Nat) (hi : i < m.length)
    (hC : 0 < C) :
    (fill (move m m (P + C) P Lr) P C v).getD i 0 =
      if (i : Int) < P then m.getD i 0
      else if (i : Int) < P + C then v
      else if (i : Int) < P + C + Lr then m.getD (i - C.toNat) 0
      else m.getD i 0 := by
  rw [fill_getD, move_length, move_getD]
  by_cases h1 : (i : Int) < P
  · rw [if_neg (by omega), if_neg (by omega), if_pos h1]
  · by_cases h2 : (i : Int) < P + C
    · rw [if_pos ⟨hi, by omega, h2⟩, if_neg h1, if_pos h2]
    · by_cases h3 : (i : Int) < P + C + Lr
      · rw [if_neg (by omega), if_pos ⟨hi, by omega, by omega⟩, if_neg h1, if_neg h2, if_pos h3]
        congr 1
        omega
      · rw [if_neg (by omega), if_neg (by omega), if_neg h1, if_neg h2, if_neg h3]

theorem page_scrolldown_page (sh : my_sess) :
    (page_scrolldown sh).page =
      fill (move sh.page sh.page (sh.scroll_top * sh.cols + sh.cols) (sh.scroll_top * sh.cols)
        ((sh.scroll_bottom - sh.scroll_top - 1) * sh.cols)) (sh.scroll_top * sh.cols) sh.cols 0x20 ∧
    (page_scrolldown sh).attributes =
      fill (move sh.attributes sh.attributes (sh.scroll_top * sh.cols + sh.cols)
        (sh.scroll_top * sh.cols) ((sh.scroll_bottom - sh.scroll_top - 1) * sh.cols))
        (sh.scroll_top * sh.cols) sh.cols sh.cur_attr :=
  ⟨rfl, rfl⟩

theorem page_scrolldown_cell (sh : my_sess) (g1 : 0 < sh.cols) (gt : 0 ≤ sh.scroll_top)
    (gb : sh.scroll_top < sh.scroll_bottom)
    (hp : (sh.page.length : Int) = sh.rows * sh.cols)
    (ha : (sh.attributes.length : Int) = sh.rows * sh.cols) (r c : Int)
    (hr : 0 ≤ r ∧ r < sh.rows) (hc : 0 ≤ c ∧ c < sh.cols) :
    cell (page_scrolldown sh) r c =
      (if r < sh.scroll_top then cell sh r c else if r < sh.scroll_top + 1 then 0x20
       else if r < sh.scroll_bottom then cell sh (r - 1) c else cell sh r c) ∧
    acell (page_scrolldown sh) r c =
      (if r < sh.scroll_top then acell sh r c else if r < sh.scroll_top + 1 then sh.cur_attr
       else if r < sh.scroll_bottom then acell sh (r - 1) c else acell sh r c) := by
  have c1 : (page_scrolldown sh).cols = sh.cols := rfl
  have hrc : 0 ≤ r * sh.cols := Int.mul_nonneg hr.1 (by omega)
  have hrows : (r + 1) * sh.cols ≤ sh.rows * sh.cols :=
    Int.mul_le_mul_of_nonneg_right (by omega) (by omega)
  have e1 : (r + 1) * sh.cols = r * sh.cols + sh.cols := by ring
  have e3 : (r - 1) * sh.cols = r * sh.cols - sh.cols := by ring
  have hL : 0 ≤ (sh.scroll_bottom - sh.scroll_top - 1) * sh.cols :=
    Int.mul_nonneg (by omega) (by omega)
  have e2 : sh.scroll_top * sh.cols + sh.cols + (sh.scroll_bottom - sh.scroll_top - 1) * sh.cols
      = sh.scroll_bottom * sh.cols := by ring
  have e4 : (sh.scroll_top + 1) * sh.cols = sh.scroll_top * sh.cols + sh.cols := by ring
  have hidx : ((r * sh.cols + c).toNat : Int) = r * sh.cols + c := Int.toNat_of_nonneg (by omega)
  have m1 : r < sh.scroll_top → (r + 1) * sh.cols ≤ sh.scroll_top * sh.cols := fun h =>
    Int.mul_le_mul_of_nonneg_right (by omega) (by omega)
  have m2 : ¬ r < sh.scroll_top → sh.scroll_top * sh.cols ≤ r * sh.cols := fun h =>
    Int.mul_le_mul_of_nonneg_right (by omega) (by omega)
  have m3 : r < sh.scroll_top + 1 → (r + 1) * sh.cols ≤ (sh.scroll_top + 1) * sh.cols :=
    fun h => Int.mul_le_mul_of_nonneg_right (by omega) (by omega)
  have m4 : ¬ r < sh.scroll_top + 1 → (sh.scroll_top + 1) * sh.cols ≤ r * sh.cols := fun h =>
    Int.mul_le_mul_of_nonneg_right (by omega) (by omega)
  have m5 : r < sh.scroll_bottom → (r + 1) * sh.cols ≤ sh.scroll_bottom * sh.cols := fun h =>
    Int.mul_le_mul_of_nonneg_right (by omega) (by omega)
  have m6 : ¬ r < sh.scroll_bottom → sh.scroll_bottom * sh.cols ≤ r * sh.cols := fun h =>
    Int.mul_le_mul_of_nonneg_right (by omega) (by omega)
  have hsub : ¬ r < sh.scroll_top + 1 →
      (r * sh.cols + c).toNat - sh.cols.toNat = ((r - 1) * sh.cols + c).toNat := fun h => by
    have := m4 h
    have hP : 0 ≤ sh.scroll_top * sh.cols := Int.mul_nonneg gt (by omega)
    omega
  unfold cell acell
  rw [c1, (page_scrolldown_page sh).1, (page_scrolldown_page sh).2,
    scrolldown_getD _ _ _ _ _ _ (by omega) g1,
    scrolldown_getD _ _ _ _ _ _ (by omega) g1, hidx, e2]
  constructor
  · by_cases h1 : r < sh.scroll_top
    · rw [if_pos (by have := m1 h1; omega), if_pos h1]
    · rw [if_neg (by have := m2 h1; omega), if_neg h1]
      by_cases h2 : r < sh.scroll_top + 1
      · rw [if_pos (by have := m3 h2; omega), if_pos h2]
      · rw [if_neg (by have := m4 h2; omega), if_neg h2]
        by_cases h3 : r < sh.scroll_bottom
        · rw [if_pos (by have := m5 h3; omega), if_pos h3, hsub h2]
        · rw [if_neg (by have := m6 h3; omega), if_neg h3]
  · by_cases h1 : r < sh.scroll_top
    · rw [if_pos (by have := m1 h1; omega), if_pos h1]
    · rw [if_neg (by have := m2 h1; omega), if_neg h1]
      by_cases h2 : r < sh.scroll_top + 1
      · rw [if_pos (by have := m3 h2; omega), if_pos h2]
      · rw [if_neg (by have := m4 h2; omega), if_neg h2]
        by_cases h3 : r < sh.scroll_bottom
        · rw [if_pos (by have := m5 h3; omega), if_pos h3, hsub h2]
        · rw [if_neg (by have := m6 h3; omega), if_neg h3]

theorem il_loop_succ (n : Nat) (sh : my_sess) :
    il_loop (n + 1) sh =
      if sh.scroll_top + 1 < sh.scroll_bottom then
        il_loop n { page_scrolldown sh with scroll_top := sh.scroll_top + 1 }
      else sh :=
  rfl

/-- The cells after the loop of case `L`, entered with `scroll_top` at the row
of the cursor: `min n (scroll_bottom - 1 - scroll_top)` rounds are made. -/
theorem il_loop_cells (n : Nat) (sh : my_sess) (g1 : 0 < sh.cols) (gt : 0 ≤ sh.scroll_top)
    (gb : sh.scroll_top < sh.scroll_bottom) (gr : sh.scroll_bottom ≤ sh.rows)
    (hp : (sh.page.length : Int) = sh.rows * sh.cols)
    (ha : (sh.attributes.length : Int) = sh.rows * sh.cols) :
    ∀ r c : Int, 0 ≤ r ∧ r < sh.rows → 0 ≤ c ∧ c < sh.cols →
      cell (il_loop n sh) r c =
        (if r < sh.scroll_top then cell sh r c
         else if r < sh.scroll_top + min (n : Int) (sh.scroll_bottom - 1 - sh.scroll_top) then 0x20
         else if r < sh.scroll_bottom then
           cell sh (r - min (n : Int) (sh.scroll_bottom - 1 - sh.scroll_top)) c
         else cell sh r c) ∧
      acell (il_loop n sh) r c =
        (if r < sh.scroll_top then acell sh r c
         else if r < sh.scroll_top + min (n : Int) (sh.scroll_bottom - 1 - sh.scroll_top) then
           sh.cur_attr
         else if r < sh.scroll_bottom then
           acell sh (r - min (n : Int) (sh.scroll_bottom - 1 - sh.scroll_top)) c
         else acell sh r c) := by
  induction n generalizing sh with
  | zero =>
    intro r c hr hc
    have e : min ((0 : Nat) : Int) (sh.scroll_bottom - 1 - sh.scroll_top) = 0 := by
      rw [min_eq_left (by omega)]
      rfl
    rw [e]
    show cell sh r c = _ ∧ acell sh r c = _
    constructor <;> split_ifs <;> first | rfl | omega | simp
  | succ n ih =>
    intro r c hr hc
    rw [il_loop_succ]
    by_cases h : sh.scroll_top + 1 < sh.scroll_bottom
    · rw [if_pos h]
      have e : min ((n + 1 : Nat) : Int) (sh.scroll_bottom - 1 - sh.scroll_top)
          = min (n : Int) (sh.scroll_bottom - 1 - (sh.scroll_top + 1)) + 1 := by
        rcases le_total (n : Int) (sh.scroll_bottom - 1 - (sh.scroll_top + 1)) with h1 | h1
        · rw [min_eq_left h1, min_eq_left (by push_cast; omega)]
          push_cast
          rfl
        · rw [min_eq_right h1, min_eq_right (by push_cast; omega)]
          omega
      have hm0 : 0 ≤ min (n : Int) (sh.scroll_bottom - 1 - (sh.scroll_top + 1)) :=
        le_min (by omega) (by omega)
      have hm1 : min (n : Int) (sh.scroll_bottom - 1 - (sh.scroll_top + 1))
          ≤ sh.scroll_bottom - 1 - (sh.scroll_top + 1) := min_le_right _ _
      rw [e]
      have key : ∀ sh1 : my_sess,
          sh1 = { page_scrolldown sh with scroll_top := sh.scroll_top + 1 } →
          cell (il_loop n sh1) r c =
            (if r < sh.scroll_top then cell sh r c
             else if r < sh.scroll_top +
                 (min (n : Int) (sh.scroll_bottom - 1 - (sh.scroll_top + 1)) + 1) then 0x20
             else if r < sh.scroll_bottom then
               cell sh (r - (min (n : Int) (sh.scroll_bottom - 1 - (sh.scroll_top + 1)) + 1)) c
             else cell sh r c) ∧
          acell (il_loop n sh1) r c =
            (if r < sh.scroll_top then acell sh r c
             else if r < sh.scroll_top +
                 (min (n : Int) (sh.scroll_bottom - 1 - (sh.scroll_top + 1)) + 1) then sh.cur_attr
             else if r < sh.scroll_bottom then
               acell sh (r - (min (n : Int) (sh.scroll_bottom - 1 - (sh.scroll_top + 1)) + 1)) c
             else acell sh r c) := by
        intro sh1 hsh1
        have t1 : sh1.scroll_top = sh.scroll_top + 1 := by rw [hsh1]
        have t2 : sh1.scroll_bottom = sh.scroll_bottom := by rw [hsh1]; rfl
        have t3 : sh1.cur_attr = sh.cur_attr := by rw [hsh1]; rfl
        have t4 : sh1.cols = sh.cols := by rw [hsh1]; rfl
        have t5 : sh1.rows = sh.rows := by rw [hsh1]; rfl
        have t6 : sh1.page = (page_scrolldown sh).page := by rw [hsh1]
        have t7 : sh1.attributes = (page_scrolldown sh).attributes := by rw [hsh1]
        have k1 : ∀ x : Int, cell sh1 x c = cell (page_scrolldown sh) x c := by
          intro x
          unfold cell
          rw [t6, t4]
          rfl
        have k2 : ∀ x : Int, acell sh1 x c = acell (page_scrolldown sh) x c := by
          intro x
          unfold acell
          rw [t7, t4]
          rfl
        obtain ⟨i1, i2⟩ := ih sh1 (by rw [t4]; exact g1) (by rw [t1]; omega) (by rw [t1, t2]; exact h)
          (by rw [t2, t5]; exact gr)
          (by rw [t6, t5, t4, (page_scrolldown_page sh).1, fill_length, move_length]; exact hp)
          (by rw [t7, t5, t4, (page_scrolldown_page sh).2, fill_length, move_length]; exact ha)
          r c (by rw [t5]; exact hr) (by rw [t4]; exact hc)
        rw [i1, i2, t1, t2, t3, k1, k1, k2, k2]
        clear i1 i2 ih
        generalize min (n : Int) (sh.scroll_bottom - 1 - (sh.scroll_top + 1)) = m at hm0 hm1
        obtain ⟨p1, p2⟩ := page_scrolldown_cell sh g1 gt gb hp ha r c hr hc
        constructor
        · by_cases a1 : r < sh.scroll_top + 1
          · rw [if_pos a1, p1]
            by_cases a2 : r < sh.scroll_top
            · rw [if_pos a2, if_pos a2]
            · rw [if_neg a2, if_pos a1, if_neg a2, if_pos (by omega)]
          · rw [if_neg a1, if_neg (show ¬ r < sh.scroll_top by omega)]
            by_cases a3 : r < sh.scroll_top + 1 + m
            · rw [if_pos a3, if_pos (by omega)]
            · rw [if_neg a3, if_neg (show ¬ r < sh.scroll_top + (m + 1) by omega)]
              by_cases a4 : r < sh.scroll_bottom
              · rw [if_pos a4, if_pos a4]
                obtain ⟨q1, -⟩ := page_scrolldown_cell sh g1 gt gb hp ha (r - m) c
                  (by omega) hc
                rw [q1, if_neg (show ¬ r - m < sh.scroll_top by omega),
                  if_neg (show ¬ r - m < sh.scroll_top + 1 by omega),
                  if_pos (show r - m < sh.scroll_bottom by omega)]
                congr 1
                omega
              · rw [if_neg a4, if_neg a4, p1, if_neg (show ¬ r < sh.scroll_top by omega),
                  if_neg a1, if_neg a4]
        · by_cases a1 : r < sh.scroll_top + 1
          · rw [if_pos a1, p2]
            by_cases a2 : r < sh.scroll_top
            · rw [if_pos a2, if_pos a2]
            · rw [if_neg a2, if_pos a1, if_neg a2, if_pos (by omega)]
          · rw [if_neg a1, if_neg (show ¬ r < sh.scroll_top by omega)]
            by_cases a3 : r < sh.scroll_top + 1 + m
            · rw [if_pos a3, if_pos (by omega)]
            · rw [if_neg a3, if_neg (show ¬ r < sh.scroll_top + (m + 1) by omega)]
              by_cases a4 : r < sh.scroll_bottom
              · rw [if_pos a4, if_pos a4]
                obtain ⟨-, q2⟩ := page_scrolldown_cell sh g1 gt gb hp ha (r - m) c
                  (by omega) hc
                rw [q2, if_neg (show ¬ r - m < sh.scroll_top by omega),
                  if_neg (show ¬ r - m < sh.scroll_top + 1 by omega),
                  if_pos (show r - m < sh.scroll_bottom by omega)]
                congr 1
                omega
              · rw [if_neg a4, if_neg a4, p2, if_neg (show ¬ r < sh.scroll_top by omega),
                  if_neg a1, if_neg a4]
      exact key _ rfl
    · rw [if_neg h]
      have e : min ((n + 1 : Nat) : Int) (sh.scroll_bottom - 1 - sh.scroll_top) = 0 := by
        rw [min_eq_right (by push_cast; omega)]
        omega
      rw [e]
      constructor <;> split_ifs <;> first | rfl | omega | simp

theorem tdiv_row {r c C : Int} (hr : 0 ≤ r) (hc : 0 ≤ c) (hC : c < C) :
    Int.tdiv (r * C + c) C = r := by
  have h0 : 0 ≤ r * C + c := by
    have := Int.mul_nonneg hr (by omega : (0 : Int) ≤ C)
    omega
  rw [Int.tdiv_eq_ediv h0 (by omega), Int.add_comm, Int.add_mul_ediv_right _ _ (by omega),
    Int.ediv_eq_zero_of_lt hc hC]
  omega

theorem csi_L_cells (sh : my_sess) (row col : Int) (n : Nat) (hg : Geo sh) (hs : Shape sh)
    (hrow : sh.scroll_top ≤ row ∧ row < sh.scroll_bottom) (hc : 0 ≤ col ∧ col < sh.cols)
    (hcur : sh.cur = row * sh.cols + col) :
    ∀ r c : Int, 0 ≤ r ∧ r < sh.rows → 0 ≤ c ∧ c < sh.cols →
      cell (csi_L sh n) r c =
        (if r < row then cell sh r c
         else if r < row + min (n : Int) (sh.scroll_bottom - 1 - row) then 0x20
         else if r < sh.scroll_bottom then cell sh (r - min (n : Int) (sh.scroll_bottom - 1 - row)) c
         else cell sh r c) ∧
      acell (csi_L sh n) r c =
        (if r < row then acell sh r c
         else if r < row + min (n : Int) (sh.scroll_bottom - 1 - row) then sh.cur_attr
         else if r < sh.scroll_bottom then acell sh (r - min (n : Int) (sh.scroll_bottom - 1 - row)) c
         else acell sh r c) := by
  obtain ⟨g1, g2, g3, g4, g5, g6, -⟩ := hg
  obtain ⟨s1, s2⟩ := hs
  intro r c hr hcc
  have h1 : sh.scroll_top * sh.cols ≤ row * sh.cols :=
    Int.mul_le_mul_of_nonneg_right hrow.1 (by omega)
  obtain ⟨h2, -⟩ := row_end hrow.2 g1 hc.2
  have hd : Int.tdiv sh.cur sh.cols = row := by
    rw [hcur]
    exact tdiv_row (by omega) hc.1 hc.2
  unfold csi_L
  rw [if_pos ⟨by omega, by omega⟩]
  dsimp only
  rw [hd, Int.toNat_ofNat]
  have key : ∀ sh0 : my_sess, sh0 = { sh with scroll_top := row } →
      cell { il_loop n sh0 with scroll_top := sh.scroll_top } r c =
        (if r < row then cell sh r c
         else if r < row + min (n : Int) (sh.scroll_bottom - 1 - row) then 0x20
         else if r < sh.scroll_bottom then cell sh (r - min (n : Int) (sh.scroll_bottom - 1 - row)) c
         else cell sh r c) ∧
      acell { il_loop n sh0 with scroll_top := sh.scroll_top } r c =
        (if r < row then acell sh r c
         else if r < row + min (n : Int) (sh.scroll_bottom - 1 - row) then sh.cur_attr
         else if r < sh.scroll_bottom then acell sh (r - min (n : Int) (sh.scroll_bottom - 1 - row)) c
         else acell sh r c) := by
    intro sh0 e0
    have t1 : sh0.scroll_top = row := by rw [e0]
    have t2 : sh0.scroll_bottom = sh.scroll_bottom := by rw [e0]
    have t3 : sh0.cur_attr = sh.cur_attr := by rw [e0]
    have t4 : sh0.cols = sh.cols := by rw [e0]
    have t5 : sh0.rows = sh.rows := by rw [e0]
    have t6 : sh0.page = sh.page := by rw [e0]
    have t7 : sh0.attributes = sh.attributes := by rw [e0]
    have k1 : ∀ x : Int, cell sh0 x c = cell sh x c := by
      intro x
      unfold cell
      rw [t6, t4]
    have k2 : ∀ x : Int, acell sh0 x c = acell sh x c := by
      intro x
      unfold acell
      rw [t7, t4]
    obtain ⟨i1, i2⟩ := il_loop_cells n sh0 (by rw [t4]; exact g1) (by rw [t1]; omega)
      (by rw [t1, t2]; exact hrow.2) (by rw [t2, t5]; exact g6)
      (by rw [t6, t5, t4, s1, g3]) (by rw [t7, t5, t4, s2, g3])
      r c (by rw [t5]; exact hr) (by rw [t4]; exact hcc)
    have j1 : cell { il_loop n sh0 with scroll_top := sh.scroll_top } r c
        = cell (il_loop n sh0) r c := rfl
    have j2 : acell { il_loop n sh0 with scroll_top := sh.scroll_top } r c
        = acell (il_loop n sh0) r c := rfl
    rw [j1, j2, i1, i2, t1, t2, t3, k1, k1, k2, k2]
    exact ⟨rfl, rfl⟩
  exact key _ rfl

/-- C32 (amended): with the cursor at row `row` inside the scroll region
`[scroll_top, scroll_bottom)`, `CSI n L` with `n ≥ 1`, an `n` that fits an
`int`, inserts
`m = min n (scroll_bottom - 1 - row)` blank lines at row `row`: rows `row` to
`row + m - 1` become blank with `cur_attr`, every row `r` with
`row + m ≤ r < scroll_bottom` holds what row `r - m` held, the rows outside
`[row, scroll_bottom)` keep their cells, and the control state (cursor,
`scroll_top`, `scroll_bottom`, flags) is unchanged.  The loop stops while one
row of the region is left below the cursor: with the cursor on the last row
of the region nothing is inserted, and the last row is never blanked unless
it is pushed out. -/
theorem insert_lines (BYTES : Nat) (sh : my_sess) (row col : Int) (n : Nat) (rest : List Nat)
    (hg : Geo sh) (hs : Shape sh)
    (hrow : sh.scroll_top ≤ row ∧ row < sh.scroll_bottom) (hc : 0 ≤ col ∧ col < sh.cols)
    (hcur : sh.cur = row * sh.cols + col) (hn : 1 ≤ n) (hb : n < 2147483648) :
    ∃ sh1, page_append_step BYTES sh (27 :: 91 :: (dec n ++ 76 :: rest)) = .next sh1 rest ∧
      SameCtl sh sh1 ∧
      ∀ r c : Int, 0 ≤ r ∧ r < sh.rows → 0 ≤ c ∧ c < sh.cols →
        (r < row ∨ sh.scroll_bottom ≤ r →
          cell sh1 r c = cell sh r c ∧ acell sh1 r c = acell sh r c) ∧
        (row ≤ r ∧ r < row + min (n : Int) (sh.scroll_bottom - 1 - row) →
          cell sh1 r c = 0x20 ∧ acell sh1 r c = sh.cur_attr) ∧
        (row + min (n : Int) (sh.scroll_bottom - 1 - row) ≤ r ∧ r < sh.scroll_bottom →
          cell sh1 r c = cell sh (r - min (n : Int) (sh.scroll_bottom - 1 - row)) c ∧
          acell sh1 r c = acell sh (r - min (n : Int) (sh.scroll_bottom - 1 - row)) c) := by
  have hstep : page_append_step BYTES sh (27 :: 91 :: (dec n ++ 76 :: rest)) =
      .next (csi_L sh n) rest := by
    rw [step_csi BYTES sh (dec n) 76 rest (fun x hx => isdigit_isparm (dec_digits n x hx))
      (by decide) (by decide) (by decide), sscanf3_one n hn hb rest (by decide)]
    rfl
  refine ⟨csi_L sh n, hstep, csi_L_ctl sh n, fun r c hr hcc => ?_⟩
  obtain ⟨p1, p2⟩ := csi_L_cells sh row col n hg hs hrow hc hcur r c hr hcc
  have hm0 : 0 ≤ min (n : Int) (sh.scroll_bottom - 1 - row) := le_min (by omega) (by omega)
  have hm1 : min (n : Int) (sh.scroll_bottom - 1 - row) ≤ sh.scroll_bottom - 1 - row :=
    min_le_right _ _
  rw [p1, p2]
  generalize min (n : Int) (sh.scroll_bottom - 1 - row) = m at hm0 hm1
  refine ⟨fun h => ?_, fun h => ?_, fun h => ?_⟩
  · rcases h with h | h
    · rw [if_pos h, if_pos h]
      exact ⟨rfl, rfl⟩
    · rw [if_neg (show ¬ r < row by omega), if_neg (show ¬ r < row + m by omega),
        if_neg (show ¬ r < sh.scroll_bottom by omega), if_neg (show ¬ r < row by omega),
        if_neg (show ¬ r < row + m by omega), if_neg (show ¬ r < sh.scroll_bottom by omega)]
      exact ⟨rfl, rfl⟩
  · rw [if_neg (show ¬ r < row by omega), if_pos h.2, if_neg (show ¬ r < row by omega), if_pos h.2]
    exact ⟨rfl, rfl⟩
  · rw [if_neg (show ¬ r < row by omega), if_neg (show ¬ r < row + m by omega), if_pos h.2,
      if_neg (show ¬ r < row by omega), if_neg (show ¬ r < row + m by omega), if_pos h.2]
    exact ⟨rfl, rfl⟩

set_option maxRecDepth 100000 in
theorem insert_lines_witness :
    ∃ sh1, page_append_step 1 (term_new 4 10 0 3) (27 :: 91 :: (dec 2 ++ 76 :: [])) = .next sh1 [] ∧
      SameCtl (term_new 4 10 0 3) sh1 ∧
      ∀ r c : Int, 0 ≤ r ∧ r < (term_new 4 10 0 3).rows → 0 ≤ c ∧ c < (term_new 4 10 0 3).cols →
        (r < 0 ∨ (term_new 4 10 0 3).scroll_bottom ≤ r →
          cell sh1 r c = cell (term_new 4 10 0 3) r c ∧
          acell sh1 r c = acell (term_new 4 10 0 3) r c) ∧
        (0 ≤ r ∧ r < 0 + min ((2 : Nat) : Int) ((term_new 4 10 0 3).scroll_bottom - 1 - 0) →
          cell sh1 r c = 0x20 ∧ acell sh1 r c = (term_new 4 10 0 3).cur_attr) ∧
        (0 + min ((2 : Nat) : Int) ((term_new 4 10 0 3).scroll_bottom - 1 - 0) ≤ r ∧
            r < (term_new 4 10 0 3).scroll_bottom →
          cell sh1 r c =
            cell (term_new 4 10 0 3) (r - min ((2 : Nat) : Int) ((term_new 4 10 0 3).scroll_bottom - 1 - 0)) c ∧
          acell sh1 r c =
            acell (term_new 4 10 0 3)
              (r - min ((2 : Nat) : Int) ((term_new 4 10 0 3).scroll_bottom - 1 - 0)) c) :=
  insert_lines 1 (term_new 4 10 0 3) 0 0 2 [] (term_new_wf 4 10 0 3).1 (term_new_shape 4 10 0 3)
    (by decide) (by decide) (by decide) (by decide) (by decide)

set_option maxRecDepth 1000000 in
/-- C32 as stated fails: on a fresh 4x10 session (region `[0, 4)`), with `A` in
the first cell of the last row and the cursor on that row, `ESC [ 1 L` leaves
the `A` where it is (the claim blanks the row); with
`B` in the first cell of row 2 and the cursor on row 2, `ESC [ 5 L` blanks row
2 and moves the `B` to row 3 (the claim blanks rows 2 and 3).  With `C` in the
first cell of row 0 and the cursor on row 0, `ESC [ 4294967297 L` inserts one
line, the parameter being read as 1: the `C` is found on row 1, and rows 2 and
3 keep their cells. -/
theorem insert_lines_last_row_counterexample :
    (page_append 1 (term_new 4 10 0 3) [27, 91, 52, 59, 49, 72, 65]).map
      (fun r => (r.1.cur, r.1.scroll_top, r.1.scroll_bottom, r.1.page.getD 30 0))
      = some (31, 0, 4, 65) ∧
    (page_append 1 (term_new 4 10 0 3) [27, 91, 52, 59, 49, 72, 65, 27, 91, 49, 76]).map
      (fun r => (r.1.cur, r.1.page.getD 30 0)) = some (31, 65) ∧
    (page_append 1 (term_new 4 10 0 3) [27, 91, 51, 59, 49, 72, 66, 27, 91, 53, 76]).map
      (fun r => (r.1.cur, r.1.page.getD 20 0, r.1.page.getD 30 0)) = some (21, 32, 66) ∧
    (page_append 1 (term_new 4 10 0 3)
      [67, 27, 91, 52, 50, 57, 52, 57, 54, 55, 50, 57, 55, 76]).map
      (fun r => (r.1.cur, r.1.page.getD 0 0, r.1.page.getD 10 0, r.1.page.getD 20 0,
        r.1.page.getD 30 0)) = some (1, 32, 67, 32, 32) := by
  decide

/-! ## C33: relative moves of the cursor -/

theorem sscanf3_zero {c : Nat} (t : List Nat) (hc : isparm c = false) :
    sscanf3 (48 :: c :: t) = (1, 0, 1, 1) := by
  have hd : isdigit c = false := by
    cases h : isdigit c with
    | false => rfl
    | true => rw [isdigit_isparm h] at hc; cases hc
  have h59 : c ≠ 59 := by
    intro e
    subst e
    revert hc
    decide
  have e : scan_int (48 :: c :: t) = some (0, c :: t) := by
    unfold scan_int
    have h48 : isdigit 48 = true := by decide
    simp [List.takeWhile_cons, List.dropWhile_cons, hd, h48, wrap]
  unfold sscanf3
  rw [e]
  simp [rd, h59]

theorem move_parm (n : Nat) (ps : List Nat)
    (hps : (1 ≤ n ∧ ps = dec n) ∨ (n = 1 ∧ (ps = [] ∨ ps = [48]))) (hn : n < 2147483648)
    {c : Nat} (t : List Nat) (hc : isparm c = false) :
    (∀ x ∈ ps, isparm x = true) ∧
    (if (sscanf3 (ps ++ c :: t)).2.1 = 0 then 1 else (sscanf3 (ps ++ c :: t)).2.1) = (n : Int) := by
  have hd : isdigit c = false := by
    cases h : isdigit c with
    | false => rfl
    | true => rw [isdigit_isparm h] at hc; cases hc
  rcases hps with ⟨h1, e⟩ | ⟨h1, e | e⟩
  · subst e
    refine ⟨fun x hx => isdigit_isparm (dec_digits n x hx), ?_⟩
    rw [sscanf3_one n h1 hn t hc]
    dsimp only
    rw [if_neg (by omega)]
  · subst e
    subst h1
    refine ⟨fun x hx => (by cases hx), ?_⟩
    rw [List.nil_append, sscanf3_none t hd]
    rfl
  · subst e
    subst h1
    refine ⟨fun x hx => ?_, ?_⟩
    · rw [List.mem_singleton] at hx
      subst hx
      rfl
    · show (if (sscanf3 (48 :: c :: t)).2.1 = 0 then 1 else (sscanf3 (48 :: c :: t)).2.1) = _
      rw [sscanf3_zero t hc]
      rfl

theorem csi_A_move (sh : my_sess) (row col : Int) (n : Nat) (a1 : Int) (hg : Geo sh)
    (hb : (n : Int) * sh.cols + sh.pagelen < 2147483648)
    (hr : 0 ≤ row ∧ row < sh.rows) (hc : 0 ≤ col ∧ col < sh.cols)
    (hcur : sh.cur = row * sh.cols + col) (ha : (if a1 = 0 then 1 else a1) = (n : Int)) :
    csi_A sh a1 (Int.tmod sh.cur sh.cols) = { sh with cur := max (row - n) 0 * sh.cols + col } := by
  obtain ⟨g1, g2, g3, g4, g5, g6, g7⟩ := hg
  obtain ⟨r1, r2⟩ := row_end hr.2 g1 hc.2
  have hrc : 0 ≤ row * sh.cols := Int.mul_nonneg hr.1 (by omega)
  have hnc : 0 ≤ (n : Int) * sh.cols := Int.mul_nonneg (by omega) (by omega)
  have hcc : Int.tmod sh.cur sh.cols = col := by rw [hcur]; exact tmod_row hr.1 hc.1 hc.2
  have e0 : sh.cols * (n : Int) = (n : Int) * sh.cols := mul_comm _ _
  have w1 : wrap (sh.cols * (n : Int)) = sh.cols * (n : Int) :=
    wrap_id (by omega) (by omega)
  have e1 : sh.cur - sh.cols * (n : Int) = (row - n) * sh.cols + col := by rw [hcur]; ring
  have w2 : wrap (sh.cur - sh.cols * (n : Int)) = (row - n) * sh.cols + col := by
    rw [wrap_id (by omega) (by omega), e1]
  unfold csi_A
  simp only [ha, hcc, w1, w2]
  by_cases h : row - (n : Int) < 0
  · have h1 : (row - n) * sh.cols ≤ (-1) * sh.cols :=
      Int.mul_le_mul_of_nonneg_right (by omega) (by omega)
    rw [if_pos (by omega), max_eq_right (by omega)]
    simp
  · have h1 : 0 ≤ (row - n) * sh.cols := Int.mul_nonneg (by omega) (by omega)
    rw [if_neg (by omega), max_eq_left (by omega)]

theorem csi_B_move (sh : my_sess) (row col : Int) (n : Nat) (a1 : Int) (hg : Geo sh)
    (hb : (n : Int) * sh.cols + sh.pagelen < 2147483648)
    (hr : 0 ≤ row ∧ row < sh.rows) (hc : 0 ≤ col ∧ col < sh.cols)
    (hcur : sh.cur = row * sh.cols + col) (ha : (if a1 = 0 then 1 else a1) = (n : Int)) :
    csi_B sh a1 (Int.tmod sh.cur sh.cols) =
      { sh with cur := min (row + n) (sh.rows - 1) * sh.cols + col } := by
  obtain ⟨g1, g2, g3, g4, g5, g6, g7⟩ := hg
  obtain ⟨r1, r2⟩ := row_end hr.2 g1 hc.2
  have hrc : 0 ≤ row * sh.cols := Int.mul_nonneg hr.1 (by omega)
  have hnc : 0 ≤ (n : Int) * sh.cols := Int.mul_nonneg (by omega) (by omega)
  have hcc : Int.tmod sh.cur sh.cols = col := by rw [hcur]; exact tmod_row hr.1 hc.1 hc.2
  have e0 : sh.cols * (n : Int) = (n : Int) * sh.cols := mul_comm _ _
  have w1 : wrap (sh.cols * (n : Int)) = sh.cols * (n : Int) :=
    wrap_id (by omega) (by omega)
  have e1 : sh.cur + sh.cols * (n : Int) = (row + n) * sh.cols + col := by rw [hcur]; ring
  have w2 : wrap (sh.cur + sh.cols * (n : Int)) = (row + n) * sh.cols + col := by
    rw [wrap_id (by omega) (by omega), e1]
  have e2 : sh.pagelen - sh.cols + col = (sh.rows - 1) * sh.cols + col := by rw [g3]; ring
  unfold csi_B
  simp only [ha, hcc, w1, w2, e2]
  by_cases h : row + (n : Int) ≥ sh.rows
  · have h1 : sh.rows * sh.cols ≤ (row + n) * sh.cols :=
      Int.mul_le_mul_of_nonneg_right (by omega) (by omega)
    rw [if_pos (by omega), min_eq_right (by omega)]
  · have h1 : (row + n + 1) * sh.cols ≤ sh.rows * sh.cols :=
      Int.mul_le_mul_of_nonneg_right (by omega) (by omega)
    have h2 : (row + n + 1) * sh.cols = (row + n) * sh.cols + sh.cols := by ring
    rw [if_neg (by omega), min_eq_left (by omega)]

theorem csi_C_move (sh : my_sess) (row col : Int) (n : Nat) (a1 : Int) (hg : Geo sh)
    (ho : sh.originmode = 0) (hn : 1 ≤ n)
    (hr : 0 ≤ row ∧ row < sh.rows) (hc : 0 ≤ col ∧ col < sh.cols)
    (hcur : sh.cur = row * sh.cols + col) (ha : (if a1 = 0 then 1 else a1) = (n : Int)) :
    csi_C sh a1 (Int.tmod sh.cur sh.cols) =
      { sh with cur := row * sh.cols + min (col + n) (sh.cols - 1) } := by
  obtain ⟨g1, g2, g3, g4, g5, g6, g7⟩ := hg
  obtain ⟨r1, r2⟩ := row_end hr.2 g1 hc.2
  have hrc : 0 ≤ row * sh.cols := Int.mul_nonneg hr.1 (by omega)
  have hcc : Int.tmod sh.cur sh.cols = col := by rw [hcur]; exact tmod_row hr.1 hc.1 hc.2
  unfold csi_C
  simp only [ha, hcc]
  rw [B_eq_cur]
  by_cases h : (n : Int) ≥ sh.cols - col
  · rw [if_pos h]
    show { sh with cur := B_cur sh (wrap (sh.cur + (sh.cols - col - 1))) } = _
    rw [wrap_id (by omega) (by omega), B_cur_id sh (by omega) (by omega) ho,
      min_eq_right (by omega), hcur]
    congr 1
    ring
  · rw [if_neg h]
    show { sh with cur := B_cur sh (wrap (sh.cur + (n : Int))) } = _
    rw [wrap_id (by omega) (by omega), B_cur_id sh (by omega) (by omega) ho,
      min_eq_left (by omega), hcur]
    congr 1
    ring

theorem csi_D_move (sh : my_sess) (row col : Int) (n : Nat) (a1 : Int) (hg : Geo sh)
    (ho : sh.originmode = 0) (hn : 1 ≤ n)
    (hr : 0 ≤ row ∧ row < sh.rows) (hc : 0 ≤ col ∧ col < sh.cols)
    (hcur : sh.cur = row * sh.cols + col) (ha : (if a1 = 0 then 1 else a1) = (n : Int)) :
    csi_D sh a1 (Int.tmod sh.cur sh.cols) =
      { sh with cur := row * sh.cols + max (col - n) 0 } := by
  obtain ⟨g1, g2, g3, g4, g5, g6, g7⟩ := hg
  obtain ⟨r1, r2⟩ := row_end hr.2 g1 hc.2
  have hrc : 0 ≤ row * sh.cols := Int.mul_nonneg hr.1 (by omega)
  have hcc : Int.tmod sh.cur sh.cols = col := by rw [hcur]; exact tmod_row hr.1 hc.1 hc.2
  unfold csi_D
  simp only [ha, hcc]
  rw [B_eq_cur]
  by_cases h : (n : Int) > col
  · rw [if_pos h]
    show { sh with cur := B_cur sh (wrap (sh.cur - col)) } = _
    rw [wrap_id (by omega) (by omega), B_cur_id sh (by omega) (by omega) ho,
      max_eq_right (by omega), hcur]
    congr 1
    ring
  · rw [if_neg h]
    show { sh with cur := B_cur sh (wrap (sh.cur - (n : Int))) } = _
    rw [wrap_id (by omega) (by omega), B_cur_id sh (by omega) (by omega) ho,
      max_eq_left (by omega), hcur]
    congr 1
    ring

/-- Relative cursor moves with a parameter in range: with origin mode off and
the cursor at row `row`, column `col` of the page, `CSI n A`, `CSI n B`,
`CSI n C` and `CSI n D` (the parameter `n ≥ 1` in decimal; an absent parameter
or the parameter `0` counts as `n = 1`), for an `n` such that
`n * cols + pagelen` fits an `int`, move the cursor to `(max (row - n) 0, col)`,
`(min (row + n) (rows - 1), col)`, `(row, min (col + n) (cols - 1))` and
`(row, max (col - n) 0)`; the session changes in the cursor only. -/
theorem relative_moves (BYTES : Nat) (sh : my_sess) (row col : Int) (n : Nat) (ps rest : List Nat)
    (hg : Geo sh) (ho : sh.originmode = 0)
    (hr : 0 ≤ row ∧ row < sh.rows) (hc : 0 ≤ col ∧ col < sh.cols)
    (hcur : sh.cur = row * sh.cols + col)
    (hps : (1 ≤ n ∧ ps = dec n) ∨ (n = 1 ∧ (ps = [] ∨ ps = [48])))
    (hb : (n : Int) * sh.cols + sh.pagelen < 2147483648) :
    page_append_step BYTES sh (27 :: 91 :: (ps ++ 65 :: rest)) =
      .next { sh with cur := max (row - n) 0 * sh.cols + col } rest ∧
    page_append_step BYTES sh (27 :: 91 :: (ps ++ 66 :: rest)) =
      .next { sh with cur := min (row + n) (sh.rows - 1) * sh.cols + col } rest ∧
    page_append_step BYTES sh (27 :: 91 :: (ps ++ 67 :: rest)) =
      .next { sh with cur := row * sh.cols + min (col + n) (sh.cols - 1) } rest ∧
    page_append_step BYTES sh (27 :: 91 :: (ps ++ 68 :: rest)) =
      .next { sh with cur := row * sh.cols + max (col - n) 0 } rest := by
  have hn : 1 ≤ n := by
    rcases hps with ⟨h, _⟩ | ⟨h, _⟩ <;> omega
  have hn2 : n < 2147483648 := by
    have hi := geo_int hg
    have h1 : (n : Int) * 1 ≤ (n : Int) * sh.cols :=
      Int.mul_le_mul_of_nonneg_left (by have := hg.1; omega) (by omega)
    omega
  refine ⟨?_, ?_, ?_, ?_⟩
  · obtain ⟨h1, h2⟩ := move_parm n ps hps hn2 rest (by decide : isparm 65 = false)
    rw [step_csi BYTES sh ps 65 rest h1 (by decide) (by decide) (by decide)]
    exact congrArg (fun x => Step.next x rest) (csi_A_move sh row col n _ hg hb hr hc hcur h2)
  · obtain ⟨h1, h2⟩ := move_parm n ps hps hn2 rest (by decide : isparm 66 = false)
    rw [step_csi BYTES sh ps 66 rest h1 (by decide) (by decide) (by decide)]
    exact congrArg (fun x => Step.next x rest) (csi_B_move sh row col n _ hg hb hr hc hcur h2)
  · obtain ⟨h1, h2⟩ := move_parm n ps hps hn2 rest (by decide : isparm 67 = false)
    rw [step_csi BYTES sh ps 67 rest h1 (by decide) (by decide) (by decide)]
    exact congrArg (fun x => Step.next x rest) (csi_C_move sh row col n _ hg ho hn hr hc hcur h2)
  · obtain ⟨h1, h2⟩ := move_parm n ps hps hn2 rest (by decide : isparm 68 = false)
    rw [step_csi BYTES sh ps 68 rest h1 (by decide) (by decide) (by decide)]
    exact congrArg (fun x => Step.next x rest) (csi_D_move sh row col n _ hg ho hn hr hc hcur h2)

set_option maxRecDepth 100000 in
/-- C33 (the code at the failing input): on a fresh 4x10 session with the
cursor brought to row 1, column 4 by `ESC [ 2 ; 5 H`, `ESC [ 300000000 A`
leaves the cursor at offset 1294967310 instead of row 0, column 4 (offset 4),
and `ESC [ 300000000 B` leaves it at offset -1294967282 instead of row 3,
column 4 (offset 34): the product `cols * a1` does not fit an `int`, and each
case tests one side only; from the home position `ESC [ 4294967297 C` moves
the cursor one column instead of to the last column (offset 9), the parameter
being read as 1. -/
theorem relative_move_overflow :
    (page_append 1 (term_new 4 10 0 3)
      [27, 91, 50, 59, 53, 72, 27, 91, 51, 48, 48, 48, 48, 48, 48, 48, 48, 65]).map
      (fun r => (r.1.cur, r.1.pagelen)) = some (1294967310, 40) ∧
    (page_append 1 (term_new 4 10 0 3)
      [27, 91, 50, 59, 53, 72, 27, 91, 51, 48, 48, 48, 48, 48, 48, 48, 48, 66]).map
      (fun r => (r.1.cur, r.1.pagelen)) = some (-1294967282, 40) ∧
    (page_append 1 (term_new 4 10 0 3)
      [27, 91, 52, 50, 57, 52, 57, 54, 55, 50, 57, 55, 67]).map
      (fun r => (r.1.cur, r.1.pagelen)) = some (1, 40) := by
  decide

/-! ## C34: index -/

set_option maxRecDepth 1000000 in
/-- C34 (the code at the failing input): the case ESC `D` is `cur += cols`
followed by `B()`: in every session it leaves the page, the attributes and the
count of scrolls as they were.  On a fresh 4x10 session the bytes
`A LF LF LF` leave the cursor on the last row (offset 31) with no pending
wrap; ESC `D` after them moves the cursor to offset 40, which is `pagelen`,
and scrolls nothing (the `A` stays in cell 0), where LF scrolls the page (cell
0 is blank) and leaves the cursor at offset 31. -/
theorem index_no_scroll :
    (∀ (BYTES : Nat) (sh : my_sess) (rest : List Nat), ∃ sh1,
      page_append_step BYTES sh (27 :: 68 :: rest) = .next sh1 rest ∧
      sh1.page = sh.page ∧ sh1.attributes = sh.attributes ∧ sh1.nscroll = sh.nscroll) ∧
    (page_append 1 (term_new 4 10 0 3) [65, 10, 10, 10]).map
      (fun r => (r.1.cur, r.1.kflags &&& kf_wrapped, r.1.scroll_bottom, r.1.page.getD 0 0))
      = some (31, 0, 4, 65) ∧
    (page_append 1 (term_new 4 10 0 3) [65, 10, 10, 10, 27, 68]).map
      (fun r => (r.1.cur, r.1.pagelen, r.1.page.getD 0 0, r.1.nscroll)) = some (40, 40, 65, 0) ∧
    (page_append 1 (term_new 4 10 0 3) [65, 10, 10, 10, 10]).map
      (fun r => (r.1.cur, r.1.pagelen, r.1.page.getD 0 0, r.1.nscroll)) = some (31, 40, 32, 1) := by
  refine ⟨fun BYTES sh rest => ⟨_, step_esc_D BYTES sh rest, ?_⟩, by decide, by decide, by decide⟩
  rw [B_eq_cur]
  exact ⟨rfl, rfl, rfl⟩

/-! ## C35: vertical position absolute -/

theorem reg_ite {c : Prop} [Decidable c] {sh a b : my_sess}
    (ha : c → a.scroll_top = sh.scroll_top ∧ a.scroll_bottom = sh.scroll_bottom)
    (hb : ¬ c → b.scroll_top = sh.scroll_top ∧ b.scroll_bottom = sh.scroll_bottom) :
    (if c then a else b).scroll_top = sh.scroll_top ∧
      (if c then a else b).scroll_bottom = sh.scroll_bottom := by
  split_ifs with h
  · exact ha h
  · exact hb h

theorem sameCtl_region {a b : my_sess} (h : SameCtl a b) :
    b.scroll_top = a.scroll_top ∧ b.scroll_bottom = a.scroll_bottom :=
  ⟨h.2.2.2.1, h.2.2.2.2.1⟩

theorem B_region (sh : my_sess) :
    (B sh).scroll_top = sh.scroll_top ∧ (B sh).scroll_bottom = sh.scroll_bottom := by
  rw [B_eq_cur]
  exact ⟨rfl, rfl⟩

theorem sgr_loop_region (args : List Int) (sh : my_sess) :
    (sgr_loop sh args).scroll_top = sh.scroll_top ∧
      (sgr_loop sh args).scroll_bottom = sh.scroll_bottom := by
  induction args generalizing sh with
  | nil => exact ⟨rfl, rfl⟩
  | cons a rest ih =>
    unfold sgr_loop
    cases e : sgr_arg sh a with
    | none => exact ⟨rfl, rfl⟩
    | some sh1 =>
      have h1 : sh1.scroll_top = sh.scroll_top ∧ sh1.scroll_bottom = sh.scroll_bottom := by
        unfold sgr_arg at e
        split_ifs at e <;> cases e <;> exact ⟨rfl, rfl⟩
      have h2 := ih sh1
      exact ⟨h2.1.trans h1.1, h2.2.trans h1.2⟩

theorem csi_cmd_region (sh : my_sess) (cmd mark : Nat) (n a1 a2 a3 curcol : Int)
    (hd : cmd ≠ 100) (hr : cmd ≠ 114) :
    (csi_cmd sh cmd mark n a1 a2 a3 curcol).scroll_top = sh.scroll_top ∧
      (csi_cmd sh cmd mark n a1 a2 a3 curcol).scroll_bottom = sh.scroll_bottom := by
  unfold csi_cmd
  refine reg_ite (fun _ => ?_) fun _ => reg_ite (fun _ => ?_) fun _ => reg_ite (fun _ => ?_) fun _ =>
    reg_ite (fun _ => ?_) fun _ => reg_ite (fun h => absurd h hd) fun _ =>
    reg_ite (fun _ => ?_) fun _ => reg_ite (fun _ => ⟨rfl, rfl⟩) fun _ =>
    reg_ite (fun _ => ?_) fun _ => reg_ite (fun _ => ?_) fun _ => reg_ite (fun _ => ?_) fun _ =>
    reg_ite (fun _ => ?_) fun _ => reg_ite (fun _ => ?_) fun _ => reg_ite (fun _ => ?_) fun _ =>
    reg_ite (fun _ => ?_) fun _ => reg_ite (fun _ => ?_) fun _ => reg_ite (fun _ => ?_) fun _ =>
    reg_ite (fun h => absurd h hr) fun _ => reg_ite (fun _ => ⟨rfl, rfl⟩) fun _ =>
    reg_ite (fun _ => ?_) fun _ => ⟨rfl, rfl⟩
  · unfold csi_A; dsimp only; split_ifs <;> exact ⟨rfl, rfl⟩
  · unfold csi_B; dsimp only; split_ifs <;> exact ⟨rfl, rfl⟩
  · exact B_region _
  · exact B_region _
  · exact B_region _
  · unfold csi_H; dsimp only; rw [B_eq_cur]; exact ⟨rfl, rfl⟩
  · unfold csi_h; split_ifs <;> exact ⟨rfl, rfl⟩
  · exact sameCtl_region (csi_J_ctl sh n a1)
  · exact sameCtl_region (csi_K_ctl sh n a1 curcol)
  · unfold csi_l; split_ifs <;> exact ⟨rfl, rfl⟩
  · exact sameCtl_region (csi_L_ctl sh a1)
  · exact sgr_loop_region _ sh
  · exact sameCtl_region (csi_M_ctl sh a1)
  · exact sameCtl_region (csi_P_ctl sh a1 curcol)
  · exact sameCtl_region (csi_X_ctl sh a1 curcol)

theorem B_id (sh : my_sess) (h0 : 0 ≤ sh.cur) (h1 : sh.cur ≤ sh.pagelen)
    (ho : sh.originmode = 0) : B sh = sh := by
  rw [B_eq_cur, B_cur_id sh h0 h1 ho]

theorem csi_d_move (sh : my_sess) (row col : Int) (n : Nat) (hg : Geo sh) (ho : sh.originmode = 0)
    (hr : 0 ≤ row ∧ row < sh.rows) (hc : 0 ≤ col ∧ col < sh.cols)
    (hcur : sh.cur = row * sh.cols + col) (h1 : 1 ≤ n) (h2 : (n : Int) ≤ sh.rows) :
    csi_d sh n (Int.tmod sh.cur sh.cols) =
      if (n : Int) < sh.scroll_top ∨ (n : Int) ≥ sh.scroll_bottom then
        { sh with scroll_top := 0, scroll_bottom := sh.rows, cur := ((n : Int) - 1) * sh.cols + col }
      else { sh with cur := ((n : Int) - 1) * sh.cols + col } := by
  have hi := geo_int hg
  obtain ⟨g1, g2, g3, g4, g5, g6, g7⟩ := hg
  have hcc : Int.tmod sh.cur sh.cols = col := by rw [hcur]; exact tmod_row hr.1 hc.1 hc.2
  have e0 : (if (n : Int) ≥ sh.rows then sh.rows else (n : Int)) = n := by
    split_ifs <;> omega
  have r1 : ((n : Int) - 1) * sh.cols + col < sh.rows * sh.cols :=
    (row_end (by omega : (n : Int) - 1 < sh.rows) g1 hc.2).1
  have r2 : 0 ≤ ((n : Int) - 1) * sh.cols := Int.mul_nonneg (by omega) (by omega)
  have w1 : wrap ((n : Int) - 1) = (n : Int) - 1 := wrap_id (by omega) (by omega)
  have w2 : wrap (((n : Int) - 1) * sh.cols) = ((n : Int) - 1) * sh.cols :=
    wrap_id (by omega) (by omega)
  have w3 : wrap (((n : Int) - 1) * sh.cols + col) = ((n : Int) - 1) * sh.cols + col :=
    wrap_id (by omega) (by omega)
  unfold csi_d
  simp only [e0, hcc, w1]
  split_ifs with h
  · dsimp only
    rw [w2, w3]
    refine B_id _ ?_ ?_ ?_ <;> dsimp only <;> omega
  · rw [w2, w3]
    refine B_id _ ?_ ?_ ?_ <;> dsimp only <;> omega

/-- C35 (amended): with origin mode off and the cursor at row `row`, column
`col` of the page, `CSI n d` with `1 ≤ n ≤ rows` moves the cursor to row
`n - 1` keeping its column; when `scroll_top ≤ n < scroll_bottom` it changes
nothing else, otherwise it also resets the scroll region to `[0, rows)`; every
other case of the command switch but `r` (DECSTBM) leaves `scroll_top` and
`scroll_bottom` as they were. -/
theorem vpa (BYTES : Nat) (sh : my_sess) (row col : Int) (n : Nat) (rest : List Nat)
    (hg : Geo sh) (ho : sh.originmode = 0)
    (hr : 0 ≤ row ∧ row < sh.rows) (hc : 0 ≤ col ∧ col < sh.cols)
    (hcur : sh.cur = row * sh.cols + col) (h1 : 1 ≤ n) (h2 : (n : Int) ≤ sh.rows) :
    (sh.scroll_top ≤ (n : Int) ∧ (n : Int) < sh.scroll_bottom →
      page_append_step BYTES sh (27 :: 91 :: (dec n ++ 100 :: rest)) =
        .next { sh with cur := ((n : Int) - 1) * sh.cols + col } rest) ∧
    ((n : Int) < sh.scroll_top ∨ sh.scroll_bottom ≤ (n : Int) →
      page_append_step BYTES sh (27 :: 91 :: (dec n ++ 100 :: rest)) =
        .next { sh with
          scroll_top := 0, scroll_bottom := sh.rows
          cur := ((n : Int) - 1) * sh.cols + col } rest) ∧
    (∀ (cmd mark : Nat) (k a1 a2 a3 curcol : Int), cmd ≠ 100 → cmd ≠ 114 →
      (csi_cmd sh cmd mark k a1 a2 a3 curcol).scroll_top = sh.scroll_top ∧
      (csi_cmd sh cmd mark k a1 a2 a3 curcol).scroll_bottom = sh.scroll_bottom) := by
  have hi := geo_int hg
  have hs : page_append_step BYTES sh (27 :: 91 :: (dec n ++ 100 :: rest)) =
      .next (csi_d sh n (Int.tmod sh.cur sh.cols)) rest := by
    rw [step_csi BYTES sh (dec n) 100 rest (fun x hx => isdigit_isparm (dec_digits n x hx))
      (by decide) (by decide) (by decide), sscanf3_one n h1 (by omega) rest (by decide)]
    rfl
  refine ⟨fun h => ?_, fun h => ?_, fun cmd mark k a1 a2 a3 curcol hd hr =>
    csi_cmd_region sh cmd mark k a1 a2 a3 curcol hd hr⟩
  · rw [hs, csi_d_move sh row col n hg ho hr hc hcur h1 h2, if_neg (by omega)]
  · rw [hs, csi_d_move sh row col n hg ho hr hc hcur h1 h2, if_pos (by omega)]

set_option maxRecDepth 100000 in
theorem vpa_witness :
    page_append_step 1 (term_new 4 10 0 3) (27 :: 91 :: (dec 2 ++ 100 :: [])) =
      .next { term_new 4 10 0 3 with
        cur := (((2 : Nat) : Int) - 1) * (term_new 4 10 0 3).cols + 0 } [] :=
  (vpa 1 (term_new 4 10 0 3) 0 0 2 [] (term_new_wf 4 10 0 3).1 (by decide) (by decide)
    (by decide) (by decide) (by decide) (by decide)).1 (by decide)

set_option maxRecDepth 100000 in
/-- C35 as stated fails: on a fresh 4x10 session `ESC [ 2 ; 3 r` sets the scroll
region to rows 1 and 2 (`scroll_top = 1`, `scroll_bottom = 3`); `ESC [ 3 d`
after it moves the cursor to row 2 and resets the region to `[0, 4)`. -/
theorem vpa_region_counterexample :
    (page_append 1 (term_new 4 10 0 3) [27, 91, 50, 59, 51, 114]).map
      (fun r => (r.1.originmode, r.1.scroll_top, r.1.scroll_bottom, r.1.cur))
      = some (0, 1, 3, 10) ∧
    (page_append 1 (term_new 4 10 0 3) [27, 91, 50, 59, 51, 114, 27, 91, 51, 100]).map
      (fun r => (r.1.originmode, r.1.scroll_top, r.1.scroll_bottom, r.1.cur))
      = some (0, 0, 4, 20) := by
  decide

/-! ## C36: the base character of a key -/

theorem base_letter (e : key_entry) (c : Nat) (shift ctrl : Int) (is_esc : Bool)
    (hl : e.namelen = 1) (hn : rd e.name 0 = c) (hc : 97 ≤ c ∧ c ≤ 122) :
    process_term_base e shift ctrl is_esc [] =
      if shift ≠ 0 then [c - 32] else if ctrl ≠ 0 then [c - 96] else [c] := by
  have ha : isalpha c = true := by
    unfold isalpha
    simp
    omega
  have e1 : to_u8 ((c : Int) + (65 - 97)) = c - 32 := by
    unfold to_u8
    omega
  have e2 : to_u8 ((c : Int) + (1 - 97)) = c - 96 := by
    unfold to_u8
    omega
  unfold process_term_base
  rw [if_neg (by decide), if_pos hl, hn, ha, if_pos rfl, e1, e2]

theorem base_digit (e : key_entry) (c : Nat) (shift ctrl : Int) (is_esc : Bool)
    (hl : e.namelen = 1) (hn : rd e.name 0 = c) (hc : 48 ≤ c ∧ c ≤ 57) :
    process_term_base e shift ctrl is_esc [] =
      if shift ≠ 0 then [shifted_digits.getD (c - 48) 0] else if ctrl ≠ 0 then [c + 160]
      else [c] := by
  have ha : isalpha c = false := by
    unfold isalpha
    simp
    omega
  have hd : isdigit c = true := by
    unfold isdigit
    simp
    omega
  have e2 : to_u8 ((c : Int) + (1 - 97)) = c + 160 := by
    unfold to_u8
    omega
  unfold process_term_base
  rw [if_neg (by decide), if_pos hl, hn, ha, if_neg (by decide), hd, if_pos rfl, e2]

/-- C36 (amended): in the block that produces the base character (reached
with `k` still empty: no modifier key, no Fn, Sym or Lang overlay), a key
whose name is the single lowercase letter `c` produces the byte `c` with
neither shift nor ctrl held, the uppercase letter `c - 32` when shift is held
(whatever ctrl is) and the control code `c + 1 - 'a'` when only ctrl is held;
a key whose name is the single digit `d` produces `d` with neither shift nor
ctrl held, the character at index `d - '0'` of `)!@#$%^&*(` when shift is
held, and the byte `d + 1 - 'a'` modulo 256, which is `d + 160`, when only
ctrl is held. -/
theorem base_mapping (e : key_entry) (c : Nat) (shift ctrl : Int) (is_esc : Bool)
    (hl : e.namelen = 1) (hn : rd e.name 0 = c) :
    (97 ≤ c ∧ c ≤ 122 →
      (shift = 0 ∧ ctrl = 0 → process_term_base e shift ctrl is_esc [] = [c]) ∧
      (shift ≠ 0 → process_term_base e shift ctrl is_esc [] = [c - 32]) ∧
      (shift = 0 ∧ ctrl ≠ 0 → process_term_base e shift ctrl is_esc [] = [c + 1 - 97])) ∧
    (48 ≤ c ∧ c ≤ 57 →
      (shift = 0 ∧ ctrl = 0 → process_term_base e shift ctrl is_esc [] = [c]) ∧
      (shift ≠ 0 →
        process_term_base e shift ctrl is_esc [] = [shifted_digits.getD (c - 48) 0]) ∧
      (shift = 0 ∧ ctrl ≠ 0 → process_term_base e shift ctrl is_esc [] = [c + 160])) := by
  refine ⟨fun hc => ?_, fun hc => ?_⟩
  · rw [base_letter e c shift ctrl is_esc hl hn hc]
    refine ⟨fun h => ?_, fun h => ?_, fun h => ?_⟩
    · rw [if_neg (by omega), if_neg (by omega)]
    · rw [if_pos h]
    · rw [if_neg (by omega), if_pos h.2]
      congr 1
  · rw [base_digit e c shift ctrl is_esc hl hn hc]
    refine ⟨fun h => ?_, fun h => ?_, fun h => ?_⟩
    · rw [if_neg (by omega), if_neg (by omega)]
    · rw [if_pos h]
    · rw [if_neg (by omega), if_pos h.2]

theorem base_mapping_witness :
    process_term_base { name := [113], namelen := 1, type := 0, code := 16, ysteps := 0 } 1 1 false []
      = [113 - 32] :=
  ((base_mapping { name := [113], namelen := 1, type := 0, code := 16, ysteps := 0 } 113 1 1 false
    rfl rfl).1 (by decide)).2.1 (by decide)

/-- C36 as stated fails: the key named `1`, with ctrl held and shift not
held, produces the byte 0xD1 (`'1' + 1 - 'a'` as a `char`), not the digit `1`;
with neither held it produces `1`, with shift held `!`. -/
theorem ctrl_digit_counterexample :
    process_term_base { name := [49], namelen := 1, type := 0, code := 2, ysteps := 0 } 0 1 false []
      = [0xD1] ∧
    process_term_base { name := [49], namelen := 1, type := 0, code := 2, ysteps := 0 } 0 0 false []
      = [49] ∧
    process_term_base { name := [49], namelen := 1, type := 0, code := 2, ysteps := 0 } 1 1 false []
      = [33] := by
  decide

/-! ## C37: the attribute byte and a store in front of the page -/

set_option maxRecDepth 100000 in
/-- C37 (the code at the failing input): on a fresh 8x10 session in 8-bit mode
a space moves the cursor to 1, and `ESC [ 858993454 B` adds `cols * a1`, which
is -52 in 32 bits; the cursor becomes -51 with no access outside the arrays so
far.  The next character `~` (0x7E) is stored at `page[-51]` (the flag `oob`
is raised).  For a session name of two characters that byte is the field
`cur_attr` of the session record, which comes to hold 0x7E, a value with bit
6 set, and is stored in the attribute cell of every character written
afterwards. -/
theorem store_at_cur_attr :
    (page_append 1 (term_new 8 10 0 3)
      [32, 27, 91, 56, 53, 56, 57, 57, 51, 52, 53, 52, 66]).map
      (fun r => (r.1.cur, r.1.oob, r.1.cur_attr)) = some (-51, false, 0) ∧
    (page_append 1 (term_new 8 10 0 3)
      [32, 27, 91, 56, 53, 56, 57, 57, 51, 52, 53, 52, 66, 126]).map
      (fun r => (r.1.cur, r.1.oob)) = some (-50, true) ∧
    page_byte 3 (-51) = offsetof_cur_attr ∧ 0x7E &&& 0xC0 = 0x40 := by
  decide

/-! ## C38: the pointer that `page_append` returns -/

theorem step_esc_hash_nul (BYTES : Nat) (sh : my_sess) (rest : List Nat) :
    page_append_step BYTES sh (27 :: 35 :: 0 :: rest) = .next sh rest := by
  rw [step_ascii BYTES sh _ (by decide) (by decide)]
  unfold ctl_switch
  simp only [Nat.reduceEqDiff, if_false, if_true]
  unfold ctl_esc
  have h1 : rd (27 :: 35 :: 0 :: rest) 1 = 35 := rfl
  have h4 : rd (27 :: 35 :: 0 :: rest) 2 = 0 := rfl
  have h2 : index [40, 41] 35 = false := by decide
  have h3 : index [72, 61, 62] 35 = false := by decide
  simp only [h1, h2, h3, h4, Nat.reduceEqDiff, if_false, if_true, Bool.false_eq_true]
  rw [show esc_hash sh 0 = sh from rfl]
  unfold advance
  split_ifs <;> rfl

set_option maxRecDepth 1000000 in
/-- C38 (the code at the failing input): when the input ends right after
ESC `#`, the round of the loop of `page_append` on it goes on at the byte
after the terminating NUL, in both character modes and in every session.  On
a fresh 4x10 session, with the input `ESC #` (length 2) in a buffer that holds
the stale bytes `A NUL` behind the terminator, `page_append` stores the `A`
in cell 0 and returns the pointer at offset 4 of the buffer, two bytes past
the terminator: not a suffix of its input. -/
theorem esc_hash_overrun :
    (∀ (BYTES : Nat) (sh : my_sess) (rest : List Nat),
      page_append_step BYTES sh (27 :: 35 :: 0 :: rest) = .next sh rest) ∧
    strlen [27, 35, 0, 65, 0] = 2 ∧
    (page_append 1 (term_new 4 10 0 3) [27, 35, 0, 65, 0]).map
      (fun r => ([27, 35, 0, 65, 0].length - r.2.length, r.2, r.1.page.getD 0 0, r.1.cur))
      = some (4, [0], 65, 1) := by
  exact ⟨step_esc_hash_nul, by decide, by decide⟩

/-! ## C39: the store of a character and the page -/

theorem inb_one {n : Nat} {x : Int} (h0 : 0 ≤ x) (h1 : x < (n : Int)) : inb n x 1 = true := by
  unfold inb
  simp
  omega

/-- The store of the default case from a cursor on the page: for a session
with well-formed geometry, `0 ≤ cur ≤ pagelen` and arrays of `pagelen` cells,
the loop `while (cur >= scroll_bottom * cols)` of the default case ends with
`0 ≤ cur < pagelen`, so that the store of a character other than LF is inside
`page` and `attributes` (the flag `oob` is not raised by it), the guard
`cur > pagelen` after the increment does not fire and the cursor after the
store is `cur + 1`; a printable ASCII byte takes this path. -/
theorem put_in_bounds (BYTES : Nat) (sh : my_sess) (hw : WF sh) (hs : Shape sh) (c : Nat)
    (curcol : Int) (hc : c ≠ 10) :
    ∃ sh1, scroll_loop (scroll_fuel sh) sh = some sh1 ∧
      ctl_default BYTES sh c curcol = some (put BYTES sh1 c curcol) ∧
      (0 ≤ sh1.cur ∧ sh1.cur < sh1.pagelen) ∧
      (sh1.cur < (sh1.page.length : Int) ∧ sh1.cur < (sh1.attributes.length : Int)) ∧
      ¬ (sh1.cur + 1 > sh1.pagelen) ∧ (put BYTES sh1 c curcol).cur = sh1.cur + 1 ∧
      (put BYTES sh1 c curcol).oob = sh1.oob ∧
      (32 ≤ c ∧ c ≤ 126 → ∀ rest : List Nat,
        page_append_step BYTES sh (c :: rest) =
          .next (put BYTES sh1 c (Int.tmod sh.cur sh.cols)) rest) := by
  obtain ⟨sh1, e, hw1, hlt⟩ := scroll_fuel_wf hw.1 hw.2.1
  have hs1 := frame_shape (scroll_loop_frame _ _ _ e) hs
  obtain ⟨⟨g1, g2, g3, g4, g5, g6, g7⟩, w1, w2⟩ := hw1
  have hb : sh1.scroll_bottom * sh1.cols ≤ sh1.rows * sh1.cols :=
    Int.mul_le_mul_of_nonneg_right g6 (by omega)
  have hp : sh1.cur < sh1.pagelen := by omega
  have hd : ∀ k : Int, ctl_default BYTES sh c k = some (put BYTES sh1 c k) := by
    intro k
    unfold ctl_default
    simp only [hc, if_false, e, ne_eq, not_false_eq_true, if_true]
  refine ⟨sh1, e, hd curcol, ⟨w1, hp⟩, ⟨by rw [hs1.1]; exact hp, by rw [hs1.2]; exact hp⟩,
    by omega, put_cur BYTES sh1 c curcol hp, ?_, fun hr rest => ?_⟩
  · have i1 : inb sh1.page.length sh1.cur 1 = true := inb_one w1 (by rw [hs1.1]; exact hp)
    have i2 : inb sh1.attributes.length sh1.cur 1 = true := inb_one w1 (by rw [hs1.2]; exact hp)
    rw [put_eq]
    dsimp only
    rw [i1, i2]
    split_ifs <;> simp
  · obtain ⟨e1, e2⟩ := decode_ascii BYTES rest (c := c) (by omega) (by omega)
    unfold page_append_step ctl_switch
    rw [e1, e2, advance_one]
    rw [if_neg (by omega), if_neg (by omega), if_neg (by omega), if_neg (by omega),
      if_neg (by omega), if_neg (by omega), if_neg (by omega), hd]

set_option maxRecDepth 100000 in
/-- C39 (the code at the failing input): on a fresh 4x10 session
`ESC [ 429496729 B` adds `cols * a1`, which is -6 in 32 bits, to the cursor 0;
the case only tests `cur >= pagelen`, so the cursor is -6, with no access
outside the arrays so far.  The next character `x` is stored with the cursor
at -6, in front of the page (the flag `oob` is raised), and the cursor
advances to -5. -/
theorem store_before_page :
    (page_append 1 (term_new 4 10 0 3) [27, 91, 52, 50, 57, 52, 57, 54, 55, 50, 57, 66]).map
      (fun r => (r.1.cur, r.1.oob)) = some (-6, false) ∧
    (page_append 1 (term_new 4 10 0 3) [27, 91, 52, 50, 57, 52, 57, 54, 55, 50, 57, 66, 120]).map
      (fun r => (r.1.cur, r.1.oob)) = some (-5, true) := by
  decide

/-! ## C40: the erases of the parser -/

theorem step_ed1 (BYTES : Nat) (sh : my_sess) (rest : List Nat) :
    page_append_step BYTES sh (27 :: 91 :: 49 :: 74 :: rest) =
      .next (erase sh 0 (sh.cur + 1)) rest := by
  have h := step_csi BYTES sh [49] 74 rest (by decide) (by decide) (by decide) (by decide)
  have e : sscanf3 ([49] ++ 74 :: rest) = (1, 1, 1, 1) := by
    simp [sscanf3, scan_int, List.takeWhile, List.dropWhile, isdigit, rd, wrap]
  rw [e] at h
  rw [show (27 :: 91 :: 49 :: 74 :: rest) = 27 :: 91 :: ([49] ++ 74 :: rest) from rfl, h]
  rfl

set_option maxRecDepth 1000000 in
/-- C40 (the code at the failing input): `ESC [ 1 J` calls
`erase(0, cur + 1)` in every session.  On a fresh 4x10 session the bytes
`ESC [ 4 ; 1 0 H x` store `x` in the last cell of the page and leave the cursor
at offset 40, which is `pagelen`, with every access so far inside the arrays;
`ESC [ 1 J` after them is `erase(0, 41)` on a page of 40 cells, and `ESC [ K`
is `erase(40, 10)`: `start + len` exceeds `pagelen` and the stores leave the
arrays. -/
theorem erase_past_page :
    (∀ (BYTES : Nat) (sh : my_sess) (rest : List Nat),
      page_append_step BYTES sh (27 :: 91 :: 49 :: 74 :: rest) =
        .next (erase sh 0 (sh.cur + 1)) rest) ∧
    (∀ (sh : my_sess) (curcol : Int), csi_K sh 0 1 curcol = erase sh sh.cur (sh.cols - curcol)) ∧
    (page_append 1 (term_new 4 10 0 3) [27, 91, 52, 59, 49, 48, 72, 120]).map
      (fun r => (r.1.cur, r.1.pagelen, r.1.page.length, r.1.attributes.length, r.1.oob,
        Int.tmod r.1.cur r.1.cols))
      = some (40, 40, 40, 40, false, 0) ∧
    (inb 40 0 (40 + 1) = false ∧ inb 40 40 (10 - 0) = false) ∧
    (page_append 1 (term_new 4 10 0 3) [27, 91, 52, 59, 49, 48, 72, 120, 27, 91, 49, 74]).map
      (fun r => r.1.oob) = some true ∧
    (page_append 1 (term_new 4 10 0 3) [27, 91, 52, 59, 49, 48, 72, 120, 27, 91, 75]).map
      (fun r => r.1.oob) = some true := by
  exact ⟨step_ed1, fun sh curcol => rfl, by decide, by decide, by decide, by decide⟩

end Myts
